import Mathlib

/-!
# deblocus: negotiation, cipher factory, tunnel pool, egress queue

A shallow embedding of the parts of `tunnel/d5.go`, `tunnel/cipher.go`,
`tunnel/connPool.go`, `tunnel/queue.go`, `bootContext.go`,
`exception/exception.go` and `version.go` that the handshake, key-expansion,
tunnel-selection, routing and send-loop properties are about.

Conventions.
* A Go `byte` is a natural number below 256; a `[]byte` is a `List Nat`.
* Go `error` values are `GoError`; a nil error is `none`.
* A Go function that can panic returns an `Outcome`; the state reached at the
  moment of the panic is kept, so that what was written before it is visible.
* Library calls (SHA-1, MD5, RSA-OAEP, DH, the external authenticator,
  `sort.Sort`, the random source) are parameters.
* Pointers to tunnels, edges and exceptions are natural numbers into an
  explicit heap; the goroutine of a send loop is a sequence of events on the
  queue of its edge.
-/

namespace Deblocus

/-! ## Package exception -/

/-- The struct `Exception` of `exception/exception.go`. -/
structure Exception where
  msg : String
  code : Int
  warning : Bool
  deriving DecidableEq, Repr

/-- Source: `func (e *Exception) Error() string`. -/
def Exception.Error (e : Exception) : String := e.msg

/-- Source: `func (e *Exception) Code() int`. -/
def Exception.Code (e : Exception) : Int := e.code

/-- Source: `func (e *Exception) Warning() bool`. -/
def Exception.Warning (e : Exception) : Bool := e.warning

/-- Source: `func (e *Exception) Apply(appendage interface{}) *Exception`: a new
exception with the code of `e` and the message `e.msg`, a space and the `%v`
rendering of the appendage (passed here already rendered); the field `warning`
of the new value is left at its zero value. -/
def Exception.Apply (e : Exception) (appendage : String) : Exception :=
  { code := e.code, msg := e.msg ++ " " ++ appendage, warning := false }

/-- Source: `func NewW(msg string) *Exception`. -/
def NewW (msg : String) : Exception := { msg := msg, code := 0, warning := true }

/-- Source: `func New(code int, msg string) *Exception`. -/
def New (code : Int) (msg : String) : Exception := { msg := msg, code := code, warning := false }

/-- A Go `error` value: an `*exception.Exception`, or any other error (network,
crypto, authenticator) identified by its text. -/
inductive GoError where
  | exc (e : Exception)
  | other (text : String)
  deriving DecidableEq, Repr

/-- The value a goroutine panics with: an error passed to `panic` by `ThrowErr`
or `ThrowIf`, or a Go run-time error (nil dereference, index out of range). -/
inductive PanicVal where
  | err (e : GoError)
  | runtime (text : String)
  deriving DecidableEq, Repr

/-- How a call ends: it returns a value or it panics. -/
inductive Outcome (α : Type) where
  | ret (a : α)
  | panic (v : PanicVal)
  deriving DecidableEq, Repr

/-- The run-time panic of dereferencing a nil pointer. -/
def nilDereference : PanicVal :=
  .runtime "invalid memory address or nil pointer dereference"

/-- The run-time panic of indexing or slicing past the end of a slice. -/
def indexOutOfRange : PanicVal := .runtime "index out of range"

/-! ## Constants and exceptions of tunnel/d5.go and tunnel/cipher.go -/

def D5 : Nat := 0xd5
def DMLEN1 : Nat := 384
def TUN_PARAMS_LEN : Nat := 32

/-- Modelled from the spec: the constant `TKSZ`, declared outside the given
sources; the glossary gives "TKSZ: 20 (SHA-1 and token size in bytes)". -/
def TKSZ : Nat := 20

def DMLEN2 : Nat := TKSZ + 2

def INVALID_D5PARAMS : Exception := NewW "Invalid D5Params"
def D5SER_UNREACHABLE : Exception := NewW "D5Server is unreachable"
def VALIDATION_FAILED : Exception := NewW "Validation failed"
def NEGOTIATION_FAILED : Exception := NewW "Negotiation failed"
def DATATUN_SESSION : Exception := NewW "DT"
def INCONSISTENT_HASH : Exception := NewW "Inconsistent hash"
def INCOMPATIBLE_VERSION : Exception := NewW "Incompatible version"
def UNSUPPORTED_CIPHER : Exception := NewW "Unsupported cipher"

/-! ## Byte arithmetic -/

/-- The Go conversion `int8(a)` of a byte: the two's-complement reading. -/
def int8 (a : Nat) : Int :=
  if a % 256 < 128 then ((a % 256 : Nat) : Int) else ((a % 256 : Nat) : Int) - 256

/-- The Go conversion `byte(x)` of an integer: its low eight bits. -/
def byte (x : Int) : Nat := (x % 256).toNat

/-- The sum of two `int8` values in Go: it wraps around in eight bits. -/
def addInt8 (x y : Int) : Int := int8 (byte (x + y))

/-- The Go conversion `uint(x)` of a signed value on a 64-bit platform. -/
def uint (x : Int) : Nat := (x % 2 ^ 64).toNat

/-- Source: `func d5Sub(a byte) byte { return byte(D5 - int(int8(a))) }`. -/
def d5Sub (a : Nat) : Nat := byte ((D5 : Int) - int8 a)

/-- Source: `func d5SumValid(a, b byte) bool { return uint(int8(a)+int8(b))&0xff == D5 }`. -/
def d5SumValid (a b : Nat) : Bool := uint (addInt8 (int8 a) (int8 b)) &&& 0xff == D5

/-- Source: `binary.BigEndian.Uint16` of the first two bytes of a slice. -/
def beUint16 (b : List Nat) : Nat := b.getD 0 0 * 256 + b.getD 1 0

/-- Source: `binary.BigEndian.Uint32` of the first four bytes of a slice. -/
def beUint32 (b : List Nat) : Nat :=
  b.getD 0 0 * 2 ^ 24 + b.getD 1 0 * 2 ^ 16 + b.getD 2 0 * 2 ^ 8 + b.getD 3 0

/-- Source: `binary.BigEndian.PutUint16`: the two bytes of a `uint16`. -/
def putUint16 (v : Nat) : List Nat := [v / 256 % 256, v % 256]

/-- Source: `func ito4b(val uint32) []byte`: the four big-endian bytes of a `uint32`. -/
def ito4b (val : Nat) : List Nat :=
  [val / 2 ^ 24 % 256, val / 2 ^ 16 % 256, val / 2 ^ 8 % 256, val % 256]

/-- The Go builtin `copy(buf[lo:hi], src)`: it overwrites the bytes of `buf`
from `lo` on with the first `min (hi - lo) (len src)` bytes of `src`. -/
def copyInto (buf : List Nat) (lo hi : Nat) (src : List Nat) : List Nat :=
  buf.take lo ++ src.take (min (hi - lo) src.length) ++
    buf.drop (lo + min (hi - lo) src.length)

/-! ## tunnel/cipher.go -/

/-- The two functions a `cipherBuilder` can be: `newRC4` and `newAES_CFB`. -/
inductive cipherBuilder where
  | newRC4
  | newAES_CFB
  deriving DecidableEq, Repr

/-- Source: `type cipherDecr struct { keyLen int; builder cipherBuilder }`. -/
structure cipherDecr where
  keyLen : Nat
  builder : cipherBuilder
  deriving DecidableEq, Repr

/-- The map `availableCiphers`; `none` is the nil pointer a Go map lookup
gives for an absent key. -/
def availableCiphers (name : String) : Option cipherDecr :=
  if name = "RC4" then some ⟨16, .newRC4⟩
  else if name = "AES128CFB" then some ⟨16, .newAES_CFB⟩
  else if name = "AES256CFB" then some ⟨32, .newAES_CFB⟩
  else none

/-- Source: `type Cipher struct { enc, dec cipher.Stream }`: the stream pair is kept
as the data it was built from (which primitive, key and IV). -/
structure Cipher where
  builder : cipherBuilder
  key : List Nat
  iv : List Nat
  deriving DecidableEq, Repr

/-- Source: `type CipherFactory struct { key []byte; builder cipherBuilder }`. -/
structure CipherFactory where
  key : List Nat
  builder : cipherBuilder
  deriving DecidableEq, Repr

/-- Source: `const md5.Size = 16`. -/
def md5Size : Nat := 16

/-- Source: `const aes.BlockSize = 16`. -/
def aesBlockSize : Nat := 16

/-- Source: `func newRC4(key, iv []byte) *Cipher`: the IV is ignored; `rc4.NewCipher`
refuses a key of no byte or of more than 256 bytes, its error is dropped and
`*ec` dereferences the nil it returned. -/
def newRC4 (key : List Nat) : Outcome Cipher :=
  if key.length < 1 ∨ key.length > 256 then .panic nilDereference
  else .ret { builder := .newRC4, key := key, iv := [] }

/-- Source: `func newAES_CFB(key, iv []byte) *Cipher`: the IV is `key[:16]` when
`iv == nil`, else `iv[:16]`, and a slice shorter than 16 bytes (with no spare
capacity) makes the slicing panic; `aes.NewCipher` refuses a key that is not
of 16, 24 or 32 bytes, its error is dropped and `cipher.NewCFBEncrypter` calls
the nil block. -/
def newAES_CFB (key : List Nat) (iv : Option (List Nat)) : Outcome Cipher :=
  let v := iv.getD key
  if v.length < aesBlockSize then .panic indexOutOfRange
  else if key.length = 16 ∨ key.length = 24 ∨ key.length = 32 then
    .ret { builder := .newAES_CFB, key := key, iv := v.take aesBlockSize }
  else .panic nilDereference

/-- Source: `func (c *CipherFactory) NewCipher(iv []byte) *Cipher`:
`return c.builder(c.key, iv)`. -/
def CipherFactory.NewCipher (c : CipherFactory) (iv : Option (List Nat)) : Outcome Cipher :=
  match c.builder with
  | .newRC4 => newRC4 c.key
  | .newAES_CFB => newAES_CFB c.key iv

/-- One turn of the loop of `toSecretKey`: `h.Write(secret)` and then
`copy(buf[md5.Size*i:md5.Size*(i+1)-1], h.Sum(nil))`. The state is the bytes
written to `h` so far and the buffer. -/
def toSecretKeyStep (md5 : List Nat → List Nat) (secret : List Nat)
    (st : List Nat × List Nat) (i : Nat) : List Nat × List Nat :=
  let written := st.1 ++ secret
  (written, copyInto st.2 (md5Size * i) (md5Size * (i + 1) - 1) (md5 written))

/-- Source: `func toSecretKey(secret []byte, size int) []byte`. -/
def toSecretKey (md5 : List Nat → List Nat) (secret : List Nat) (size : Nat) : List Nat :=
  let buf := List.replicate size 0
  let count := size / md5Size
  ((List.range count).foldl (toSecretKeyStep md5 secret) ([], buf)).2

/-- Source: `func NewCipherFactory(name string, secret []byte) *CipherFactory`:
`def.keyLen` dereferences the pointer the map lookup returned. -/
def NewCipherFactory (md5 : List Nat → List Nat) (name : String) (secret : List Nat) :
    Outcome CipherFactory :=
  match availableCiphers name with
  | none => .panic nilDereference
  | some d => .ret { key := toSecretKey md5 secret d.keyLen, builder := d.builder }

/-! ## tunnel/connPool.go -/

/-- Source: `type TSPriority struct { last int64; rank int64 }`. -/
structure TSPriority where
  last : Int
  rank : Int
  deriving DecidableEq, Repr

/-- The value of an `int64` computation: it wraps around in 64 bits. -/
def wrapInt64 (x : Int) : Int := (x + 2 ^ 63) % 2 ^ 64 - 2 ^ 63

/-- A pointer `*Conn`; two pointers are the same tunnel when they are equal. -/
abbrev ConnRef := Nat

/-- The `priority` field of the `Conn` behind every pointer. -/
abbrev ConnHeap := ConnRef → TSPriority

/-- Source: `type ConnPool struct { pool sortableConns; lock sync.Locker }`. -/
structure ConnPool where
  pool : List ConnRef
  deriving DecidableEq, Repr

/-- Source: `func (h sortableConns) Less(i, j int) bool`, on the two elements at the
indices: `h[i].priority.rank > h[j].priority.rank`. -/
def sortableConns.Less (heap : ConnHeap) (a b : ConnRef) : Bool :=
  decide ((heap a).rank > (heap b).rank)

/-- What `sort.Sort` promises for an order that compares a key with `>`: the
slice is rearranged, and afterwards no element is `Less` than one before it. -/
def SortContract (sortFn : (ConnRef → ConnRef → Bool) → List ConnRef → List ConnRef) : Prop :=
  ∀ (heap : ConnHeap) (l : List ConnRef),
    (sortFn (sortableConns.Less heap) l).Perm l ∧
    (sortFn (sortableConns.Less heap) l).Pairwise
      (fun a b => sortableConns.Less heap b a = false)

/-- An instance of `sort.Sort`: insertion sort. -/
def insertionSortBy (less : ConnRef → ConnRef → Bool) (l : List ConnRef) : List ConnRef :=
  l.insertionSort (fun a b => less b a = false)

/-- Source: `func (h *ConnPool) Push(x *Conn)`. -/
def ConnPool.Push (h : ConnPool) (x : ConnRef) : ConnPool := { pool := h.pool ++ [x] }

/-- Source: `func (h *ConnPool) Len() int`. -/
def ConnPool.Len (h : ConnPool) : Nat := h.pool.length

/-- Source: `func (h *ConnPool) Select() *Conn`: the result, the pool and the heap
after the call. -/
def ConnPool.Select (sortFn : (ConnRef → ConnRef → Bool) → List ConnRef → List ConnRef)
    (h : ConnPool) (heap : ConnHeap) : Option ConnRef × ConnPool × ConnHeap :=
  if h.pool.length < 1 then (none, h, heap)
  else
    let sorted := sortFn (sortableConns.Less heap) h.pool
    match sorted with
    | [] => (none, { pool := sorted }, heap)
    | selected :: _ =>
      let heap' : ConnHeap := fun c =>
        if c = selected then { (heap c) with rank := wrapInt64 ((heap c).rank - 1) } else heap c
      (some selected, { pool := sorted }, heap')

/-! ## version.go -/

def ver_major : Nat := 0
def ver_minor : Nat := 9
def ver_build : Nat := 10 * 223 + 0

/-- The variable `version` as `init` of `version.go` fills it:
`major<<24 | minor<<16 | build`. -/
def version : Nat := (ver_major <<< 24) ||| (ver_minor <<< 16) ||| ver_build

/-! ## The hashed connection -/

/-- What the socket delivers to one `Read`: the next bytes that arrived, or an
error (deadline exceeded, reset). -/
inductive ReadEvent where
  | data (bs : List Nat)
  | fail (text : String)
  deriving DecidableEq, Repr

/-- Source: `io.EOF`. -/
def EOF : GoError := .other "EOF"

/-- Source: `io.ErrUnexpectedEOF`. -/
def ErrUnexpectedEOF : GoError := .other "unexpected EOF"

/-- Modelled from the spec: the type `hashedConn`, declared outside the given
sources: "a TCP connection plus two independent SHA-1 accumulators: RHash over
all bytes delivered to the application from reads, WHash over all bytes
accepted from the application for writes". The accumulators are kept as the
bytes fed to them. `incoming` is what the peer sends, in plaintext, cut the way
the socket delivers it; `writeResults` is what the successive calls of `Write`
will report (a success once the list is used up); `written` is every slice
handed to `Write`, in order; `cipher` is the field `hconn.cipher`;
`deadlineResult` is what `SetDeadline` reports. The errors of the socket are
network errors, given by their text: none of them is an `Exception`. -/
structure hashedConn where
  incoming : List ReadEvent
  writeResults : List (Option String)
  written : List (List Nat)
  rHash : List Nat
  wHash : List Nat
  cipher : Option Cipher
  deadlineResult : Option String
  remoteAddr : String
  deriving DecidableEq, Repr

/-- Modelled from the spec: `hashedConn.Read(p)` with `len(p) = n`, declared
outside the given sources. It returns the bytes read (at most `n`, the number
is `nr`), the error and the connection afterwards; the bytes delivered are fed
to RHash. A closed or silent connection reports `io.EOF`. -/
def hashedConn.Read (c : hashedConn) (n : Nat) : List Nat × Option GoError × hashedConn :=
  match c.incoming with
  | [] => ([], some EOF, c)
  | .fail text :: rest => ([], some (.other text), { c with incoming := rest })
  | .data bs :: rest =>
    if bs.length ≤ n then
      (bs, none, { c with incoming := rest, rHash := c.rHash ++ bs })
    else
      (bs.take n, none,
        { c with incoming := .data (bs.drop n) :: rest, rHash := c.rHash ++ bs.take n })

/-- Modelled from the spec: `hashedConn.Write(b)`, declared outside the given
sources: the slice is recorded and fed to WHash; the error is the next of
`writeResults`. -/
def hashedConn.Write (c : hashedConn) (b : List Nat) : Option GoError × hashedConn :=
  (c.writeResults.head?.join.map GoError.other,
    { c with written := c.written ++ [b], wHash := c.wHash ++ b,
             writeResults := c.writeResults.tail })

/-- Modelled from the spec: `RHashSum()`, "an immutable 20-byte snapshot" that
does "not reset the accumulator". -/
def hashedConn.RHashSum (sha1 : List Nat → List Nat) (c : hashedConn) : List Nat := sha1 c.rHash

/-- Modelled from the spec: `WHashSum()`, the snapshot of the write hash. -/
def hashedConn.WHashSum (sha1 : List Nat → List Nat) (c : hashedConn) : List Nat := sha1 c.wHash

/-- A buffer `make([]byte, n)` after a read delivered `got` into its front. -/
def filled (got : List Nat) (n : Nat) : List Nat := got ++ List.replicate (n - got.length) 0

/-- The loop of `io.ReadAtLeast(r, buf, min)` with `min = len(buf)`:
`for n < min && err == nil { nn, err = r.Read(buf[n:]); n += nn }`. Every turn
without an error uses up one element of `incoming` or fills the buffer, so
`fuel` turns are never exceeded when `fuel` is above the length of `incoming`
(`readAtLeastLoop_filled`). -/
def readAtLeastLoop : Nat → hashedConn → Nat → List Nat → List Nat × Option GoError × hashedConn
  | 0, c, _, got => (got, none, c)
  | fuel + 1, c, min, got =>
    if got.length < min then
      match c.Read (min - got.length) with
      | (bs, none, c') => readAtLeastLoop fuel c' min (got ++ bs)
      | (bs, some e, c') => (got ++ bs, some e, c')
    else (got, none, c)

/-- Source: `io.ReadFull(reader, buf)` with `len(buf) = n`: the bytes read, the error
(`nil` when the buffer was filled, `ErrUnexpectedEOF` for an `EOF` after some
bytes) and the connection afterwards. -/
def ReadFull (c : hashedConn) (n : Nat) : List Nat × Option GoError × hashedConn :=
  match readAtLeastLoop (c.incoming.length + 1) c n [] with
  | (got, err, c') =>
    if got.length ≥ n then (got, none, c')
    else if got.length > 0 ∧ err = some EOF then (got, some ErrUnexpectedEOF, c')
    else (got, err, c')

/-- The `switch len_inByte` of `ReadFullByLen`: the length of the buffer made
from the first segment `lb` (no buffer, so length 0, for another width). -/
def segmentLength (len_inByte : Nat) (lb : List Nat) : Nat :=
  if len_inByte = 1 then lb.getD 0 0
  else if len_inByte = 2 then beUint16 lb
  else if len_inByte = 4 then beUint32 lb
  else 0

/-- Source: `func ReadFullByLen(len_inByte int, reader io.Reader) (buf []byte, err error)`:
the buffer returned (`nil` is the empty slice), the error and the connection
afterwards. -/
def ReadFullByLen (len_inByte : Nat) (reader : hashedConn) :
    List Nat × Option GoError × hashedConn :=
  match reader.Read len_inByte with
  | (_, some e, c) => ([], some e, c)
  | (got, none, c) =>
    match ReadFull c (segmentLength len_inByte (filled got len_inByte)) with
    | (data, err, c') =>
      (filled data (segmentLength len_inByte (filled got len_inByte)), err, c')

/-! ## Collaborators of the negotiation -/

/-- The library calls and the collaborators outside the given sources:
SHA-1 and MD5, `RSADecrypt` with the server's private key, the external
authenticator `AuthSys.Authenticate`, `takeSharedKey` with the side's own DH
pair (`none` when `ComputeKey` fails, which makes `k.Bytes()` dereference nil),
the side's DH public value with its length prefix, and the random source. -/
structure Lib where
  sha1 : List Nat → List Nat
  md5 : List Nat → List Nat
  RSADecrypt : List Nat → Except GoError (List Nat)
  Authenticate : List Nat → Bool × Option GoError
  takeSharedKey : List Nat → Option (List Nat)
  dhPubLen : List Nat
  dhPub : List Nat
  random : Nat → Nat

/-- Constants declared outside the given sources; `VERSION` is injected by the
main package from `version`. -/
structure Consts where
  VERSION : Nat
  GENERATE_TOKEN_NUM : Nat
  CTL_PING_INTERVAL : Nat
  DT_PING_INTERVAL : Nat
  PARALLEL_TUN_QTY : Nat

/-- Modelled from the spec: the type `Session`, declared outside the given
sources: "{ cipher_factory, client_identity, token_set, tunnels[] }"; the two
fields `NewSession` is given are kept. -/
structure Session where
  cipherFactory : CipherFactory
  identity : List Nat
  deriving DecidableEq, Repr

/-- Modelled from the spec: `NewSession(conn, cf, identity)`, declared outside
the given sources. -/
def NewSession (cf : CipherFactory) (identity : List Nat) : Session :=
  { cipherFactory := cf, identity := identity }

/-- Modelled from the spec: the session manager, declared outside the given
sources: a map from tokens to sessions, kept as an association list. -/
structure SessionMgr where
  container : List (List Nat × Session)
  deriving DecidableEq, Repr

/-- Modelled from the spec: `take(token20) -> session?`, "atomic
lookup-and-remove; returns the associated session or none". -/
def SessionMgr.take (m : SessionMgr) (token : List Nat) : Option Session × SessionMgr :=
  match m.container.find? (fun p => decide (p.1 = token)) with
  | some p => (some p.2, { container := m.container.filter (fun q => decide (q.1 ≠ token)) })
  | none => (none, m)

/-- Source: `func randArray(aLen int, randLen int) []byte` with `randLen = aLen`: the
next `aLen` bytes of the random source, read from position `pos`. -/
def randArray (random : Nat → Nat) (pos aLen : Nat) : List Nat :=
  (List.range aLen).map (fun i => random (pos + i) % 256)

/-- Modelled from the spec: `createTokens(session, n) -> bytes(n*20)`,
"generate n random 20-byte tokens; install each as a key pointing to session;
return them concatenated in the order installed". -/
def SessionMgr.createTokens (random : Nat → Nat) (pos : Nat) (m : SessionMgr)
    (session : Session) : Nat → List Nat × SessionMgr
  | 0 => ([], m)
  | n + 1 =>
    let token := randArray random pos TKSZ
    let m1 : SessionMgr :=
      { container := m.container.filter (fun q => decide (q.1 ≠ token)) ++ [(token, session)] }
    let r := SessionMgr.createTokens random (pos + TKSZ) m1 session n
    (token ++ r.1, r.2)

/-- What the negotiation does besides reading and writing the connection. -/
inductive Event where
  | rsaDecrypt (block : List Nat)
  | authenticate (identity : List Nat)
  | take (token : List Nat)
  | newSession (identity : List Nat)
  | createTokens (n : Nat)
  | logWarning (text : String)
  | logError (text : String)
  deriving DecidableEq, Repr

/-! ## tunnel/d5.go: client negotiation -/

/-- Source: `type tunParams struct`. -/
structure tunParams where
  cipherFactory : Option CipherFactory
  token : List Nat
  stInterval : Nat
  dtInterval : Nat
  tunQty : Nat
  deriving DecidableEq, Repr

/-- What a client negotiation step works on: the connection `sconn`, the
parameters `t` it fills in, and what it logged. -/
structure ClientState where
  sconn : hashedConn
  t : tunParams
  trace : List Event
  deriving DecidableEq, Repr

/-- The verb `%04d` of `fmt.Sprintf`: decimal, padded with zeros to four digits. -/
def fmt04d (n : Nat) : String :=
  String.mk (List.replicate (4 - (Nat.repr n).length) '0') ++ Nat.repr n

/-- Source: `fmt.Sprintf("%d.%d.%04d", oVer>>24, (oVer>>16)&0xFF, oVer&0xFFFF)`. -/
def oVerStr (oVer : Nat) : String :=
  Nat.repr (oVer >>> 24) ++ "." ++ Nat.repr ((oVer >>> 16) &&& 0xFF) ++ "." ++
    fmt04d (oVer &&& 0xFFFF)

/-- The statements of `validateAndGetTokens` after the version check
(`ofs := 4` to the end): the tunnel parameters are read out of `buf`, then the
hashes are exchanged and compared. -/
def d5CNegotiation.parseParamsThenCrossCheck (lib : Lib) (s : ClientState) (buf : List Nat) :
    Outcome (Option GoError) × ClientState :=
  -- t.stInterval = int(binary.BigEndian.Uint16(buf[4:]))
  if buf.length < 6 then (.panic indexOutOfRange, s) else
  let s1 := { s with t := { s.t with stInterval := beUint16 (buf.drop 4) } }
  -- t.dtInterval = int(binary.BigEndian.Uint16(buf[6:]))
  if buf.length < 8 then (.panic indexOutOfRange, s1) else
  let s2 := { s1 with t := { s1.t with dtInterval := beUint16 (buf.drop 6) } }
  -- t.tunQty = int(buf[8])
  if buf.length < 9 then (.panic indexOutOfRange, s2) else
  let s3 := { s2 with t := { s2.t with tunQty := buf.getD 8 0 } }
  -- t.token = buf[TUN_PARAMS_LEN:]
  if buf.length < TUN_PARAMS_LEN then (.panic indexOutOfRange, s3) else
  let s4 := { s3 with t := { s3.t with token := buf.drop TUN_PARAMS_LEN } }
  let rHash := s4.sconn.RHashSum lib.sha1
  let wHash := s4.sconn.WHashSum lib.sha1
  -- _, err = sconn.Write(rHash); ThrowErr(err)
  match s4.sconn.Write rHash with
  | (some e, c) => (.panic (.err e), { s4 with sconn := c })
  | (none, c) =>
    -- oHash := make([]byte, TKSZ); _, err = sconn.Read(oHash)
    match c.Read TKSZ with
    | (got, err, c') =>
      let oHash := filled got TKSZ
      if wHash ≠ oHash then
        (.ret (some (.exc INCONSISTENT_HASH)),
          { s4 with sconn := c',
                    trace := s4.trace ++ [Event.logError "Server hash/r is inconsistence with the client/w"] })
      else (.ret err, { s4 with sconn := c' })

/-- Source: `func (nego *d5CNegotiation) validateAndGetTokens(sconn *hashedConn, t *tunParams) (err error)`
with `VERSION` the local version. -/
def d5CNegotiation.validateAndGetTokens (lib : Lib) (VERSION : Nat) (s : ClientState) :
    Outcome (Option GoError) × ClientState :=
  -- buf, err := ReadFullByLen(2, sconn); ThrowErr(err)
  match ReadFullByLen 2 s.sconn with
  | (_, some e, c) => (.panic (.err e), { s with sconn := c })
  | (buf, none, c) =>
    let s0 := { s with sconn := c }
    let tVer := VERSION
    -- oVer := binary.BigEndian.Uint32(buf)
    if buf.length < 4 then (.panic indexOutOfRange, s0) else
    let oVer := beUint32 buf
    if oVer > tVer then
      if tVer >>> 16 = oVer >>> 16 then
        d5CNegotiation.parseParamsThenCrossCheck lib
          { s0 with trace := s0.trace ++
              [Event.logWarning ("Caution !!! Please upgrade to new version, remote is v" ++ oVerStr oVer)] }
          buf
      else (.ret (some (.exc (INCOMPATIBLE_VERSION.Apply (oVerStr oVer)))), s0)
    else d5CNegotiation.parseParamsThenCrossCheck lib s0 buf

/-- The obfuscated header of `requestAuthAndDHExchange`, from the 256 random
bytes `randArray(256, 256)` returned: `obf[0xff] = d5Sub(obf[0xd5])`. -/
def obfHeader (obf : List Nat) : List Nat := obf.set 0xff (d5Sub (obf.getD 0xd5 0))

/-! ## tunnel/d5.go: server negotiation -/

/-- Source: `type d5SNegotiation struct`: of the embedded `*Server` the fields `Algo`
and `sessionMgr` are kept (its keys and authenticator are in `Lib`). -/
structure d5SNegotiation where
  Algo : String
  sessionMgr : SessionMgr
  clientAddr : String
  clientIdentity : List Nat
  tokenBuf : List Nat
  deriving DecidableEq, Repr

/-- What a server negotiation works on: the connection, the negotiation
object, what it called and logged, and how far the random source was read. -/
structure ServerState where
  hconn : hashedConn
  nego : d5SNegotiation
  trace : List Event
  randPos : Nat
  deriving DecidableEq, Repr

/-- Source: `func (nego *d5SNegotiation) transSession(conn *hashedConn, buf []byte)
(session *Session, err error)`. -/
def d5SNegotiation.transSession (s : ServerState) (buf : List Nat) :
    Outcome (Option Session × Option GoError) × ServerState :=
  let token := buf.take TKSZ
  let s1 := { s with trace := s.trace ++ [Event.take token] }
  match s1.nego.sessionMgr.take token with
  | (some ss, m) =>
    (.ret (some ss, some (.exc DATATUN_SESSION)),
      { s1 with nego := { s1.nego with sessionMgr := m, tokenBuf := buf } })
  | (none, m) =>
    (.ret (none, some (.exc VALIDATION_FAILED)),
      { s1 with nego := { s1.nego with sessionMgr := m },
                trace := s1.trace ++ [Event.logWarning "Incorrect token"] })

/-- Source: `func (nego *d5SNegotiation) verifyThenDHExchange(conn net.Conn, credBuf []byte)
(key []byte, err error)`. -/
def d5SNegotiation.verifyThenDHExchange (lib : Lib) (s : ServerState) (credBuf : List Nat) :
    Outcome (List Nat × Option GoError) × ServerState :=
  -- userIdentity, err := RSADecrypt(credBuf, nego.RSAKeys.priv); ThrowErr(err)
  let s1 := { s with trace := s.trace ++ [Event.rsaDecrypt credBuf] }
  match lib.RSADecrypt credBuf with
  | .error e => (.panic (.err e), s1)
  | .ok userIdentity =>
    let clientIdentity := userIdentity
    -- allow, ex := nego.AuthSys.Authenticate(userIdentity)
    let s2 := { s1 with trace := s1.trace ++ [Event.authenticate userIdentity] }
    match lib.Authenticate userIdentity with
    | (allow, ex) =>
      -- cDHPub, err := ReadFullByLen(2, conn)
      match ReadFullByLen 2 s2.hconn with
      | (cDHPub, _, c) =>
        let s3 := { s2 with hconn := c }
        if allow = false then
          -- conn.Write([]byte{0, 1, 0xff}); return nil, ex
          let s4 := { s3 with trace := s3.trace ++ [Event.logWarning "Auth failed"] }
          (.ret ([], ex), { s4 with hconn := (s4.hconn.Write [0, 1, 0xff]).2 })
        else
          let s4 := { s3 with nego := { s3.nego with clientIdentity := clientIdentity } }
          -- key = takeSharedKey(nego.dhKeys, cDHPub)
          match lib.takeSharedKey cDHPub with
          | none => (.panic nilDereference, s4)
          | some key =>
            -- buf.Write(pubLen); buf.Write(pub); _, err = buf.WriteTo(conn)
            let out := lib.dhPubLen ++ lib.dhPub
            if out = [] then (.ret (key, none), s4)
            else
              match s4.hconn.Write out with
              | (err, c') => (.ret (key, err), { s4 with hconn := c' })

/-- The head `tpBuf` that `respondTestWithToken` sends: 34 random bytes with
the length, the version, the two intervals and the tunnel quantity written
over the front. `uint16(x)` keeps the low sixteen bits. -/
def tunParamsHead (k : Consts) (rnd : List Nat) : List Nat :=
  let b0 := copyInto rnd 0 rnd.length
    (putUint16 ((TUN_PARAMS_LEN + k.GENERATE_TOKEN_NUM * TKSZ) % 65536))
  let b1 := copyInto b0 2 b0.length (ito4b k.VERSION)
  let b2 := copyInto b1 6 b1.length (putUint16 (k.CTL_PING_INTERVAL % 65536))
  let b3 := copyInto b2 8 b2.length (putUint16 (k.DT_PING_INTERVAL % 65536))
  b3.set 10 (k.PARALLEL_TUN_QTY % 256)

/-- The first half of `respondTestWithToken` (to the second `ThrowErr`): the
head and the freshly minted tokens are written to the connection. -/
def d5SNegotiation.sendParamsAndTokens (lib : Lib) (k : Consts) (s : ServerState)
    (session : Session) : Outcome Unit × ServerState :=
  let headLen := TUN_PARAMS_LEN + 2
  let tpBuf := tunParamsHead k (randArray lib.random s.randPos headLen)
  let s1 := { s with randPos := s.randPos + headLen }
  -- _, err = sconn.Write(tpBuf); ThrowErr(err)
  match s1.hconn.Write tpBuf with
  | (some e, c) => (.panic (.err e), { s1 with hconn := c })
  | (none, c) =>
    -- tokens := nego.sessionMgr.createTokens(session, GENERATE_TOKEN_NUM)
    let r := s1.nego.sessionMgr.createTokens lib.random s1.randPos session k.GENERATE_TOKEN_NUM
    let tokens := r.1
    let s2 := { s1 with hconn := c, nego := { s1.nego with sessionMgr := r.2 },
                        randPos := s1.randPos + k.GENERATE_TOKEN_NUM * TKSZ,
                        trace := s1.trace ++ [Event.createTokens k.GENERATE_TOKEN_NUM] }
    -- _, err = sconn.Write(tokens); ThrowErr(err)
    match s2.hconn.Write tokens with
    | (some e, c1) => (.panic (.err e), { s2 with hconn := c1 })
    | (none, c1) => (.ret (), { s2 with hconn := c1 })

/-- Source: `func (nego *d5SNegotiation) respondTestWithToken(sconn *hashedConn, session *Session)
(err error)`: `sendParamsAndTokens`, then the exchange of the hashes. -/
def d5SNegotiation.respondTestWithToken (lib : Lib) (k : Consts) (s : ServerState)
    (session : Session) : Outcome (Option GoError) × ServerState :=
  match d5SNegotiation.sendParamsAndTokens lib k s session with
  | (.panic v, s2) => (.panic v, s2)
  | (.ret _, s2) =>
    let rHash := s2.hconn.RHashSum lib.sha1
    let wHash := s2.hconn.WHashSum lib.sha1
    -- oHash := make([]byte, TKSZ); _, err = sconn.Read(oHash); ThrowErr(err)
    match s2.hconn.Read TKSZ with
    | (_, some e, c2) => (.panic (.err e), { s2 with hconn := c2 })
    | (got, none, c2) =>
      let oHash := filled got TKSZ
      if wHash ≠ oHash then
        (.ret (some (.exc INCONSISTENT_HASH)),
          { s2 with hconn := c2,
                    trace := s2.trace ++ [Event.logError "Remote hash/r not equals self/w"] })
      else
        -- _, err = sconn.Write(rHash); ThrowErr(err)
        match c2.Write rHash with
        | (some e, c3) => (.panic (.err e), { s2 with hconn := c3 })
        | (none, c3) => (.ret none, { s2 with hconn := c3 })

/-- The second `if` of `negotiate` and what follows it: the full handshake
when `nr == DMLEN1` and the marker is valid, else `NEGOTIATION_FAILED`. -/
def d5SNegotiation.negotiateFull (lib : Lib) (k : Consts) (s : ServerState) (nr : Nat)
    (buf : List Nat) : Outcome (Option Session × Option GoError) × ServerState :=
  if nr = DMLEN1 ∧ d5SumValid (buf.getD 0xd5 0) (buf.getD 0xff 0) = true then
    -- skey, err = nego.verifyThenDHExchange(hconn, buf[256:]); ThrowErr(err)
    match d5SNegotiation.verifyThenDHExchange lib s (buf.drop 256) with
    | (.panic v, s1) => (.panic v, s1)
    | (.ret (_, some e), s1) => (.panic (.err e), s1)
    | (.ret (skey, none), s1) =>
      -- cf = NewCipherFactory(nego.Algo, skey)
      match NewCipherFactory lib.md5 s1.nego.Algo skey with
      | .panic v => (.panic v, s1)
      | .ret cf =>
        -- hconn.cipher = cf.NewCipher(nil)
        match cf.NewCipher none with
        | .panic v => (.panic v, s1)
        | .ret cipher =>
          let s2 := { s1 with hconn := { s1.hconn with cipher := some cipher } }
          -- session = NewSession(hconn.Conn, cf, nego.clientIdentity)
          let session := NewSession cf s2.nego.clientIdentity
          let s3 := { s2 with trace := s2.trace ++ [Event.newSession s2.nego.clientIdentity] }
          -- err = nego.respondTestWithToken(hconn, session); return
          match d5SNegotiation.respondTestWithToken lib k s3 session with
          | (.panic v, s4) => (.panic v, s4)
          | (.ret err, s4) => (.ret (some session, err), s4)
  else
    (.ret (none, some (.exc NEGOTIATION_FAILED)),
      { s with trace := s.trace ++ [Event.logWarning "Unrecognized Request"] })

/-- Source: `func (nego *d5SNegotiation) negotiate(hconn *hashedConn) (session *Session, err error)`. -/
def d5SNegotiation.negotiate (lib : Lib) (k : Consts) (s : ServerState) :
    Outcome (Option Session × Option GoError) × ServerState :=
  -- setSoTimeout(hconn)
  match s.hconn.deadlineResult with
  | some text => (.panic (.err (.other text)), s)
  | none =>
    let s0 := { s with nego := { s.nego with clientAddr := s.hconn.remoteAddr } }
    -- buf = make([]byte, DMLEN1); nr, err = hconn.Read(buf); ThrowErr(err)
    match s0.hconn.Read DMLEN1 with
    | (_, some e, c) => (.panic (.err e), { s0 with hconn := c })
    | (got, none, c) =>
      let s1 := { s0 with hconn := c }
      let nr := got.length
      let buf := filled got DMLEN1
      if nr = DMLEN2 then
        if d5SumValid (buf.getD (TKSZ - 2) 0) (buf.getD TKSZ 0) = true ∧
            d5SumValid (buf.getD (TKSZ - 1) 0) (buf.getD (TKSZ + 1) 0) = true then
          d5SNegotiation.transSession s1 buf
        else d5SNegotiation.negotiateFull lib k s1 nr buf
      else d5SNegotiation.negotiateFull lib k s1 nr buf

/-! ## Concrete inputs -/

/-- A stand-in for SHA-1 on concrete inputs: twenty copies of the byte sum. -/
def demoSha1 (x : List Nat) : List Nat := List.replicate 20 (x.sum % 256)

/-- A stand-in for MD5 on concrete inputs: sixteen bytes counting up from the
byte sum plus the length. -/
def demoMd5 (x : List Nat) : List Nat :=
  (List.range 16).map (fun i => (x.sum + x.length + i) % 256)

/-- Collaborators for concrete inputs; `auth` is what the authenticator
answers to every identity. -/
def demoLib (auth : Bool × Option GoError) : Lib :=
  { sha1 := demoSha1, md5 := demoMd5, RSADecrypt := fun b => .ok (b.take 3),
    Authenticate := fun _ => auth, takeSharedKey := fun p => some p,
    dhPubLen := [0, 1], dhPub := [7], random := fun i => i }

def demoConsts : Consts :=
  { VERSION := version, GENERATE_TOKEN_NUM := 2, CTL_PING_INTERVAL := 30,
    DT_PING_INTERVAL := 60, PARALLEL_TUN_QTY := 3 }

/-- A fresh connection on which the peer sends `incoming`. -/
def demoConn (incoming : List ReadEvent) : hashedConn :=
  { incoming := incoming, writeResults := [], written := [], rHash := [], wHash := [],
    cipher := none, deadlineResult := none, remoteAddr := "peer" }

def demoClient (incoming : List ReadEvent) : ClientState :=
  { sconn := demoConn incoming, t := ⟨none, [], 0, 0, 0⟩, trace := [] }

def demoServer (incoming : List ReadEvent) : ServerState :=
  { hconn := demoConn incoming, nego := ⟨"RC4", ⟨[]⟩, "", [], []⟩, trace := [], randPos := 0 }

/-- A 32-byte tunnel parameter block that carries the version `ver`. -/
def paramsBlock (ver : Nat) : List Nat := ito4b ver ++ [0, 30, 0, 60, 3] ++ List.replicate 23 0

/-- A 384-byte first request with a valid marker: `buf[0xd5] = 0xd5`, `buf[0xff] = 0`. -/
def fullRequest : List Nat := List.replicate 0xd5 0 ++ [0xd5] ++ List.replicate 170 0

/-- What a read leaves alone: the write side of the connection and its cipher. -/
def sameWriteSide (c c' : hashedConn) : Prop :=
  c'.written = c.written ∧ c'.cipher = c.cipher ∧ c'.wHash = c.wHash ∧
    c'.writeResults = c.writeResults

/-! ## Consecutive selections -/

/-- The tunnels that `n` consecutive calls of `Select` return, first call
first, with no `Push` or `Remove` in between, and the pool and the heap after
the last call. -/
def ConnPool.selectMany (sortFn : (ConnRef → ConnRef → Bool) → List ConnRef → List ConnRef) :
    Nat → ConnPool → ConnHeap → List (Option ConnRef) × ConnPool × ConnHeap
  | 0, h, heap => ([], h, heap)
  | n + 1, h, heap =>
    let r := ConnPool.Select sortFn h heap
    let rs := ConnPool.selectMany sortFn n r.2.1 r.2.2
    (r.1 :: rs.1, rs.2.1, rs.2.2)

/-- The ranks of the tunnels of the pool differ by at most 1. -/
def ranksWithinOne (h : ConnPool) (heap : ConnHeap) : Prop :=
  ∀ a ∈ h.pool, ∀ b ∈ h.pool, (heap a).rank ≤ (heap b).rank + 1

/-! ## tunnel/queue.go -/

def TCP_CLOSE_R : Nat := 1
def TCP_CLOSE_W : Nat := 1 <<< 1
def TCP_CLOSED : Nat := TCP_CLOSE_R ||| TCP_CLOSE_W

/-- A pointer `*edgeConn`. -/
abbrev EdgeRef := Nat

/-- The frame action codes that `queue.go` names; they are declared outside the
given sources and taken as parameters. -/
structure FrameActions where
  FRAME_ACTION_CLOSE : Nat
  FRAME_ACTION_CLOSE_R : Nat
  FRAME_ACTION_CLOSE_W : Nat
  deriving DecidableEq, Repr

/-- Modelled from the spec: the type `frame`, declared outside the given
sources: "{ action: u8, stream_id: u16, length: u16, data: bytes[length],
conn: edge }". The field `conn` is nil until `deliver` sets it. -/
structure frame where
  action : Nat
  sid : Nat
  length : Nat
  data : List Nat
  conn : Option EdgeRef
  deriving DecidableEq, Repr

/-- The local `net.Conn` of an edge: the bytes `Write` accepted so far, what
the coming calls of `Write` will do (`none`: all of the slice is written and
the error is nil; `some (nw, text)`: `nw` bytes are written and the error
`text` is returned; a success once the list is used up), whether it is a
`*net.TCPConn`, and whether `Close` and `CloseWrite` were called. -/
structure LocalConn where
  written : List Nat
  writeResults : List (Option (Nat × String))
  isTCP : Bool
  closed : Bool
  writeClosed : Bool
  deriving DecidableEq, Repr

/-- `dst.Write(p)`: the number of bytes written, the error and the connection
afterwards. -/
def LocalConn.Write (c : LocalConn) (p : List Nat) : Nat × Option String × LocalConn :=
  match c.writeResults with
  | [] => (p.length, none, { c with written := c.written ++ p })
  | none :: rest =>
    (p.length, none, { c with written := c.written ++ p, writeResults := rest })
  | some (nw, text) :: rest =>
    (min nw p.length, some text,
      { c with written := c.written ++ p.take nw, writeResults := rest })

/-- Source: `func SafeClose(conn net.Conn)` on a connection that is not nil. -/
def SafeClose (c : LocalConn) : LocalConn := { c with closed := true }

/-- Source: `func closeW(conn net.Conn)`: `CloseWrite` on a TCP connection, `Close` on
any other. -/
def closeW (c : LocalConn) : LocalConn :=
  if c.isTCP then { c with writeClosed := true } else { c with closed := true }

/-- Source: `type equeue struct`: the `buffer` is nil once the queue was closed; the
`edge` is the edge that holds the queue. -/
structure equeue where
  buffer : Option (List frame)
  deriving DecidableEq, Repr

/-- Source: `type edgeConn struct`; the `mux` is the one multiplexer of `MuxState`;
`ready` tells whether the channel was made. -/
structure edgeConn where
  tun : Option ConnRef
  conn : LocalConn
  ready : Bool
  key : String
  dest : String
  queue : Option equeue
  positive : Bool
  closed : Nat
  deriving DecidableEq, Repr

/-- The multiplexer with its router and pool, and the objects its pointers
lead to. `isClient` and `pool` are the fields of `multiplexer` that `queue.go`
reads; `registry` is the map of the `egressRouter` (every key at most once);
`edges` is the `edgeConn` behind every pointer and `nextEdge` the next fresh
pointer; `heap`, `identifier` and `localAddrNil` are, for every tunnel, its
priority, its `identifier` and whether `LocalAddr()` returns nil; `upstream`
is what `tunWrite2` was called with, in order. -/
structure MuxState where
  isClient : Bool
  pool : ConnPool
  heap : ConnHeap
  identifier : ConnRef → String
  localAddrNil : ConnRef → Bool
  registry : List (String × EdgeRef)
  edges : EdgeRef → edgeConn
  nextEdge : EdgeRef
  upstream : List (ConnRef × frame)

/-- The edge behind `e` is replaced by `f` of it. -/
def MuxState.modifyEdge (st : MuxState) (e : EdgeRef) (f : edgeConn → edgeConn) : MuxState :=
  { st with edges := Function.update st.edges e (f (st.edges e)) }

/-- Source: `func newEdgeConn(mux *multiplexer, key, dest string, tun *Conn, conn net.Conn)
*edgeConn`: the new edge. -/
def newEdgeConn (isClient : Bool) (key dest : String) (tun : Option ConnRef)
    (conn : LocalConn) : edgeConn :=
  { tun := tun, conn := conn, ready := isClient, key := key, dest := dest, queue := none,
    positive := false, closed := 0 }

/-- Source: `func (edge *edgeConn) initEqueue() *equeue`: the edge gets a queue with
an empty buffer (and its send loop is started). -/
def edgeConn.initEqueue (edge : edgeConn) : edgeConn :=
  { edge with queue := some { buffer := some [] } }

/-- Source: `func (q *equeue) _push(frm *frame)`, on the queue of an edge. -/
def equeue._push (q : equeue) (frm : frame) : equeue :=
  match q.buffer with
  | some b => { q with buffer := some (b ++ [frm]) }
  | none => q

/-- Source: `func (e *edgeConn) deliver(frm *frame)`. -/
def edgeConn.deliver (st : MuxState) (e : EdgeRef) (frm : frame) : MuxState :=
  match (st.edges e).queue with
  | some q =>
    st.modifyEdge e (fun ed => { ed with queue := some (q._push { frm with conn := some e }) })
  | none => st

/-- The lookup `r.registry[key]` of a Go map. -/
def lookupKey (registry : List (String × EdgeRef)) (key : String) : Option EdgeRef :=
  (registry.find? (fun p => decide (p.1 = key))).map Prod.snd

/-- Source: `func (r *egressRouter) register(key, destination string, tun *Conn,
conn net.Conn, positive bool) *edgeConn`: the edge returned and the state
afterwards. -/
def egressRouter.register (st : MuxState) (key destination : String) (tun : Option ConnRef)
    (conn : LocalConn) (positive : Bool) : EdgeRef × MuxState :=
  match lookupKey st.registry key with
  | some edge => (edge, st)
  | none =>
    let edge0 := { newEdgeConn st.isClient key destination tun conn with positive := positive }
    let edge1 := if positive = false then edge0.initEqueue else edge0
    (st.nextEdge,
      { st with edges := Function.update st.edges st.nextEdge edge1,
                nextEdge := st.nextEdge + 1,
                registry := st.registry ++ [(key, st.nextEdge)] })

/-- Source: `strings.HasPrefix(s, p)`. -/
def HasPrefix (s p : String) : Bool := p.data.isPrefixOf s.data

/-- The frame `&frame{action: FRAME_ACTION_CLOSE}` of `cleanOfTun` and `destroy`. -/
def closeSentinel (A : FrameActions) : frame :=
  { action := A.FRAME_ACTION_CLOSE, sid := 0, length := 0, data := [], conn := none }

/-- The body of the loop of `cleanOfTun` for the entry `(k, e)`:
`if strings.HasPrefix(k, prefix) && e.queue != nil { e.queue._push(frm);
delete(r.registry, k) }`. -/
def cleanOfTunStep (A : FrameActions) (tunId : String) (st : MuxState)
    (entry : String × EdgeRef) : MuxState :=
  match (st.edges entry.2).queue with
  | some q =>
    if HasPrefix entry.1 tunId then
      let st1 := st.modifyEdge entry.2
        (fun ed => { ed with queue := some (q._push (closeSentinel A)) })
      { st1 with registry := st1.registry.filter (fun p => decide (p.1 ≠ entry.1)) }
    else st
  | none => st

/-- Source: `func (r *egressRouter) cleanOfTun(tun *Conn)`: the entries of the map
are visited in the order of `registry`. -/
def egressRouter.cleanOfTun (A : FrameActions) (st : MuxState) (tun : ConnRef) : MuxState :=
  st.registry.foldl (cleanOfTunStep A (st.identifier tun)) st

/-- Source: `func (q *equeue) _close(force bool, close_code uint)`, on the queue of the
edge `e`. -/
def equeue._close (st : MuxState) (e : EdgeRef) (force : Bool) : MuxState :=
  st.modifyEdge e (fun ed =>
    let ed1 : edgeConn := { ed with queue := ed.queue.map (fun (q : equeue) => { q with buffer := none }) }
    if force then { ed1 with closed := TCP_CLOSE_R ||| TCP_CLOSE_W, conn := SafeClose ed1.conn }
    else { ed1 with conn := closeW ed1.conn })

/-- Source: `func sendFrame(frm *frame) (werr bool)`: `none` is the nil dereference of
`frm.conn.conn` for a frame that was not delivered through an edge. -/
def sendFrame (st : MuxState) (frm : frame) : Option (Bool × MuxState) :=
  match frm.conn with
  | none => none
  | some dstEdge =>
    match (st.edges dstEdge).conn.Write frm.data with
    | (nw, ew, c) =>
      let st1 := st.modifyEdge dstEdge (fun ed => { ed with conn := c })
      if nw = frm.length ∧ ew = none then some (false, st1) else some (true, st1)

/-- Where the goroutine of `sendLoop` stands. -/
inductive LoopStatus where
  | running
  | exited
  | panicked
  deriving DecidableEq, Repr

/-- The tunnel that `sendLoop` picks for the `CLOSE_R` of the edge `e`:
`tun := edge.tun; if (tun == nil || tun.LocalAddr() == nil) && edge.mux.isClient
{ tun = edge.mux.pool.Select() }`. -/
def pickTunnel (sortFn : (ConnRef → ConnRef → Bool) → List ConnRef → List ConnRef)
    (e : EdgeRef) (st : MuxState) : Option ConnRef × MuxState :=
  if ((st.edges e).tun = none ∨ (st.edges e).tun.any st.localAddrNil = true) ∧
      st.isClient = true then
    ((ConnPool.Select sortFn st.pool st.heap).1,
      { st with pool := (ConnPool.Select sortFn st.pool st.heap).2.1,
                heap := (ConnPool.Select sortFn st.pool st.heap).2.2 })
  else ((st.edges e).tun, st)

/-- The frame that `sendLoop` makes of `frm` for the peer:
`frm.length = 0; frm.action = FRAME_ACTION_CLOSE_R`. -/
def closeRFrame (A : FrameActions) (frm : frame) : frame :=
  { frm with length := 0, action := A.FRAME_ACTION_CLOSE_R }

/-- The statement `if edge.closed&TCP_CLOSE_W == 0 { ... }` of `sendLoop`: the
bit W is set, a tunnel is picked and, when there is one, `tunWrite2` is called
with the `CLOSE_R`. -/
def notifyPeer (A : FrameActions)
    (sortFn : (ConnRef → ConnRef → Bool) → List ConnRef → List ConnRef)
    (e : EdgeRef) (st : MuxState) (frm : frame) : MuxState :=
  if (st.edges e).closed &&& TCP_CLOSE_W = 0 then
    match pickTunnel sortFn e
        (st.modifyEdge e (fun ed => { ed with closed := ed.closed ||| TCP_CLOSE_W })) with
    | (some t, st2) => { st2 with upstream := st2.upstream ++ [(t, closeRFrame A frm)] }
    | (none, st2) => st2
  else st

/-- What `sendLoop` does after `sendFrame` reported an error for `frm`: the
peer is told, then the queue is closed by force. -/
def sendLoopOnError (A : FrameActions)
    (sortFn : (ConnRef → ConnRef → Bool) → List ConnRef → List ConnRef)
    (e : EdgeRef) (st : MuxState) (frm : frame) : MuxState :=
  equeue._close (notifyPeer A sortFn e st frm) e true

/-- One turn of the loop of `func (q *equeue) sendLoop()` for the queue of the
edge `e`: it waits while the buffer is empty, else it takes the front frame
and closes, half-closes or sends. -/
def equeue.sendLoopTurn (A : FrameActions)
    (sortFn : (ConnRef → ConnRef → Bool) → List ConnRef → List ConnRef)
    (e : EdgeRef) (st : MuxState) : LoopStatus × MuxState :=
  match (st.edges e).queue with
  | none => (.panicked, st)
  | some q =>
    match q.buffer with
    | none => (.panicked, st)
    | some [] => (.running, st)
    | some (frm :: rest) =>
      let st1 := st.modifyEdge e (fun ed => { ed with queue := some { q with buffer := some rest } })
      if frm.action = A.FRAME_ACTION_CLOSE then (.exited, equeue._close st1 e true)
      else if frm.action = A.FRAME_ACTION_CLOSE_W then (.exited, equeue._close st1 e false)
      else
        match sendFrame st1 frm with
        | none => (.panicked, st1)
        | some (werr, st2) =>
          if werr = true then (.exited, sendLoopOnError A sortFn e st2 frm)
          else (.running, st2)

/-- What happens to the queue of an edge: the tunnel reader delivers a frame,
a sentinel is pushed (by `cleanOfTun` or `destroy`, which look that the queue is
not nil), or the send loop takes a turn. -/
inductive QueueEvent where
  | deliver (frm : frame)
  | push (frm : frame)
  | turn
  deriving DecidableEq, Repr

/-- The frame that an event puts into the buffer of the edge `e`, if any. -/
def QueueEvent.pushed (e : EdgeRef) : QueueEvent → List frame
  | .deliver frm => [{ frm with conn := some e }]
  | .push frm => [frm]
  | .turn => []

/-- The send loop of the edge `e` and the state around it. -/
structure LoopRun where
  status : LoopStatus
  st : MuxState

/-- One event on the queue of the edge `e`; a loop that has exited or panicked
takes no more turns. -/
def queueStep (A : FrameActions)
    (sortFn : (ConnRef → ConnRef → Bool) → List ConnRef → List ConnRef)
    (e : EdgeRef) (run : LoopRun) : QueueEvent → LoopRun
  | .deliver frm => { run with st := edgeConn.deliver run.st e frm }
  | .push frm =>
    { run with st := run.st.modifyEdge e (fun ed =>
        { ed with queue := ed.queue.map (fun (q : equeue) => q._push frm) }) }
  | .turn =>
    match run.status with
    | .running =>
      let r := equeue.sendLoopTurn A sortFn e run.st
      { status := r.1, st := r.2 }
    | _ => run

/-- A sequence of events on the queue of the edge `e`. -/
def runQueue (A : FrameActions)
    (sortFn : (ConnRef → ConnRef → Bool) → List ConnRef → List ConnRef)
    (e : EdgeRef) (run : LoopRun) (evs : List QueueEvent) : LoopRun :=
  evs.foldl (queueStep A sortFn e) run

/-- Whether a frame makes the send loop close: `CLOSE` or `CLOSE_W`. -/
def frame.closes (A : FrameActions) (frm : frame) : Bool :=
  decide (frm.action = A.FRAME_ACTION_CLOSE) || decide (frm.action = A.FRAME_ACTION_CLOSE_W)

/-- The data of the frames before the first `CLOSE` or `CLOSE_W`, joined. -/
def dataBeforeClose (A : FrameActions) (frames : List frame) : List Nat :=
  ((frames.takeWhile (fun f => !f.closes A)).map frame.data).flatten

/-- Modelled from the spec: the key of a stream, built outside the given
sources: "key = tun.identifier + "#" + hex(stream_id)". -/
def streamKey (identifier : String) (sid : Nat) : String :=
  identifier ++ "#" ++ String.mk (Nat.toDigits 16 sid)

/-- Whether `cleanOfTun` for the identifier `tunId` acts on a registry entry:
its key begins with the identifier and its edge has a queue. -/
def cleans (tunId : String) (st : MuxState) (entry : String × EdgeRef) : Bool :=
  HasPrefix entry.1 tunId && (st.edges entry.2).queue.isSome

/-- An edge after `_push` of the `CLOSE` sentinel onto its queue. -/
def pushSentinel (A : FrameActions) (ed : edgeConn) : edgeConn :=
  { ed with queue := ed.queue.map (fun (q : equeue) => q._push (closeSentinel A)) }

def demoActions : FrameActions :=
  { FRAME_ACTION_CLOSE := 5, FRAME_ACTION_CLOSE_R := 3, FRAME_ACTION_CLOSE_W := 4 }

/-- A fresh local connection on which every write succeeds. -/
def demoLocalConn : LocalConn :=
  { written := [], writeResults := [], isTCP := true, closed := false, writeClosed := false }

/-- A multiplexer with no edges and the tunnels 1 (identifier "a") and 2
(identifier "ab") in its pool. -/
def demoMux (isClient : Bool) : MuxState :=
  { isClient := isClient, pool := ⟨[1, 2]⟩, heap := fun _ => ⟨0, 7⟩,
    identifier := fun t => if t = 1 then "a" else "ab", localAddrNil := fun _ => false,
    registry := [], edges := fun _ => newEdgeConn isClient "" "" none demoLocalConn,
    nextEdge := 0, upstream := [] }

/-- A client-side router after `register("a#1", ..., positive = true)` for a
stream of tunnel 1: the edge 0 has no queue yet. -/
def demoClientRouter : MuxState :=
  (egressRouter.register (demoMux true) (streamKey "a" 1) "host:80" (some 1)
    demoLocalConn true).2

/-- A server-side router after `register("ab#1", ..., positive = false)` for a
stream of tunnel 2: the edge 0 has a queue. -/
def demoServerRouter : MuxState :=
  (egressRouter.register (demoMux false) (streamKey "ab" 1) "host:80" (some 2)
    demoLocalConn false).2

/-- A server-side router with a stream of tunnel 1 (edge 0) and a stream under
the key "c#2" (edge 1). -/
def demoServerRouter2 : MuxState :=
  (egressRouter.register
    (egressRouter.register (demoMux false) (streamKey "a" 1) "host:80" (some 1)
      demoLocalConn false).2
    (streamKey "c" 2) "host:81" (some 3) demoLocalConn false).2

/-- The events of a queue that `queue.go` can bring about with frames as the
spec describes them: a frame is delivered with `length` the length of its
data, and a frame pushed directly is a `CLOSE` or `CLOSE_W`. -/
def QueueEvent.wellFormed (A : FrameActions) : QueueEvent → Prop
  | .deliver frm => frm.length = frm.data.length
  | .push frm => frm.closes A = true
  | .turn => True

/-- Every write to the local connection succeeds. -/
def LocalConn.allWritesSucceed (c : LocalConn) : Prop := ∀ r ∈ c.writeResults, r = none

/-- What holds of the queue of the edge `e` after the frames `pushed` were
pushed, when the local connection had received `w0` before and every write
succeeds: a running loop has written the data of the frames it took, none of
them a close, and the rest is in the buffer; a loop that exited has written
the data of the frames before the first close and the buffer is nil. -/
def QueueInv (A : FrameActions) (e : EdgeRef) (w0 : List Nat) (run : LoopRun)
    (pushed : List frame) : Prop :=
  (run.st.edges e).conn.allWritesSucceed ∧
  match run.status with
  | .running =>
    ∃ taken buf, (run.st.edges e).queue = some { buffer := some buf } ∧
      pushed = taken ++ buf ∧ (∀ f ∈ taken, f.closes A = false) ∧
      (run.st.edges e).conn.written = w0 ++ (taken.map frame.data).flatten ∧
      (∀ f ∈ buf, f.closes A = false → f.conn = some e ∧ f.length = f.data.length)
  | .exited =>
    (run.st.edges e).queue = some { buffer := none } ∧
      (run.st.edges e).conn.written = w0 ++ dataBeforeClose A pushed ∧
      ∃ f ∈ pushed, f.closes A = true
  | .panicked => False

/-- A local connection whose next write takes one byte and fails. -/
def demoBrokenConn : LocalConn :=
  { written := [], writeResults := [some (1, "broken pipe")], isTCP := true, closed := false,
    writeClosed := false }

/-- A data frame of the stream 1 with three bytes (its action 0 is neither
`CLOSE` nor `CLOSE_W` of `demoActions`). -/
def demoDataFrame : frame :=
  { action := 0, sid := 1, length := 3, data := [7, 8, 9], conn := none }

/-- A server-side router whose edge 0 (of tunnel 2) has a broken local
connection and the frame `demoDataFrame` delivered to its queue. -/
def demoBrokenRouter : MuxState :=
  edgeConn.deliver
    (egressRouter.register (demoMux false) (streamKey "ab" 1) "host:80" (some 2)
      demoBrokenConn false).2 0 demoDataFrame

/-- Events on the queue of an edge: three bytes are delivered and sent, two
more are delivered, a `CLOSE` is pushed, one more byte is delivered, and the
loop takes three more turns. -/
def demoEvents : List QueueEvent :=
  [QueueEvent.deliver demoDataFrame, QueueEvent.turn,
   QueueEvent.deliver { action := 0, sid := 1, length := 2, data := [1, 2], conn := none },
   QueueEvent.push (closeSentinel demoActions),
   QueueEvent.deliver { action := 0, sid := 1, length := 1, data := [3], conn := none },
   QueueEvent.turn, QueueEvent.turn, QueueEvent.turn]

/-! ## bootContext.go: the client manager -/

/-- Modelled from the spec: the type `Client` of package tunnel, declared outside
the given sources; the field `State` is kept ("Tunnel State: atomic 32-bit
integer (negative values = dead)"). -/
structure Client where
  State : Int
  deriving DecidableEq, Repr

/-- Source: `type clientMgr struct`: a client is its index in `clients`; an element of
`clients` can be nil. -/
structure clientMgr where
  clients : List (Option Client)
  num : Nat
  indexChain : List Nat
  deriving DecidableEq, Repr

/-- The chain that `NewClientMgr` builds for `num` endpoints:
`chain[i] = byte(i % num)` for `i < 2*num` when `num > 1`, else nil. -/
def indexChainOf (num : Nat) : List Nat :=
  if num > 1 then (List.range (2 * num)).map (fun i => byte ((i % num : Nat) : Int)) else []

/-- Source: `func NewClientMgr(d5c *t.D5ClientConf) *clientMgr`, with the clients that
`t.NewClient` made, one for every entry of `D5PList`. -/
def NewClientMgr (clients : List Client) : clientMgr :=
  { clients := clients.map some, num := clients.length, indexChain := indexChainOf clients.length }

/-- The test `w != nil && atomic.LoadInt32(&w.State) >= 0` of `selectClient`. -/
def clientAvailable (w : Option Client) : Bool :=
  match w with
  | some c => decide (c.State ≥ 0)
  | none => false

/-- The loop `for _, v := range window` of `selectClient`: the first client of
the window that is available, as its index in `clients`. -/
def clientMgr.scan (m : clientMgr) : List Nat → Outcome (Option Nat)
  | [] => .ret none
  | v :: window =>
    match m.clients[v]? with
    | none => .panic indexOutOfRange
    | some w => if clientAvailable w = true then .ret (some v) else clientMgr.scan m window

/-- Source: `func (m *clientMgr) selectClient() *t.Client`, with `r` the number that
`rand.Intn(m.num<<4)` returned. The client returned is given by its index in
`clients`; before it returns nil the function logs "No available tunnels for
servicing new request" and sleeps. -/
def clientMgr.selectClient (m : clientMgr) (r : Nat) : Outcome (Option Nat) :=
  if m.num > 1 then
    let i := r >>> 4
    -- m.indexChain[i : i+m.num-1]
    if i + m.num - 1 > m.indexChain.length then .panic indexOutOfRange
    else clientMgr.scan m ((m.indexChain.drop i).take (m.num - 1))
  else
    match m.clients[0]? with
    | none => .panic indexOutOfRange
    | some w => if clientAvailable w = true then .ret (some 0) else .ret none

/-! ## exception.go: pointers and CatchException -/

/-- The exceptions allocated so far; a pointer `*Exception` is an index into
the list. -/
abbrev ExceptionHeap := List Exception

/-- Source: `func (e *Exception) Apply(appendage interface{}) *Exception` on pointers:
`new(Exception)` allocates the next cell; the result is the new pointer and
the heap afterwards, or `none` for the nil dereference of a receiver that is
not allocated. -/
def Exception.ApplyAt (heap : ExceptionHeap) (e : Nat) (appendage : String) :
    Option (Nat × ExceptionHeap) :=
  match heap[e]? with
  | none => none
  | some ex => some (heap.length, heap ++ [ex.Apply appendage])

/-- The value `e interface{}` that `CatchException` is given (what `recover()`
returned): nil, an `*Exception`, a string, or any other value with its
rendering. -/
inductive Recovered where
  | nil
  | exception (ex : Exception)
  | str (s : String)
  | other (text : String)
  deriving DecidableEq, Repr

/-- The test of the first branch of `CatchException`,
`ex, y := e.(*Exception); y && ex.warning`: the warning class. -/
def Recovered.isWarning : Recovered → Bool
  | .exception ex => ex.warning
  | _ => false

/-- The rendering of a value by `fmt.Println` and `log.Errorln`; an error is
rendered by its `Error()`. -/
def Recovered.render : Recovered → String
  | .nil => "<nil>"
  | .exception ex => ex.Error
  | .str s => s
  | .other text => text

/-- What `CatchException` prints. -/
inductive CatchLog where
  | logError (text : String)
  | logWarning (text : String)
  | printStack (text : String)
  deriving DecidableEq, Repr

/-- Source: `func CatchException(e interface{}) bool`, with the injected `DEBUG`: the
result and what was printed. -/
def CatchException (DEBUG : Bool) (e : Recovered) : Bool × List CatchLog :=
  match e with
  | .exception ex =>
    if ex.warning = true then (true, [CatchLog.logError ex.msg])
    else if DEBUG = true then (true, [CatchLog.printStack e.render])
    else (true, [CatchLog.logError e.render])
  | .nil => (false, [])
  | .str s =>
    if DEBUG = true then (true, [CatchLog.printStack e.render])
    else (true, [CatchLog.logWarning s])
  | .other _ =>
    if DEBUG = true then (true, [CatchLog.printStack e.render])
    else (true, [CatchLog.logError e.render])

set_option maxRecDepth 100000

/-! ## Lemmas on the connection and on versions -/

theorem Read_sameWriteSide (c : hashedConn) (n : Nat) : sameWriteSide c (c.Read n).2.2 := by
  unfold hashedConn.Read sameWriteSide
  split
  · simp
  · simp
  · split <;> simp

theorem readAtLeastLoop_sameWriteSide (fuel : Nat) (c : hashedConn) (n : Nat) (got : List Nat) :
    sameWriteSide c (readAtLeastLoop fuel c n got).2.2 := by
  induction fuel generalizing c got with
  | zero => simp [readAtLeastLoop, sameWriteSide]
  | succ fuel ih =>
    unfold readAtLeastLoop
    split
    · have hr := Read_sameWriteSide c (n - got.length)
      split
      · rename_i bs c' heq
        rw [heq] at hr
        have h2 := ih c' (got ++ bs)
        unfold sameWriteSide at *
        simp only at hr
        refine ⟨h2.1.trans hr.1, h2.2.1.trans hr.2.1, h2.2.2.1.trans hr.2.2.1, h2.2.2.2.trans hr.2.2.2⟩
      · rename_i bs e c' heq
        rw [heq] at hr
        exact hr
    · simp [sameWriteSide]

theorem ReadFull_sameWriteSide (c : hashedConn) (n : Nat) : sameWriteSide c (ReadFull c n).2.2 := by
  have h := readAtLeastLoop_sameWriteSide (c.incoming.length + 1) c n []
  unfold ReadFull
  split
  rename_i got err c' heq
  rw [heq] at h
  split
  · exact h
  · split <;> exact h

theorem ReadFullByLen_sameWriteSide (n : Nat) (c : hashedConn) :
    sameWriteSide c (ReadFullByLen n c).2.2 := by
  have h := Read_sameWriteSide c n
  unfold ReadFullByLen
  split
  · rename_i e c' heq
    rw [heq] at h
    exact h
  · rename_i got c' heq
    rw [heq] at h
    have h2 := ReadFull_sameWriteSide c' (segmentLength n (filled got n))
    split
    rename_i data err c'' heq2
    rw [heq2] at h2
    unfold sameWriteSide at *
    simp only at h h2
    exact ⟨h2.1.trans h.1, h2.2.1.trans h.2.1, h2.2.2.1.trans h.2.2.1, h2.2.2.2.trans h.2.2.2⟩

theorem Read_length_le (c : hashedConn) (n : Nat) : (c.Read n).1.length ≤ n := by
  unfold hashedConn.Read
  split
  · simp
  · simp
  · split
    · assumption
    · simp

theorem readAtLeastLoop_done (fuel : Nat) (c : hashedConn) (n : Nat) (got : List Nat)
    (h : ¬ got.length < n) : readAtLeastLoop fuel c n got = (got, none, c) := by
  cases fuel with
  | zero => rfl
  | succ fuel => simp [readAtLeastLoop, h]

/-- The fuel of `ReadFull` is never used up: when the loop of `io.ReadAtLeast`
ends without an error, the buffer has been filled. -/
theorem readAtLeastLoop_filled (fuel : Nat) (c : hashedConn) (n : Nat) (got : List Nat)
    (hfuel : c.incoming.length < fuel) (hgot : got.length ≤ n)
    (hok : (readAtLeastLoop fuel c n got).2.1 = none) :
    (readAtLeastLoop fuel c n got).1.length = n := by
  induction fuel generalizing c got with
  | zero => omega
  | succ fuel ih =>
    by_cases hlt : got.length < n
    · unfold readAtLeastLoop at hok ⊢
      rw [if_pos hlt] at hok ⊢
      cases hin : c.incoming with
      | nil =>
        simp [hashedConn.Read, hin] at hok
      | cons ev rest =>
        cases ev with
        | fail text => simp [hashedConn.Read, hin] at hok
        | data bs =>
          by_cases hbs : bs.length ≤ n - got.length
          · have hr : c.Read (n - got.length) =
                (bs, none, { c with incoming := rest, rHash := c.rHash ++ bs }) := by
              simp [hashedConn.Read, hin, hbs]
            rw [hr] at hok ⊢
            simp only at hok ⊢
            refine ih _ _ ?_ ?_ hok
            · simp only
              rw [hin] at hfuel
              simp only [List.length_cons] at hfuel
              omega
            · simp only [List.length_append]
              omega
          · have hr : c.Read (n - got.length) =
                (bs.take (n - got.length), none,
                  { c with incoming := .data (bs.drop (n - got.length)) :: rest,
                           rHash := c.rHash ++ bs.take (n - got.length) }) := by
              simp [hashedConn.Read, hin, hbs]
            rw [hr] at hok ⊢
            simp only at hok ⊢
            have hfull : ¬ (got ++ bs.take (n - got.length)).length < n := by
              simp only [List.length_append, List.length_take]
              omega
            rw [readAtLeastLoop_done fuel _ n _ hfull]
            simp only [List.length_append, List.length_take]
            omega
    · rw [readAtLeastLoop_done (fuel + 1) c n got hlt]
      simp only
      omega

theorem readAtLeastLoop_length_le (fuel : Nat) (c : hashedConn) (n : Nat) (got : List Nat)
    (hgot : got.length ≤ n) : (readAtLeastLoop fuel c n got).1.length ≤ n := by
  induction fuel generalizing c got with
  | zero => simpa [readAtLeastLoop] using hgot
  | succ fuel ih =>
    unfold readAtLeastLoop
    split
    · have hle := Read_length_le c (n - got.length)
      split
      · rename_i bs c' heq
        rw [heq] at hle
        simp only at hle
        exact ih c' (got ++ bs) (by simp only [List.length_append]; omega)
      · rename_i bs e c' heq
        rw [heq] at hle
        simp only at hle ⊢
        simp only [List.length_append]
        omega
    · exact hgot

theorem ReadFull_filled (c : hashedConn) (n : Nat) (hok : (ReadFull c n).2.1 = none) :
    (ReadFull c n).1.length = n := by
  unfold ReadFull at hok ⊢
  have h := readAtLeastLoop_filled (c.incoming.length + 1) c n [] (by omega) (by simp)
  rcases hl : readAtLeastLoop (c.incoming.length + 1) c n [] with ⟨got, err, c'⟩
  rw [hl] at h hok
  simp only at h hok ⊢
  by_cases hge : got.length ≥ n
  · rw [if_pos hge] at hok ⊢
    have hle := readAtLeastLoop_length_le (c.incoming.length + 1) c n [] (by simp)
    rw [hl] at hle
    simp only at hle ⊢
    omega
  · rw [if_neg hge] at hok ⊢
    by_cases h2 : got.length > 0 ∧ err = some EOF
    · rw [if_pos h2] at hok
      simp at hok
    · rw [if_neg h2] at hok ⊢
      simp only at hok
      exact h hok

theorem shiftRight_major_of_minor (a b : Nat) (h : a >>> 16 = b >>> 16) : a >>> 24 = b >>> 24 := by
  simp only [Nat.shiftRight_eq_div_pow] at *
  omega

theorem Read_error_not_exception (c : hashedConn) (n : Nat) (x : Exception) :
    (c.Read n).2.1 ≠ some (.exc x) := by
  unfold hashedConn.Read
  split
  · simp [EOF]
  · simp
  · split <;> simp

theorem parseParamsThenCrossCheck_not_incompatible (lib : Lib) (s : ClientState)
    (buf : List Nat) (text : String) :
    (d5CNegotiation.parseParamsThenCrossCheck lib s buf).1 ≠
      .ret (some (.exc (INCOMPATIBLE_VERSION.Apply text))) := by
  unfold d5CNegotiation.parseParamsThenCrossCheck
  split
  · simp
  split
  · simp
  split
  · simp
  split
  · simp
  simp only []
  split
  · simp
  · rename_i c hw
    split
    · simp [INCONSISTENT_HASH, INCOMPATIBLE_VERSION, Exception.Apply, NewW]
    · have h := Read_error_not_exception c TKSZ (INCOMPATIBLE_VERSION.Apply text)
      simpa using h

theorem parseParamsThenCrossCheck_params (lib : Lib) (s : ClientState)
    (buf : List Nat) (hlen : TUN_PARAMS_LEN ≤ buf.length) :
    (d5CNegotiation.parseParamsThenCrossCheck lib s buf).2.t =
      { s.t with stInterval := beUint16 (buf.drop 4), dtInterval := beUint16 (buf.drop 6),
                 tunQty := buf.getD 8 0, token := buf.drop TUN_PARAMS_LEN } := by
  unfold d5CNegotiation.parseParamsThenCrossCheck
  simp only [TUN_PARAMS_LEN] at hlen
  rw [if_neg (by omega), if_neg (by omega), if_neg (by omega), if_neg (by simp only [TUN_PARAMS_LEN]; omega)]
  simp only []
  split
  · rfl
  · split <;> rfl

theorem shiftRight_minor_ne_of_major_ne (a b : Nat) (h : a >>> 24 ≠ b >>> 24) :
    a >>> 16 ≠ b >>> 16 :=
  fun h16 => h (shiftRight_major_of_minor a b h16)

theorem Write_error_not_exception (c : hashedConn) (b : List Nat) (x : Exception) :
    (c.Write b).1 ≠ some (.exc x) := by
  unfold hashedConn.Write
  cases c.writeResults.head?.join <;> simp

/-! ## The version check of the client (C1, C2) -/

/-- C1 as it is stated, refuted: the local version is 0.9.2230 (`version`) and
the remote one 0.10.0000, so the majors are equal and the remote is newer, and
yet `validateAndGetTokens` returns `INCOMPATIBLE_VERSION`. -/
theorem validateAndGetTokens_same_major_newer_minor_fails :
    beUint32 (paramsBlock 0x000A0000) >>> 24 = version >>> 24 ∧
    version < beUint32 (paramsBlock 0x000A0000) ∧
    ReadFullByLen 2 (demoClient [.data [0, 32], .data (paramsBlock 0x000A0000)]).sconn
      = (paramsBlock 0x000A0000, none,
          { demoConn [] with rHash := [0, 32] ++ paramsBlock 0x000A0000 }) ∧
    (d5CNegotiation.validateAndGetTokens (demoLib (true, none)) version
      (demoClient [.data [0, 32], .data (paramsBlock 0x000A0000)])).1
      = .ret (some (.exc (INCOMPATIBLE_VERSION.Apply "0.10.0000"))) := by
  decide

/-- C1, amended: when the remote version is newer than the local one and has
the same major and minor number (the upper sixteen bits agree),
`validateAndGetTokens` only logs the warning and goes on with the statements
after the version check: it does not return `INCOMPATIBLE_VERSION`, and a
parameter block of at least 32 bytes is parsed into `t`. -/
theorem validateAndGetTokens_newer_build_warns (lib : Lib) (VERSION : Nat) (s : ClientState)
    (buf : List Nat) (c : hashedConn)
    (hread : ReadFullByLen 2 s.sconn = (buf, none, c))
    (hlen : 4 ≤ buf.length)
    (hnewer : VERSION < beUint32 buf)
    (hsame : VERSION >>> 16 = beUint32 buf >>> 16) :
    d5CNegotiation.validateAndGetTokens lib VERSION s =
      d5CNegotiation.parseParamsThenCrossCheck lib
        { s with sconn := c,
                 trace := s.trace ++ [Event.logWarning
                   ("Caution !!! Please upgrade to new version, remote is v" ++
                     oVerStr (beUint32 buf))] } buf ∧
    (∀ text, (d5CNegotiation.validateAndGetTokens lib VERSION s).1 ≠
      .ret (some (.exc (INCOMPATIBLE_VERSION.Apply text)))) ∧
    (TUN_PARAMS_LEN ≤ buf.length →
      (d5CNegotiation.validateAndGetTokens lib VERSION s).2.t =
        { s.t with stInterval := beUint16 (buf.drop 4), dtInterval := beUint16 (buf.drop 6),
                   tunQty := buf.getD 8 0, token := buf.drop TUN_PARAMS_LEN }) := by
  have heq : d5CNegotiation.validateAndGetTokens lib VERSION s =
      d5CNegotiation.parseParamsThenCrossCheck lib
        { s with sconn := c,
                 trace := s.trace ++ [Event.logWarning
                   ("Caution !!! Please upgrade to new version, remote is v" ++
                     oVerStr (beUint32 buf))] } buf := by
    unfold d5CNegotiation.validateAndGetTokens
    rw [hread]
    simp only []
    rw [if_neg (by omega), if_pos (by omega), if_pos hsame]
  refine ⟨heq, ?_, ?_⟩
  · intro text
    rw [heq]
    exact parseParamsThenCrossCheck_not_incompatible lib _ buf text
  · intro h32
    rw [heq]
    exact parseParamsThenCrossCheck_params lib _ buf h32

/-- C1, amended, at a remote 0.9.2231 against the local 0.9.2230. -/
theorem validateAndGetTokens_newer_build_warns_witness :
    (d5CNegotiation.validateAndGetTokens (demoLib (true, none)) version
      (demoClient [.data [0, 32], .data (paramsBlock (version + 1)), .data (List.replicate 20 0)])).2.t
      = ⟨none, [], 30, 60, 3⟩ :=
  ((validateAndGetTokens_newer_build_warns (demoLib (true, none)) version
      (demoClient [.data [0, 32], .data (paramsBlock (version + 1)), .data (List.replicate 20 0)])
      (paramsBlock (version + 1))
      { demoConn [.data (List.replicate 20 0)] with rHash := [0, 32] ++ paramsBlock (version + 1) }
      (by decide) (by decide) (by decide) (by decide)).2.2 (by decide)).trans (by decide)

/-- C2 as it is stated, refuted: the local version is 1.0.0000 and the remote
one 0.9.2230, so the majors differ, and yet `validateAndGetTokens` passes the
version check and returns without an error. -/
theorem validateAndGetTokens_older_remote_other_major_passes :
    beUint32 (paramsBlock version) >>> 24 ≠ 0x01000000 >>> 24 ∧
    ReadFullByLen 2
      (demoClient [.data [0, 32], .data (paramsBlock version), .data (List.replicate 20 0)]).sconn
      = (paramsBlock version, none,
          { demoConn [.data (List.replicate 20 0)] with rHash := [0, 32] ++ paramsBlock version }) ∧
    (d5CNegotiation.validateAndGetTokens (demoLib (true, none)) 0x01000000
      (demoClient [.data [0, 32], .data (paramsBlock version), .data (List.replicate 20 0)])).1
      = .ret none := by
  decide

/-- C2, amended: when the remote version is newer than the local one and its
major number (bits 24..31) differs from the local major number,
`validateAndGetTokens` returns `INCOMPATIBLE_VERSION` applied to the remote
version string, before anything is written. -/
theorem validateAndGetTokens_newer_other_major_fails (lib : Lib) (VERSION : Nat)
    (s : ClientState) (buf : List Nat) (c : hashedConn)
    (hread : ReadFullByLen 2 s.sconn = (buf, none, c))
    (hlen : 4 ≤ buf.length)
    (hnewer : VERSION < beUint32 buf)
    (hmajor : beUint32 buf >>> 24 ≠ VERSION >>> 24) :
    d5CNegotiation.validateAndGetTokens lib VERSION s =
      (.ret (some (.exc (INCOMPATIBLE_VERSION.Apply (oVerStr (beUint32 buf))))),
        { s with sconn := c }) := by
  unfold d5CNegotiation.validateAndGetTokens
  rw [hread]
  simp only []
  rw [if_neg (by omega), if_pos (by omega),
    if_neg (shiftRight_minor_ne_of_major_ne _ _ (Ne.symm hmajor))]

/-- C2, amended, at a remote 1.0.0000 against the local 0.9.2230. -/
theorem validateAndGetTokens_newer_other_major_fails_witness :
    d5CNegotiation.validateAndGetTokens (demoLib (true, none)) version
      (demoClient [.data [0, 32], .data (paramsBlock 0x01000000)]) =
      (.ret (some (.exc (INCOMPATIBLE_VERSION.Apply "1.0.0000"))),
        { demoClient [] with
            sconn := { demoConn [] with rHash := [0, 32] ++ paramsBlock 0x01000000 } }) :=
  validateAndGetTokens_newer_other_major_fails (demoLib (true, none)) version
    (demoClient [.data [0, 32], .data (paramsBlock 0x01000000)]) (paramsBlock 0x01000000)
    { demoConn [] with rHash := [0, 32] ++ paramsBlock 0x01000000 }
    (by decide) (by decide) (by decide) (by decide)

/-! ## The first read of the server (C3, C4, C5) -/

/-- C3 fails in the code: the authenticator answers `allow = false` with a nil
error. `verifyThenDHExchange` writes `00 01 ff` and returns `nil, nil`,
`ThrowErr(nil)` does not panic, and `negotiate` installs a cipher, creates a
session, mints two tokens and writes twice more. -/
theorem negotiate_rejected_without_error_creates_session :
    (demoServer [.data fullRequest, .data [0, 1, 9]]).hconn.Read DMLEN1
      = (fullRequest, none, { demoConn [.data [0, 1, 9]] with rHash := fullRequest }) ∧
    fullRequest.length = DMLEN1 ∧
    d5SumValid (fullRequest.getD 0xd5 0) (fullRequest.getD 0xff 0) = true ∧
    (demoLib (false, none)).RSADecrypt (fullRequest.drop 256) = .ok [0, 0, 0] ∧
    (demoLib (false, none)).Authenticate [0, 0, 0] = (false, none) ∧
    (d5SNegotiation.negotiate (demoLib (false, none)) demoConsts
      (demoServer [.data fullRequest, .data [0, 1, 9]])).2.hconn.written.length = 3 ∧
    (d5SNegotiation.negotiate (demoLib (false, none)) demoConsts
      (demoServer [.data fullRequest, .data [0, 1, 9]])).2.hconn.cipher ≠ none ∧
    (d5SNegotiation.negotiate (demoLib (false, none)) demoConsts
      (demoServer [.data fullRequest, .data [0, 1, 9]])).2.nego.sessionMgr.container.length = 2 ∧
    Event.newSession [] ∈ (d5SNegotiation.negotiate (demoLib (false, none)) demoConsts
      (demoServer [.data fullRequest, .data [0, 1, 9]])).2.trace := by
  refine ⟨by decide, by decide, by decide, rfl, rfl, by decide, by decide, by decide, by decide⟩

/-- A rejection that reports an error: for a first read of 384 bytes with a
valid marker whose decrypted identity the authenticator rejects with
`allow = false` and a non-nil error `ex`, the server writes exactly the three
bytes `00 01 ff` and
`negotiate` ends by panicking with `ex`; no cipher is installed on the
connection, the session manager is unchanged (no token is minted) and no
session is created: the calls made are the RSA decryption and the
authentication only. -/
theorem negotiate_auth_rejected (lib : Lib) (k : Consts) (s : ServerState)
    (got identity : List Nat) (c : hashedConn) (ex : GoError)
    (hdeadline : s.hconn.deadlineResult = none)
    (hread : s.hconn.Read DMLEN1 = (got, none, c))
    (hlen : got.length = DMLEN1)
    (hmarker : d5SumValid (got.getD 0xd5 0) (got.getD 0xff 0) = true)
    (hrsa : lib.RSADecrypt (got.drop 256) = .ok identity)
    (hauth : lib.Authenticate identity = (false, some ex)) :
    (d5SNegotiation.negotiate lib k s).1 = .panic (.err ex) ∧
    (d5SNegotiation.negotiate lib k s).2.hconn.written = s.hconn.written ++ [[0, 1, 0xff]] ∧
    (d5SNegotiation.negotiate lib k s).2.hconn.cipher = s.hconn.cipher ∧
    (d5SNegotiation.negotiate lib k s).2.nego.sessionMgr = s.nego.sessionMgr ∧
    (d5SNegotiation.negotiate lib k s).2.trace =
      s.trace ++ [Event.rsaDecrypt (got.drop 256), Event.authenticate identity,
        Event.logWarning "Auth failed"] := by
  have hfill : filled got DMLEN1 = got := by simp [filled, hlen]
  have h22 : ¬ got.length = DMLEN2 := by rw [hlen]; decide
  have hc := Read_sameWriteSide s.hconn DMLEN1
  rw [hread] at hc
  have hr := ReadFullByLen_sameWriteSide 2 c
  unfold sameWriteSide at hc hr
  simp only at hc
  have hneg : d5SNegotiation.negotiate lib k s =
      (.panic (.err ex),
        { s with
            hconn := ((ReadFullByLen 2 c).2.2.Write [0, 1, 0xff]).2,
            nego := { s.nego with clientAddr := s.hconn.remoteAddr },
            trace := s.trace ++ [Event.rsaDecrypt (got.drop 256), Event.authenticate identity,
              Event.logWarning "Auth failed"] }) := by
    unfold d5SNegotiation.negotiate
    rw [hdeadline]
    simp only [hread, hfill, if_neg h22]
    unfold d5SNegotiation.negotiateFull
    rw [if_pos ⟨hlen, hmarker⟩]
    unfold d5SNegotiation.verifyThenDHExchange
    simp only [hrsa, hauth, if_true, List.append_assoc, List.singleton_append, List.cons_append,
      List.nil_append]
  rw [hneg]
  simp only [hashedConn.Write]
  refine ⟨trivial, ?_, ?_, trivial, trivial⟩
  · rw [hr.1, hc.1]
  · rw [hr.2.1, hc.2.1]

/-- The rejection at an authenticator that answers `false` with the error
"auth failed". -/
theorem negotiate_auth_rejected_witness :
    (d5SNegotiation.negotiate (demoLib (false, some (.other "auth failed"))) demoConsts
      (demoServer [.data fullRequest, .data [0, 1, 9]])).1
        = .panic (.err (.other "auth failed")) ∧
    (d5SNegotiation.negotiate (demoLib (false, some (.other "auth failed"))) demoConsts
      (demoServer [.data fullRequest, .data [0, 1, 9]])).2.hconn.written = [[0, 1, 0xff]] :=
  have h := negotiate_auth_rejected (demoLib (false, some (.other "auth failed"))) demoConsts
    (demoServer [.data fullRequest, .data [0, 1, 9]]) fullRequest [0, 0, 0]
    { demoConn [.data [0, 1, 9]] with rHash := fullRequest } (.other "auth failed")
    rfl (by decide) (by decide) (by decide) rfl rfl
  ⟨h.1, h.2.1⟩

/-- C4 as it is stated, refuted: a first read of 22 zero bytes, whose token is
not in the (empty) session manager. The markers are not valid, so
`transSession` is not called and `negotiate` returns `NEGOTIATION_FAILED`. -/
theorem negotiate_token_without_markers_negotiation_failed :
    (demoServer [.data (List.replicate 22 0)]).hconn.Read DMLEN1
      = (List.replicate 22 0, none, { demoConn [] with rHash := List.replicate 22 0 }) ∧
    (List.replicate 22 0).length = DMLEN2 ∧
    ((demoServer [.data (List.replicate 22 0)]).nego.sessionMgr.take
      ((List.replicate 22 0).take TKSZ)).1 = none ∧
    (d5SNegotiation.negotiate (demoLib (true, none)) demoConsts
      (demoServer [.data (List.replicate 22 0)])).1
      = .ret (none, some (.exc NEGOTIATION_FAILED)) := by
  decide

/-- C4, amended: for a first read of exactly `DMLEN2 = 22` bytes whose two
marker pairs are valid, `d5SumValid(buf[18], buf[20])` and
`d5SumValid(buf[19], buf[21])`, and whose first 20 bytes are a token that
`take` does not find, `negotiate` returns `VALIDATION_FAILED` and no session. -/
theorem negotiate_unknown_token (lib : Lib) (k : Consts) (s : ServerState)
    (got : List Nat) (c : hashedConn)
    (hdeadline : s.hconn.deadlineResult = none)
    (hread : s.hconn.Read DMLEN1 = (got, none, c))
    (hlen : got.length = DMLEN2)
    (hmarker1 : d5SumValid (got.getD 18 0) (got.getD 20 0) = true)
    (hmarker2 : d5SumValid (got.getD 19 0) (got.getD 21 0) = true)
    (htake : (s.nego.sessionMgr.take (got.take TKSZ)).1 = none) :
    (d5SNegotiation.negotiate lib k s).1 = .ret (none, some (.exc VALIDATION_FAILED)) := by
  have hlen22 : got.length = 22 := hlen
  have hget : ∀ i, i < 22 → (filled got DMLEN1).getD i 0 = got.getD i 0 := by
    intro i hi
    simp only [filled, List.getD_eq_getElem?_getD]
    rw [List.getElem?_append_left (by omega)]
  have htk : (filled got DMLEN1).take TKSZ = got.take TKSZ := by
    simp only [filled, TKSZ]
    rw [List.take_append_of_le_length (by omega)]
  unfold d5SNegotiation.negotiate
  rw [hdeadline]
  simp only [hread, if_pos hlen]
  have e1 : TKSZ - 2 = 18 := rfl
  have e2 : TKSZ - 1 = 19 := rfl
  have e3 : TKSZ + 1 = 21 := rfl
  have e4 : TKSZ = 20 := rfl
  rw [e1, e2, e3, hget 18 (by omega), hget 19 (by omega), hget 21 (by omega),
    show (filled got DMLEN1).getD TKSZ 0 = got.getD 20 0 from hget 20 (by omega),
    if_pos ⟨hmarker1, hmarker2⟩]
  unfold d5SNegotiation.transSession
  simp only [htk]
  rcases htk2 : s.nego.sessionMgr.take (got.take TKSZ) with ⟨ss, m⟩
  rw [htk2] at htake
  simp only at htake
  subst htake
  rfl

/-- C4, amended, at 18 zero bytes followed by `d5 d5 00 00`. -/
theorem negotiate_unknown_token_witness :
    (d5SNegotiation.negotiate (demoLib (true, none)) demoConsts
      (demoServer [.data (List.replicate 18 0 ++ [0xd5, 0xd5, 0, 0])])).1
      = .ret (none, some (.exc VALIDATION_FAILED)) :=
  negotiate_unknown_token (demoLib (true, none)) demoConsts
    (demoServer [.data (List.replicate 18 0 ++ [0xd5, 0xd5, 0, 0])])
    (List.replicate 18 0 ++ [0xd5, 0xd5, 0, 0])
    { demoConn [] with rHash := List.replicate 18 0 ++ [0xd5, 0xd5, 0, 0] }
    rfl (by decide) (by decide) (by decide) (by decide) (by decide)

/-- C5: for a first read of exactly `DMLEN1 = 384` bytes whose marker
`d5SumValid(buf[0xd5], buf[0xff])` is false, and for a first read whose length
is neither 22 nor 384, `negotiate` returns `NEGOTIATION_FAILED` and no session.
The state afterwards is the one after the read with the warning logged: the
trace gains no RSA decryption, no authentication and no `take`, and the
session manager and what was written are unchanged. -/
theorem negotiate_unrecognized (lib : Lib) (k : Consts) (s : ServerState)
    (got : List Nat) (c : hashedConn)
    (hdeadline : s.hconn.deadlineResult = none)
    (hread : s.hconn.Read DMLEN1 = (got, none, c))
    (hcase : (got.length = DMLEN1 ∧ d5SumValid (got.getD 0xd5 0) (got.getD 0xff 0) = false) ∨
      (got.length ≠ DMLEN2 ∧ got.length ≠ DMLEN1)) :
    d5SNegotiation.negotiate lib k s =
      (.ret (none, some (.exc NEGOTIATION_FAILED)),
        { s with hconn := c,
                 nego := { s.nego with clientAddr := s.hconn.remoteAddr },
                 trace := s.trace ++ [Event.logWarning "Unrecognized Request"] }) := by
  have h22 : ¬ got.length = DMLEN2 := by
    rcases hcase with ⟨h, _⟩ | ⟨h, _⟩
    · rw [h]; decide
    · exact h
  have hfull : ¬ (got.length = DMLEN1 ∧
      d5SumValid ((filled got DMLEN1).getD 0xd5 0) ((filled got DMLEN1).getD 0xff 0) = true) := by
    rcases hcase with ⟨h, hm⟩ | ⟨_, h⟩
    · have hfill : filled got DMLEN1 = got := by simp [filled, h]
      rw [hfill, hm]
      simp
    · exact fun hh => h hh.1
  unfold d5SNegotiation.negotiate
  rw [hdeadline]
  simp only [hread, if_neg h22]
  unfold d5SNegotiation.negotiateFull
  rw [if_neg hfull]

/-- C5 at 384 zero bytes (the marker is not valid) and at a read of three
bytes. -/
theorem negotiate_unrecognized_witness :
    (d5SNegotiation.negotiate (demoLib (true, none)) demoConsts
      (demoServer [.data (List.replicate 384 0)])).1
        = .ret (none, some (.exc NEGOTIATION_FAILED)) ∧
    (d5SNegotiation.negotiate (demoLib (true, none)) demoConsts
      (demoServer [.data (List.replicate 384 0)])).2.trace
        = [Event.logWarning "Unrecognized Request"] ∧
    (d5SNegotiation.negotiate (demoLib (true, none)) demoConsts
      (demoServer [.data [5, 1, 0]])).1 = .ret (none, some (.exc NEGOTIATION_FAILED)) :=
  have h1 := negotiate_unrecognized (demoLib (true, none)) demoConsts
    (demoServer [.data (List.replicate 384 0)]) (List.replicate 384 0)
    { demoConn [] with rHash := List.replicate 384 0 }
    rfl (by decide) (Or.inl (by decide))
  have h2 := negotiate_unrecognized (demoLib (true, none)) demoConsts
    (demoServer [.data [5, 1, 0]]) [5, 1, 0] { demoConn [] with rHash := [5, 1, 0] }
    rfl (by decide) (Or.inr (by decide))
  ⟨congrArg Prod.fst h1, congrArg (fun r => r.2.trace) h1, congrArg Prod.fst h2⟩

/-! ## The marker of the obfuscated header (C6) -/

/-- C6: `d5SumValid(a, d5Sub(a))` holds for every byte `a`; hence the header
of `requestAuthAndDHExchange`, 256 bytes with `obf[0xff] = d5Sub(obf[0xd5])`,
passes the check `d5SumValid(buf[0xd5], buf[0xff])` of the server whatever the
random bytes are. -/
theorem d5Sub_marker_valid :
    (∀ a : Nat, d5SumValid a (d5Sub a) = true) ∧
    (∀ obf : List Nat, obf.length = 256 →
      d5SumValid ((obfHeader obf).getD 0xd5 0) ((obfHeader obf).getD 0xff 0) = true) := by
  have hsum : ∀ a : Nat, d5SumValid a (d5Sub a) = true := by
    intro a
    simp only [d5SumValid, d5Sub, uint, addInt8, int8, byte, D5, beq_iff_eq]
    rw [show (0xff : Nat) = 2 ^ 8 - 1 from rfl, Nat.and_pow_two_sub_one_eq_mod]
    split <;> omega
  refine ⟨hsum, ?_⟩
  intro obf hlen
  have h1 : (obfHeader obf).getD 0xd5 0 = obf.getD 0xd5 0 := by
    simp [obfHeader, List.getD_eq_getElem?_getD, List.getElem?_set]
  have h2 : (obfHeader obf).getD 0xff 0 = d5Sub (obf.getD 0xd5 0) := by
    simp [obfHeader, List.getD_eq_getElem?_getD, List.getElem?_set, hlen]
  rw [h1, h2]
  exact hsum _

/-! ## The hash cross-check (C7) -/

/-- C7: on the client, once the parameters were read, the version check was
passed and `rHash` was written, `validateAndGetTokens` returns
`INCONSISTENT_HASH` exactly when the `oHash` it reads differs from the
snapshot `WHashSum` taken before `rHash` was written. On the server, once the
head and the tokens were written and `oHash` was read, `respondTestWithToken`
returns `INCONSISTENT_HASH` exactly when `oHash` differs from the snapshot
`WHashSum` taken before the read; on a mismatch nothing more is written, so the
server does not send its `rHash`. -/
theorem hash_cross_check (lib : Lib) :
    (∀ (VERSION : Nat) (s : ClientState) (buf got : List Nat) (err : Option GoError)
        (c c1 c2 : hashedConn),
      ReadFullByLen 2 s.sconn = (buf, none, c) →
      TUN_PARAMS_LEN ≤ buf.length →
      ¬ (VERSION < beUint32 buf ∧ VERSION >>> 16 ≠ beUint32 buf >>> 16) →
      c.Write (c.RHashSum lib.sha1) = (none, c1) →
      c1.Read TKSZ = (got, err, c2) →
      ((d5CNegotiation.validateAndGetTokens lib VERSION s).1 = .ret (some (.exc INCONSISTENT_HASH))
        ↔ filled got TKSZ ≠ c.WHashSum lib.sha1)) ∧
    (∀ (k : Consts) (s s2 : ServerState) (session : Session) (got : List Nat) (c : hashedConn),
      d5SNegotiation.sendParamsAndTokens lib k s session = (.ret (), s2) →
      s2.hconn.Read TKSZ = (got, none, c) →
      ((d5SNegotiation.respondTestWithToken lib k s session).1
          = .ret (some (.exc INCONSISTENT_HASH))
        ↔ filled got TKSZ ≠ s2.hconn.WHashSum lib.sha1) ∧
      (filled got TKSZ ≠ s2.hconn.WHashSum lib.sha1 →
        (d5SNegotiation.respondTestWithToken lib k s session).2.hconn.written
          = s2.hconn.written)) := by
  constructor
  · intro VERSION s buf got err c c1 c2 hread hlen hver hwrite hohash
    have htail : d5CNegotiation.validateAndGetTokens lib VERSION s =
        d5CNegotiation.parseParamsThenCrossCheck lib
          { s with sconn := c,
                   trace := if VERSION < beUint32 buf then s.trace ++ [Event.logWarning
                     ("Caution !!! Please upgrade to new version, remote is v" ++
                       oVerStr (beUint32 buf))] else s.trace } buf := by
      unfold d5CNegotiation.validateAndGetTokens
      simp only [TUN_PARAMS_LEN] at hlen
      rw [hread]
      simp only []
      rw [if_neg (by omega)]
      by_cases hn : VERSION < beUint32 buf
      · have h16 : VERSION >>> 16 = beUint32 buf >>> 16 := by
          by_contra h
          exact hver ⟨hn, h⟩
        rw [if_pos hn, if_pos h16, if_pos hn]
      · rw [if_neg hn, if_neg hn]
    rw [htail]
    unfold d5CNegotiation.parseParamsThenCrossCheck
    simp only [TUN_PARAMS_LEN] at hlen
    rw [if_neg (by omega), if_neg (by omega), if_neg (by omega),
      if_neg (by simp only [TUN_PARAMS_LEN]; omega)]
    simp only [hwrite, hohash]
    by_cases hne : c.WHashSum lib.sha1 = filled got TKSZ
    · have herr := Read_error_not_exception c1 TKSZ INCONSISTENT_HASH
      rw [hohash] at herr
      simp only at herr
      simp [hne, herr]
    · have hne2 : filled got TKSZ ≠ c.WHashSum lib.sha1 := fun h => hne h.symm
      simp [hne, hne2]
  · intro k s s2 session got c hsend hread
    unfold d5SNegotiation.respondTestWithToken
    simp only [hsend, hread]
    by_cases hne : s2.hconn.WHashSum lib.sha1 = filled got TKSZ
    · have hw := Write_error_not_exception c (s2.hconn.RHashSum lib.sha1)
      rcases hwr : c.Write (s2.hconn.RHashSum lib.sha1) with ⟨e, c3⟩
      cases e <;> simp [hne]
    · have hne2 : filled got TKSZ ≠ s2.hconn.WHashSum lib.sha1 := fun h => hne h.symm
      have hfr := Read_sameWriteSide s2.hconn TKSZ
      rw [hread] at hfr
      have hwr : c.written = s2.hconn.written := hfr.1
      simp [hne, hne2, hwr]

/-- C7 at a peer that answers twenty bytes `09` on either side. -/
theorem hash_cross_check_witness :
    (d5CNegotiation.validateAndGetTokens (demoLib (true, none)) version
      (demoClient [.data [0, 32], .data (paramsBlock version), .data (List.replicate 20 9)])).1
        = .ret (some (.exc INCONSISTENT_HASH)) ∧
    (d5SNegotiation.respondTestWithToken (demoLib (true, none)) demoConsts
      (demoServer [.data (List.replicate 20 9)]) (NewSession ⟨[], .newRC4⟩ [])).1
        = .ret (some (.exc INCONSISTENT_HASH)) ∧
    (d5SNegotiation.respondTestWithToken (demoLib (true, none)) demoConsts
      (demoServer [.data (List.replicate 20 9)]) (NewSession ⟨[], .newRC4⟩ [])).2.hconn.written.length
        = 2 :=
  have hc := (hash_cross_check (demoLib (true, none))).1 version
    (demoClient [.data [0, 32], .data (paramsBlock version), .data (List.replicate 20 9)])
    (paramsBlock version) (List.replicate 20 9) none
    { demoConn [.data (List.replicate 20 9)] with rHash := [0, 32] ++ paramsBlock version }
    { demoConn [.data (List.replicate 20 9)] with
        rHash := [0, 32] ++ paramsBlock version,
        written := [demoSha1 ([0, 32] ++ paramsBlock version)],
        wHash := demoSha1 ([0, 32] ++ paramsBlock version) }
    { demoConn [] with
        rHash := [0, 32] ++ paramsBlock version ++ List.replicate 20 9,
        written := [demoSha1 ([0, 32] ++ paramsBlock version)],
        wHash := demoSha1 ([0, 32] ++ paramsBlock version) }
    (by decide) (by decide) (by decide) (by decide) (by decide)
  have hs := (hash_cross_check (demoLib (true, none))).2 demoConsts
    (demoServer [.data (List.replicate 20 9)])
    (d5SNegotiation.sendParamsAndTokens (demoLib (true, none)) demoConsts
      (demoServer [.data (List.replicate 20 9)]) (NewSession ⟨[], .newRC4⟩ [])).2
    (NewSession ⟨[], .newRC4⟩ []) (List.replicate 20 9)
    ((d5SNegotiation.sendParamsAndTokens (demoLib (true, none)) demoConsts
      (demoServer [.data (List.replicate 20 9)]) (NewSession ⟨[], .newRC4⟩ [])).2.hconn.Read
        TKSZ).2.2
    (by decide) (by decide)
  ⟨hc.mpr (by decide), hs.1.mpr (by decide),
    (congrArg List.length (hs.2 (by decide))).trans (by decide)⟩

/-! ## The cipher factory (C8, C9) -/

/-- C8 as it is stated, refuted: for the name "DES" the lookup in
`availableCiphers` gives nil and `def.keyLen` panics with a nil dereference,
not with `UNSUPPORTED_CIPHER`. -/
theorem NewCipherFactory_unknown_name_not_unsupported_cipher :
    NewCipherFactory demoMd5 "DES" [1, 2, 3] = .panic nilDereference ∧
    NewCipherFactory demoMd5 "DES" [1, 2, 3] ≠ .panic (.err (.exc UNSUPPORTED_CIPHER)) := by
  decide

/-- C8, amended: for every cipher name other than "RC4", "AES128CFB" and
"AES256CFB" and every secret, `availableCiphers` has no entry and
`NewCipherFactory(name, secret)` builds no factory: it panics with a nil
pointer dereference. -/
theorem NewCipherFactory_unknown_name (md5 : List Nat → List Nat) (name : String)
    (secret : List Nat)
    (h1 : name ≠ "RC4") (h2 : name ≠ "AES128CFB") (h3 : name ≠ "AES256CFB") :
    availableCiphers name = none ∧
    NewCipherFactory md5 name secret = .panic nilDereference ∧
    (∀ cf, NewCipherFactory md5 name secret ≠ .ret cf) := by
  have h : availableCiphers name = none := by simp [availableCiphers, h1, h2, h3]
  simp [NewCipherFactory, h]

/-- C8, amended, at the name "AES192CFB". -/
theorem NewCipherFactory_unknown_name_witness :
    NewCipherFactory demoMd5 "AES192CFB" [1, 2, 3] = .panic nilDereference :=
  (NewCipherFactory_unknown_name demoMd5 "AES192CFB" [1, 2, 3]
    (by decide) (by decide) (by decide)).2.1

theorem toSecretKey_16 (md5 : List Nat → List Nat) (secret : List Nat)
    (hmd5 : ∀ x, (md5 x).length = md5Size) :
    toSecretKey md5 secret 16 = (md5 secret).take 15 ++ [0] := by
  simp only [md5Size] at hmd5
  simp [toSecretKey, toSecretKeyStep, md5Size, copyInto, hmd5, List.range_succ]

theorem toSecretKey_32 (md5 : List Nat → List Nat) (secret : List Nat)
    (hmd5 : ∀ x, (md5 x).length = md5Size) :
    toSecretKey md5 secret 32 =
      (md5 secret).take 15 ++ [0] ++ ((md5 (secret ++ secret)).take 15 ++ [0]) := by
  simp only [md5Size] at hmd5
  have hA : ((md5 secret).take 15).length = 15 := by simp [hmd5]
  have hfold : toSecretKey md5 secret 32 =
      ((md5 secret).take 15 ++ List.replicate 17 0).take 16 ++
        ((md5 (secret ++ secret)).take 15 ++
          ((md5 secret).take 15 ++ List.replicate 17 0).drop 31) := by
    simp [toSecretKey, toSecretKeyStep, md5Size, copyInto, hmd5, List.range_succ]
  rw [hfold, List.take_append_eq_append_take, List.drop_append_eq_append_drop, hA,
    List.take_of_length_le (by omega), List.drop_of_length_le (by omega)]
  simp

/-- C9: for a digest function with 16-byte digests and `size` 16 or 32,
`toSecretKey(secret, size)` returns `size` bytes; in every block `i < size/16`
the bytes `[16i, 16i+15)` are the first 15 bytes of the digest of the secret
repeated `i+1` times, and byte `16i+15` is zero. -/
theorem toSecretKey_blocks (md5 : List Nat → List Nat) (secret : List Nat) (size : Nat)
    (hmd5 : ∀ x, (md5 x).length = md5Size)
    (hsize : size = 16 ∨ size = 32) :
    (toSecretKey md5 secret size).length = size ∧
    ∀ i, i < size / 16 →
      ((toSecretKey md5 secret size).drop (16 * i)).take 15
        = (md5 (List.replicate (i + 1) secret).flatten).take 15 ∧
      (toSecretKey md5 secret size)[16 * i + 15]? = some 0 := by
  have h16 := hmd5
  simp only [md5Size] at h16
  have hA : ∀ x, ((md5 x).take 15).length = 15 := by intro x; simp [h16]
  rcases hsize with rfl | rfl
  · rw [toSecretKey_16 md5 secret hmd5]
    refine ⟨by simp [h16], ?_⟩
    intro i hi
    have hi0 : i = 0 := by omega
    subst hi0
    refine ⟨by simp [h16], ?_⟩
    rw [List.getElem?_append_right (by simp [h16])]
    simp [h16]
  · rw [toSecretKey_32 md5 secret hmd5]
    refine ⟨by simp [h16], ?_⟩
    intro i hi
    have hi2 : i = 0 ∨ i = 1 := by omega
    rcases hi2 with rfl | rfl
    · refine ⟨?_, ?_⟩
      · rw [List.append_assoc, List.drop_zero, List.take_append_of_le_length (by simp [h16])]
        simp [h16]
      · rw [List.append_assoc, List.getElem?_append_right (by simp [h16])]
        simp [h16]
    · refine ⟨?_, ?_⟩
      · rw [List.drop_append_of_le_length (by simp [h16]),
          List.drop_of_length_le (by simp [h16]), List.nil_append,
          List.take_append_of_le_length (by simp [h16])]
        simp [h16]
      · rw [List.getElem?_append_right (by simp [h16])]
        simp [h16]

/-- C9 at the secret `01 02` and size 32, second block. -/
theorem toSecretKey_blocks_witness :
    (toSecretKey demoMd5 [1, 2] 32).length = 32 ∧
    ((toSecretKey demoMd5 [1, 2] 32).drop 16).take 15 = (demoMd5 [1, 2, 1, 2]).take 15 ∧
    (toSecretKey demoMd5 [1, 2] 32)[31]? = some 0 :=
  have h := toSecretKey_blocks demoMd5 [1, 2] 32 (by intro x; simp [demoMd5, md5Size])
    (Or.inr rfl)
  ⟨h.1, (h.2 1 (by decide)).1, (h.2 1 (by decide)).2⟩

/-! ## The tunnel pool (C10) -/

theorem insertionSortBy_contract : SortContract insertionSortBy := by
  intro heap l
  unfold insertionSortBy
  refine ⟨List.perm_insertionSort _ l, ?_⟩
  haveI : IsTotal ConnRef (fun a b => sortableConns.Less heap b a = false) :=
    ⟨fun a b => by
      simp only [sortableConns.Less, decide_eq_false_iff_not, gt_iff_lt, not_lt]
      exact le_total _ _⟩
  haveI : IsTrans ConnRef (fun a b => sortableConns.Less heap b a = false) :=
    ⟨fun a b c hab hbc => by
      simp only [sortableConns.Less, decide_eq_false_iff_not, gt_iff_lt, not_lt] at *
      exact le_trans hbc hab⟩
  exact List.sorted_insertionSort (fun a b => sortableConns.Less heap b a = false) l

theorem wrapInt64_of_inRange (x : Int) (h1 : -(2 ^ 63) ≤ x) (h2 : x < 2 ^ 63) :
    wrapInt64 x = x := by
  unfold wrapInt64
  omega

/-- C10: with a `sort.Sort` that keeps its contract, `Select` returns nil on an
empty pool and leaves it unchanged; on a non-empty pool it returns a member
whose rank before the call is at least the rank of every member, decrements
that member's rank by 1 (an `int64` decrement: exactly 1 for every rank above
the least `int64`), leaves its `last` and every other tunnel's priority
unchanged, and keeps the members of the pool (the slice is rearranged); on a
pool of one tunnel it returns that tunnel with its rank decremented. -/
theorem Select_spec (sortFn : (ConnRef → ConnRef → Bool) → List ConnRef → List ConnRef)
    (h : ConnPool) (heap : ConnHeap) (hsort : SortContract sortFn) :
    (h.pool = [] → ConnPool.Select sortFn h heap = (none, h, heap)) ∧
    (h.pool ≠ [] →
      ∃ c, (ConnPool.Select sortFn h heap).1 = some c ∧
        c ∈ h.pool ∧
        (∀ d ∈ h.pool, (heap d).rank ≤ (heap c).rank) ∧
        ((ConnPool.Select sortFn h heap).2.2 c).rank = wrapInt64 ((heap c).rank - 1) ∧
        (-(2 ^ 63) < (heap c).rank → (heap c).rank < 2 ^ 63 →
          ((ConnPool.Select sortFn h heap).2.2 c).rank = (heap c).rank - 1) ∧
        ((ConnPool.Select sortFn h heap).2.2 c).last = (heap c).last ∧
        (∀ d, d ≠ c → (ConnPool.Select sortFn h heap).2.2 d = heap d) ∧
        (ConnPool.Select sortFn h heap).2.1.pool.Perm h.pool) ∧
    (∀ x, h.pool = [x] →
      (ConnPool.Select sortFn h heap).1 = some x ∧
      ((ConnPool.Select sortFn h heap).2.2 x).rank = wrapInt64 ((heap x).rank - 1) ∧
      (ConnPool.Select sortFn h heap).2.1.pool = [x]) := by
  obtain ⟨hperm, hsorted⟩ := hsort heap h.pool
  have hgen : h.pool ≠ [] →
      ∃ c, (ConnPool.Select sortFn h heap).1 = some c ∧
        c ∈ h.pool ∧
        (∀ d ∈ h.pool, (heap d).rank ≤ (heap c).rank) ∧
        ((ConnPool.Select sortFn h heap).2.2 c).rank = wrapInt64 ((heap c).rank - 1) ∧
        (-(2 ^ 63) < (heap c).rank → (heap c).rank < 2 ^ 63 →
          ((ConnPool.Select sortFn h heap).2.2 c).rank = (heap c).rank - 1) ∧
        ((ConnPool.Select sortFn h heap).2.2 c).last = (heap c).last ∧
        (∀ d, d ≠ c → (ConnPool.Select sortFn h heap).2.2 d = heap d) ∧
        (ConnPool.Select sortFn h heap).2.1.pool.Perm h.pool := by
    intro hne
    have hlen : ¬ h.pool.length < 1 := by
      cases hp : h.pool with
      | nil => exact absurd hp hne
      | cons a t => simp
    cases hs : sortFn (sortableConns.Less heap) h.pool with
    | nil =>
      rw [hs] at hperm
      exact absurd hperm.symm.eq_nil hne
    | cons sel rest =>
      rw [hs] at hperm hsorted
      have hmem : sel ∈ h.pool := hperm.subset (List.mem_cons_self sel rest)
      have hmax : ∀ d ∈ h.pool, (heap d).rank ≤ (heap sel).rank := by
        intro d hd
        have hd2 : d ∈ sel :: rest := hperm.symm.subset hd
        rcases List.mem_cons.mp hd2 with rfl | hd3
        · exact le_refl _
        · have := (List.pairwise_cons.mp hsorted).1 d hd3
          simpa [sortableConns.Less] using this
      have hsel : ConnPool.Select sortFn h heap =
          (some sel, { pool := sel :: rest },
            fun c => if c = sel then { (heap c) with rank := wrapInt64 ((heap c).rank - 1) }
              else heap c) := by
        unfold ConnPool.Select
        rw [if_neg hlen]
        simp only [hs]
      refine ⟨sel, ?_, hmem, hmax, ?_, ?_, ?_, ?_, ?_⟩
      · rw [hsel]
      · rw [hsel]; simp
      · intro hlo hhi
        rw [hsel]
        simp only [if_true]
        exact wrapInt64_of_inRange _ (by omega) (by omega)
      · rw [hsel]; simp
      · intro d hd
        rw [hsel]
        simp [hd]
      · rw [hsel]
        exact hperm
  refine ⟨?_, hgen, ?_⟩
  · intro hnil
    unfold ConnPool.Select
    rw [hnil]
    simp
  · intro x hx
    obtain ⟨c, hc1, hc2, -, hc4, -, -, -, hc8⟩ := hgen (by rw [hx]; simp)
    rw [hx] at hc2 hc8
    have hcx : c = x := by simpa using hc2
    subst hcx
    exact ⟨hc1, hc4, List.perm_singleton.mp hc8⟩

/-- C10 at a pool with the one tunnel 7 of rank 5, sorted by insertion sort. -/
theorem Select_spec_witness :
    (ConnPool.Select insertionSortBy ⟨[7]⟩ (fun _ => ⟨0, 5⟩)).1 = some 7 ∧
    ((ConnPool.Select insertionSortBy ⟨[7]⟩ (fun _ => ⟨0, 5⟩)).2.2 7).rank = 4 :=
  have h := (Select_spec insertionSortBy ⟨[7]⟩ (fun _ => ⟨0, 5⟩) insertionSortBy_contract).2.2 7 rfl
  ⟨h.1, h.2.1.trans (by decide)⟩

/-! ## Consecutive selections rotate (C11) -/

/-- The shape of a call of `Select` on a non-empty pool: the head of the sorted
slice is returned and its rank decremented. -/
theorem Select_nonempty (sortFn : (ConnRef → ConnRef → Bool) → List ConnRef → List ConnRef)
    (h : ConnPool) (heap : ConnHeap) (hsort : SortContract sortFn) (hne : h.pool ≠ []) :
    ∃ sel rest, (sel :: rest).Perm h.pool ∧
      (∀ d ∈ h.pool, (heap d).rank ≤ (heap sel).rank) ∧
      ConnPool.Select sortFn h heap =
        (some sel, { pool := sel :: rest },
          fun c => if c = sel then { (heap c) with rank := wrapInt64 ((heap c).rank - 1) }
            else heap c) := by
  obtain ⟨hperm, hsorted⟩ := hsort heap h.pool
  have hlen : ¬ h.pool.length < 1 := by
    cases hp : h.pool with
    | nil => exact absurd hp hne
    | cons a t => simp
  cases hs : sortFn (sortableConns.Less heap) h.pool with
  | nil =>
    rw [hs] at hperm
    exact absurd hperm.symm.eq_nil hne
  | cons sel rest =>
    rw [hs] at hperm hsorted
    refine ⟨sel, rest, hperm, ?_, ?_⟩
    · intro d hd
      have hd2 : d ∈ sel :: rest := hperm.symm.subset hd
      rcases List.mem_cons.mp hd2 with rfl | hd3
      · exact le_refl _
      · have := (List.pairwise_cons.mp hsorted).1 d hd3
        simpa [sortableConns.Less] using this
    · unfold ConnPool.Select
      rw [if_neg hlen]
      simp only [hs]

theorem selectMany_fresh (sortFn : (ConnRef → ConnRef → Bool) → List ConnRef → List ConnRef)
    (hsort : SortContract sortFn) (r : Int) (hlo : -(2 ^ 63) < r) (hhi : r ≤ 2 ^ 63) (k : Nat) :
    ∀ (h : ConnPool) (heap : ConnHeap), h.pool.Nodup →
      (∀ c ∈ h.pool, (heap c).rank = r ∨ (heap c).rank = r - 1) →
      (h.pool.filter (fun c => decide ((heap c).rank = r))).length = k →
      (ConnPool.selectMany sortFn k h heap).1.Perm
          ((h.pool.filter (fun c => decide ((heap c).rank = r))).map some) ∧
        (ConnPool.selectMany sortFn k h heap).2.1.pool.Perm h.pool ∧
        (∀ c ∈ h.pool, ((ConnPool.selectMany sortFn k h heap).2.2 c).rank = r - 1) := by
  induction k with
  | zero =>
    intro h heap _ hranks hcount
    have hnil : h.pool.filter (fun c => decide ((heap c).rank = r)) = [] :=
      List.length_eq_zero.mp hcount
    refine ⟨by simp [ConnPool.selectMany, hnil], by simp [ConnPool.selectMany], ?_⟩
    intro c hc
    rcases hranks c hc with h1 | h1
    · have : c ∈ h.pool.filter (fun c => decide ((heap c).rank = r)) := by
        simp [List.mem_filter, hc, h1]
      rw [hnil] at this
      exact absurd this (List.not_mem_nil c)
    · simpa [ConnPool.selectMany] using h1
  | succ k ih =>
    intro h heap hnodup hranks hcount
    have hne : h.pool ≠ [] := by
      intro hnil
      rw [hnil] at hcount
      simp at hcount
    obtain ⟨sel, rest, hperm, hmax, hsel⟩ := Select_nonempty sortFn h heap hsort hne
    have hselmem : sel ∈ h.pool := hperm.subset (List.mem_cons_self sel rest)
    -- some tunnel still has rank r, so the selected one has rank r
    have hselrank : (heap sel).rank = r := by
      have hex : ∃ d, d ∈ h.pool.filter (fun c => decide ((heap c).rank = r)) := by
        cases hf : h.pool.filter (fun c => decide ((heap c).rank = r)) with
        | nil => rw [hf] at hcount; simp at hcount
        | cons d t => exact ⟨d, List.mem_cons_self d t⟩
      obtain ⟨d, hd⟩ := hex
      have hd1 := (List.mem_filter.mp hd).1
      have hd2 : (heap d).rank = r := by simpa using (List.mem_filter.mp hd).2
      have hle := hmax d hd1
      rcases hranks sel hselmem with h1 | h1
      · exact h1
      · omega
    have hwrap : wrapInt64 (r - 1) = r - 1 := by
      unfold wrapInt64
      omega
    set heap' : ConnHeap := fun c =>
      if c = sel then { (heap c) with rank := wrapInt64 ((heap c).rank - 1) } else heap c
      with hheap'
    have hnodup' : (sel :: rest).Nodup := hperm.nodup_iff.mpr hnodup
    have hranks' : ∀ c ∈ sel :: rest, (heap' c).rank = r ∨ (heap' c).rank = r - 1 := by
      intro c hc
      by_cases hcs : c = sel
      · right
        simp [hheap', hcs, hselrank, hwrap]
      · simpa [hheap', hcs] using hranks c (hperm.subset hc)
    have hfilter' : ∀ l : List ConnRef,
        l.filter (fun c => decide ((heap' c).rank = r)) =
          (l.filter (fun c => decide ((heap c).rank = r))).filter (fun c => decide (c ≠ sel)) := by
      intro l
      rw [List.filter_filter]
      apply List.filter_congr
      intro c _
      by_cases hcs : c = sel
      · have : r - 1 ≠ r := by omega
        simp [hheap', hcs, hselrank, hwrap, this]
      · simp [hheap', hcs]
    have hfperm : (h.pool.filter (fun c => decide ((heap c).rank = r))).Perm
        (sel :: (sel :: rest).filter (fun c => decide ((heap' c).rank = r))) := by
      have hmemf : sel ∈ h.pool.filter (fun c => decide ((heap c).rank = r)) := by
        simp [List.mem_filter, hselmem, hselrank]
      have hnd : (h.pool.filter (fun c => decide ((heap c).rank = r))).Nodup :=
        hnodup.filter _
      have h1 := List.perm_cons_erase hmemf
      rw [hnd.erase_eq_filter] at h1
      refine h1.trans (List.Perm.cons _ ?_)
      rw [hfilter' (sel :: rest)]
      have h2 : (h.pool.filter (fun c => decide ((heap c).rank = r))).Perm
          ((sel :: rest).filter (fun c => decide ((heap c).rank = r))) :=
        (hperm.filter _).symm
      have h3 := h2.filter (fun c => decide (c ≠ sel))
      refine List.Perm.trans ?_ h3
      apply List.Perm.of_eq
      apply List.filter_congr
      intro c _
      by_cases hcs : c = sel <;> simp [hcs]
    have hcount' : ((sel :: rest).filter (fun c => decide ((heap' c).rank = r))).length = k := by
      have := hfperm.length_eq
      rw [hcount] at this
      simp only [List.length_cons] at this
      omega
    obtain ⟨ih1, ih2, ih3⟩ := ih { pool := sel :: rest } heap' hnodup' hranks' hcount'
    have hunfold : ConnPool.selectMany sortFn (k + 1) h heap =
        (some sel :: (ConnPool.selectMany sortFn k { pool := sel :: rest } heap').1,
          (ConnPool.selectMany sortFn k { pool := sel :: rest } heap').2.1,
          (ConnPool.selectMany sortFn k { pool := sel :: rest } heap').2.2) := by
      simp only [ConnPool.selectMany, hsel, hheap']
    rw [hunfold]
    refine ⟨?_, ih2.trans hperm, ?_⟩
    · refine List.Perm.trans (List.Perm.cons _ ih1) ?_
      have := (hfperm.map some).symm
      simpa using this
    · intro c hc
      exact ih3 c (hperm.symm.subset hc)

/-- C11: selections rotate. From a pool of distinct tunnels that all have the
rank `r` (an int64 above the least one, so that the decrement does not wrap),
with no `Push` or `Remove` in between, as many calls of `Select` as the pool
has tunnels return every tunnel of the pool exactly once, afterwards every
tunnel has the rank `r - 1` and the pool holds the same tunnels; and one call
of `Select` keeps the ranks of any pool within 1 of each other. -/
theorem Select_rotates (sortFn : (ConnRef → ConnRef → Bool) → List ConnRef → List ConnRef)
    (h : ConnPool) (heap : ConnHeap) (r : Int)
    (hsort : SortContract sortFn)
    (hnodup : h.pool.Nodup)
    (hrank : ∀ c ∈ h.pool, (heap c).rank = r)
    (hlo : -(2 ^ 63) < r) (hhi : r < 2 ^ 63) :
    (ConnPool.selectMany sortFn h.pool.length h heap).1.Perm (h.pool.map some) ∧
    (∀ c ∈ h.pool, ((ConnPool.selectMany sortFn h.pool.length h heap).2.2 c).rank = r - 1) ∧
    (ConnPool.selectMany sortFn h.pool.length h heap).2.1.pool.Perm h.pool ∧
    (∀ (h' : ConnPool) (heap' : ConnHeap),
      (∀ c ∈ h'.pool, -(2 ^ 63) < (heap' c).rank ∧ (heap' c).rank < 2 ^ 63) →
      ranksWithinOne h' heap' →
      ranksWithinOne (ConnPool.Select sortFn h' heap').2.1 (ConnPool.Select sortFn h' heap').2.2) := by
  have hall : h.pool.filter (fun c => decide ((heap c).rank = r)) = h.pool := by
    rw [List.filter_eq_self]
    intro c hc
    simpa using hrank c hc
  have hmain := selectMany_fresh sortFn hsort r hlo (le_of_lt hhi) h.pool.length h heap hnodup
    (fun c hc => Or.inl (hrank c hc)) (by rw [hall])
  rw [hall] at hmain
  refine ⟨hmain.1, hmain.2.2, hmain.2.1, ?_⟩
  intro h' heap' hrange hinv
  by_cases hne : h'.pool = []
  · have : ConnPool.Select sortFn h' heap' = (none, h', heap') := by
      unfold ConnPool.Select
      rw [hne]
      simp
    rw [this]
    exact hinv
  · obtain ⟨sel, rest, hperm, hmax, hsel⟩ := Select_nonempty sortFn h' heap' hsort hne
    rw [hsel]
    have hselmem : sel ∈ h'.pool := hperm.subset (List.mem_cons_self sel rest)
    have hwrap : wrapInt64 ((heap' sel).rank - 1) = (heap' sel).rank - 1 := by
      have := hrange sel hselmem
      unfold wrapInt64
      omega
    intro a ha b hb
    have ha' : a ∈ h'.pool := hperm.subset ha
    have hb' : b ∈ h'.pool := hperm.subset hb
    have hab := hinv a ha' b hb'
    have hsb := hinv sel hselmem b hb'
    have has := hmax a ha'
    by_cases hae : a = sel <;> by_cases hbe : b = sel
    · simp [hae, hbe]
    · simp only [hae, hbe, if_true, if_false, hwrap]
      omega
    · simp only [hae, hbe, if_true, if_false, hwrap]
      omega
    · simp only [hae, hbe, if_false]
      exact hab

/-- C11 at the pool of the tunnels 4, 5 and 6 of rank 9, sorted by insertion
sort: three calls return the three tunnels and the tunnel 5 has rank 8. -/
theorem Select_rotates_witness :
    (ConnPool.selectMany insertionSortBy 3 ⟨[4, 5, 6]⟩ (fun _ => ⟨0, 9⟩)).1.Perm
      [some 4, some 5, some 6] ∧
    ((ConnPool.selectMany insertionSortBy 3 ⟨[4, 5, 6]⟩ (fun _ => ⟨0, 9⟩)).2.2 5).rank = 8 :=
  have h := Select_rotates insertionSortBy ⟨[4, 5, 6]⟩ (fun _ => ⟨0, 9⟩) 9
    insertionSortBy_contract (by decide) (fun _ _ => rfl) (by decide) (by decide)
  ⟨h.1, h.2.1 5 (by decide)⟩

/-! ## The router after a tunnel died (C12) -/

theorem cleanOfTunStep_eq (A : FrameActions) (tunId : String) (st : MuxState)
    (x : String × EdgeRef) :
    cleanOfTunStep A tunId st x =
      if cleans tunId st x = true then
        { st with edges := Function.update st.edges x.2 (pushSentinel A (st.edges x.2)),
                  registry := st.registry.filter (fun p => decide (p.1 ≠ x.1)) }
      else st := by
  unfold cleanOfTunStep cleans pushSentinel
  cases hq : (st.edges x.2).queue with
  | none => simp
  | some q =>
    cases hp : HasPrefix x.1 tunId with
    | false => simp
    | true => simp [MuxState.modifyEdge, hq]

theorem foldl_cleanOfTunStep (A : FrameActions) (tunId : String)
    (l : List (String × EdgeRef)) :
    ∀ st : MuxState, (l.map Prod.snd).Nodup →
      (∀ p, p ∈ (l.foldl (cleanOfTunStep A tunId) st).registry ↔
        p ∈ st.registry ∧ ∀ x ∈ l, cleans tunId st x = true → x.1 ≠ p.1) ∧
      (∀ e, (l.foldl (cleanOfTunStep A tunId) st).edges e =
        if ∃ x ∈ l, x.2 = e ∧ cleans tunId st x = true then pushSentinel A (st.edges e)
        else st.edges e) ∧
      (l.foldl (cleanOfTunStep A tunId) st).upstream = st.upstream ∧
      (l.foldl (cleanOfTunStep A tunId) st).pool = st.pool := by
  induction l with
  | nil => intro st _; simp
  | cons x l ih =>
    intro st hnd
    simp only [List.map_cons, List.nodup_cons] at hnd
    obtain ⟨hx, hnd'⟩ := hnd
    simp only [List.foldl_cons]
    have hstep := cleanOfTunStep_eq A tunId st x
    by_cases hc : cleans tunId st x = true
    · rw [if_pos hc] at hstep
      rw [hstep]
      obtain ⟨ih1, ih2, ih3, ih4⟩ := ih
        { st with edges := Function.update st.edges x.2 (pushSentinel A (st.edges x.2)),
                  registry := st.registry.filter (fun p => decide (p.1 ≠ x.1)) } hnd'
      -- the entries that follow are judged alike before and after the step
      have hsame : ∀ y ∈ l, cleans tunId
          { st with edges := Function.update st.edges x.2 (pushSentinel A (st.edges x.2)),
                    registry := st.registry.filter (fun p => decide (p.1 ≠ x.1)) } y
            = cleans tunId st y := by
        intro y hy
        have hne : y.2 ≠ x.2 := by
          intro h
          exact hx (h ▸ List.mem_map_of_mem Prod.snd hy)
        simp [cleans, Function.update_noteq hne]
      refine ⟨?_, ?_, ih3, ih4⟩
      · intro p
        rw [ih1 p]
        simp only [List.mem_filter, decide_eq_true_eq, List.mem_cons, forall_eq_or_imp]
        constructor
        · rintro ⟨⟨hp, hpx⟩, hall⟩
          exact ⟨hp, fun _ h => hpx h.symm,
            fun y hy hcy => hall y hy ((hsame y hy).trans hcy)⟩
        · rintro ⟨hp, hpx, hall⟩
          exact ⟨⟨hp, fun h => hpx hc h.symm⟩,
            fun y hy hcy => hall y hy ((hsame y hy).symm.trans hcy)⟩
      · intro e
        rw [ih2 e]
        have hex : (∃ y ∈ l, y.2 = e ∧ cleans tunId
            { st with edges := Function.update st.edges x.2 (pushSentinel A (st.edges x.2)),
                      registry := st.registry.filter (fun p => decide (p.1 ≠ x.1)) } y = true) ↔
            (∃ y ∈ l, y.2 = e ∧ cleans tunId st y = true) := by
          constructor
          · rintro ⟨y, hy, he, hcy⟩
            exact ⟨y, hy, he, (hsame y hy).symm.trans hcy⟩
          · rintro ⟨y, hy, he, hcy⟩
            exact ⟨y, hy, he, (hsame y hy).trans hcy⟩
        by_cases hl : ∃ y ∈ l, y.2 = e ∧ cleans tunId st y = true
        · have hne : e ≠ x.2 := by
            obtain ⟨y, hy, he, -⟩ := hl
            intro h
            exact hx (h ▸ he ▸ List.mem_map_of_mem Prod.snd hy)
          have hl' : ∃ y ∈ x :: l, y.2 = e ∧ cleans tunId st y = true := by
            obtain ⟨y, hy, he, hcy⟩ := hl
            exact ⟨y, List.mem_cons_of_mem x hy, he, hcy⟩
          rw [if_pos (hex.mpr hl), if_pos hl']
          simp only [Function.update_noteq hne]
        · rw [if_neg (fun h => hl (hex.mp h))]
          by_cases he : x.2 = e
          · have hl' : ∃ y ∈ x :: l, y.2 = e ∧ cleans tunId st y = true :=
              ⟨x, List.mem_cons_self x l, he, hc⟩
            rw [if_pos hl']
            subst he
            simp only [Function.update_same]
          · have hl' : ¬ ∃ y ∈ x :: l, y.2 = e ∧ cleans tunId st y = true := by
              rintro ⟨y, hy, hye, hcy⟩
              rcases List.mem_cons.mp hy with rfl | hy'
              · exact he hye
              · exact hl ⟨y, hy', hye, hcy⟩
            rw [if_neg hl']
            simp only [Function.update_noteq (Ne.symm he)]
    · rw [if_neg hc] at hstep
      rw [hstep]
      obtain ⟨ih1, ih2, ih3, ih4⟩ := ih st hnd'
      refine ⟨?_, ?_, ih3, ih4⟩
      · intro p
        rw [ih1 p]
        simp only [List.mem_cons, forall_eq_or_imp]
        constructor
        · rintro ⟨hp, hall⟩
          exact ⟨hp, fun h => absurd h hc, hall⟩
        · rintro ⟨hp, -, hall⟩
          exact ⟨hp, hall⟩
      · intro e
        rw [ih2 e]
        have hiff : (∃ y ∈ x :: l, y.2 = e ∧ cleans tunId st y = true) ↔
            (∃ y ∈ l, y.2 = e ∧ cleans tunId st y = true) := by
          constructor
          · rintro ⟨y, hy, hye, hcy⟩
            rcases List.mem_cons.mp hy with rfl | hy'
            · exact absurd hcy hc
            · exact ⟨y, hy', hye, hcy⟩
          · rintro ⟨y, hy, hye, hcy⟩
            exact ⟨y, List.mem_cons_of_mem x hy, hye, hcy⟩
        by_cases hl : ∃ y ∈ l, y.2 = e ∧ cleans tunId st y = true
        · rw [if_pos hl, if_pos (hiff.mpr hl)]
        · rw [if_neg hl, if_neg (fun h => hl (hiff.mp h))]

/-- C12 as it is stated, refuted: a client-side edge registered with
`positive = true` under the key "a#1" has no queue; after `cleanOfTun` for the
tunnel with the identifier "a" the entry is still in the registry and nothing
was enqueued. -/
theorem cleanOfTun_keeps_edge_without_queue :
    HasPrefix (streamKey "a" 1) (demoClientRouter.identifier 1) = true ∧
    lookupKey demoClientRouter.registry (streamKey "a" 1) = some 0 ∧
    (demoClientRouter.edges 0).positive = true ∧
    (demoClientRouter.edges 0).queue = none ∧
    lookupKey (egressRouter.cleanOfTun demoActions demoClientRouter 1).registry
      (streamKey "a" 1) = some 0 ∧
    ((egressRouter.cleanOfTun demoActions demoClientRouter 1).edges 0).queue = none := by
  decide

/-- C12, amended: in a router whose registry has every key and every edge
once, after `cleanOfTun(tun)` the registry holds no entry whose key begins
with `tun.identifier` and whose edge has a queue; every entry with such a key
and a queue was removed and `_push` was called with the `CLOSE` sentinel on its
queue; an entry whose edge has no queue stays and its edge is untouched. -/
theorem cleanOfTun_spec (A : FrameActions) (st : MuxState) (tun : ConnRef)
    (hkeys : (st.registry.map Prod.fst).Nodup)
    (hrefs : (st.registry.map Prod.snd).Nodup) :
    (∀ k e, (k, e) ∈ (egressRouter.cleanOfTun A st tun).registry →
      (k, e) ∈ st.registry ∧
      ¬ (HasPrefix k (st.identifier tun) = true ∧
          ((egressRouter.cleanOfTun A st tun).edges e).queue ≠ none)) ∧
    (∀ k e q, (k, e) ∈ st.registry → HasPrefix k (st.identifier tun) = true →
      (st.edges e).queue = some q →
      (k, e) ∉ (egressRouter.cleanOfTun A st tun).registry ∧
      ((egressRouter.cleanOfTun A st tun).edges e).queue = some (q._push (closeSentinel A))) ∧
    (∀ k e, (k, e) ∈ st.registry → (st.edges e).queue = none →
      (k, e) ∈ (egressRouter.cleanOfTun A st tun).registry ∧
      (egressRouter.cleanOfTun A st tun).edges e = st.edges e) := by
  obtain ⟨hreg, hedges, -, -⟩ :=
    foldl_cleanOfTunStep A (st.identifier tun) st.registry st hrefs
  have hkey : ∀ x ∈ st.registry, ∀ y ∈ st.registry, x.1 = y.1 → x = y :=
    fun x hx y hy h => List.inj_on_of_nodup_map hkeys hx hy h
  have href : ∀ x ∈ st.registry, ∀ y ∈ st.registry, x.2 = y.2 → x = y :=
    fun x hx y hy h => List.inj_on_of_nodup_map hrefs hx hy h
  refine ⟨?_, ?_, ?_⟩
  · intro k e hmem
    have h := (hreg (k, e)).mp hmem
    refine ⟨h.1, ?_⟩
    rintro ⟨hp, hq⟩
    have hq0 : (st.edges e).queue ≠ none := by
      intro hnone
      apply hq
      show ((List.foldl (cleanOfTunStep A (st.identifier tun)) st st.registry).edges e).queue = none
      rw [hedges e]
      split
      · simp [pushSentinel, hnone]
      · exact hnone
    have hc : cleans (st.identifier tun) st (k, e) = true := by
      simp only [cleans, Bool.and_eq_true]
      exact ⟨hp, Option.isSome_iff_ne_none.mpr hq0⟩
    exact h.2 (k, e) h.1 hc rfl
  · intro k e q hmem hp hq
    have hc : cleans (st.identifier tun) st (k, e) = true := by
      simp [cleans, hp, hq]
    refine ⟨?_, ?_⟩
    · intro hin
      exact ((hreg (k, e)).mp hin).2 (k, e) hmem hc rfl
    · show ((List.foldl (cleanOfTunStep A (st.identifier tun)) st st.registry).edges e).queue = _
      rw [hedges e, if_pos ⟨(k, e), hmem, rfl, hc⟩]
      simp [pushSentinel, hq]
  · intro k e hmem hq
    refine ⟨?_, ?_⟩
    · refine (hreg (k, e)).mpr ⟨hmem, ?_⟩
      intro x hx hcx hxk
      have hxe : x = (k, e) := hkey x hx (k, e) hmem hxk
      subst hxe
      simp [cleans, hq] at hcx
    · show (List.foldl (cleanOfTunStep A (st.identifier tun)) st st.registry).edges e = _
      rw [hedges e, if_neg]
      rintro ⟨x, -, hxe, hcx⟩
      simp [cleans, hxe, hq] at hcx

/-- C12, amended, at a server-side router with the streams "a#1" and "c#2":
`cleanOfTun` for the tunnel "a" removes "a#1" and its queue holds the `CLOSE`. -/
theorem cleanOfTun_spec_witness :
    ((egressRouter.cleanOfTun demoActions demoServerRouter2 1).edges 0).queue
      = some { buffer := some [closeSentinel demoActions] } ∧
    (streamKey "a" 1, 0) ∉ (egressRouter.cleanOfTun demoActions demoServerRouter2 1).registry :=
  have h := (cleanOfTun_spec demoActions demoServerRouter2 1 (by decide) (by decide)).2.1
    (streamKey "a" 1) 0 { buffer := some [] } (by decide) (by decide) (by decide)
  ⟨h.2, h.1⟩

/-! ## Lemmas on the send loop -/

theorem modifyEdge_edges_same (st : MuxState) (e : EdgeRef) (f : edgeConn → edgeConn) :
    (st.modifyEdge e f).edges e = f (st.edges e) := by
  simp [MuxState.modifyEdge]

theorem modifyEdge_edges_other (st : MuxState) (e d : EdgeRef) (f : edgeConn → edgeConn)
    (h : d ≠ e) : (st.modifyEdge e f).edges d = st.edges d := by
  simp [MuxState.modifyEdge, Function.update_noteq h]

theorem modifyEdge_rest (st : MuxState) (e : EdgeRef) (f : edgeConn → edgeConn) :
    (st.modifyEdge e f).upstream = st.upstream ∧ (st.modifyEdge e f).pool = st.pool ∧
    (st.modifyEdge e f).heap = st.heap ∧ (st.modifyEdge e f).isClient = st.isClient ∧
    (st.modifyEdge e f).localAddrNil = st.localAddrNil ∧
    (st.modifyEdge e f).registry = st.registry := by
  simp [MuxState.modifyEdge]

theorem pickTunnel_rest (sortFn : (ConnRef → ConnRef → Bool) → List ConnRef → List ConnRef)
    (e : EdgeRef) (st : MuxState) :
    (pickTunnel sortFn e st).2.edges = st.edges ∧
    (pickTunnel sortFn e st).2.upstream = st.upstream := by
  unfold pickTunnel
  split <;> exact ⟨rfl, rfl⟩

theorem notifyPeer_edges (A : FrameActions)
    (sortFn : (ConnRef → ConnRef → Bool) → List ConnRef → List ConnRef)
    (e : EdgeRef) (st : MuxState) (frm : frame) :
    ((notifyPeer A sortFn e st frm).edges e).queue = (st.edges e).queue ∧
    ((notifyPeer A sortFn e st frm).edges e).conn = (st.edges e).conn := by
  unfold notifyPeer
  split
  · have h := pickTunnel_rest sortFn e
      (st.modifyEdge e (fun ed => { ed with closed := ed.closed ||| TCP_CLOSE_W }))
    split
    · rename_i t st2 heq
      rw [heq] at h
      simp only at h ⊢
      rw [h.1, modifyEdge_edges_same]
      exact ⟨rfl, rfl⟩
    · rename_i st2 heq
      rw [heq] at h
      simp only at h ⊢
      rw [h.1, modifyEdge_edges_same]
      exact ⟨rfl, rfl⟩
  · exact ⟨rfl, rfl⟩

theorem notifyPeer_upstream (A : FrameActions)
    (sortFn : (ConnRef → ConnRef → Bool) → List ConnRef → List ConnRef)
    (e : EdgeRef) (st : MuxState) (frm : frame) :
    (notifyPeer A sortFn e st frm).upstream =
      if (st.edges e).closed &&& TCP_CLOSE_W = 0 then
        st.upstream ++ ((pickTunnel sortFn e st).1.toList.map (fun t => (t, closeRFrame A frm)))
      else st.upstream := by
  unfold notifyPeer
  split
  · have h := pickTunnel_rest sortFn e
      (st.modifyEdge e (fun ed => { ed with closed := ed.closed ||| TCP_CLOSE_W }))
    have h1 : (pickTunnel sortFn e
        (st.modifyEdge e (fun ed => { ed with closed := ed.closed ||| TCP_CLOSE_W }))).1
          = (pickTunnel sortFn e st).1 := by
      unfold pickTunnel
      simp only [modifyEdge_edges_same, (modifyEdge_rest _ _ _).2.2.2.1,
        (modifyEdge_rest _ _ _).2.2.2.2.1, (modifyEdge_rest _ _ _).2.1,
        (modifyEdge_rest _ _ _).2.2.1]
      split <;> rfl
    split
    · rename_i t st2 heq
      rw [heq] at h h1
      simp only at h h1 ⊢
      rw [h.2, (modifyEdge_rest _ _ _).1, ← h1]
      simp
    · rename_i st2 heq
      rw [heq] at h h1
      simp only at h h1 ⊢
      rw [h.2, (modifyEdge_rest _ _ _).1, ← h1]
      simp
  · rfl

/-- The state in which `sendLoop` leaves the edge `e` after a write error. -/
theorem sendLoopOnError_edge (A : FrameActions)
    (sortFn : (ConnRef → ConnRef → Bool) → List ConnRef → List ConnRef)
    (e : EdgeRef) (st : MuxState) (frm : frame) :
    ((sendLoopOnError A sortFn e st frm).edges e).closed = TCP_CLOSE_R ||| TCP_CLOSE_W ∧
    ((sendLoopOnError A sortFn e st frm).edges e).queue
      = (st.edges e).queue.map (fun (q : equeue) => { q with buffer := none }) ∧
    ((sendLoopOnError A sortFn e st frm).edges e).conn = SafeClose (st.edges e).conn ∧
    (sendLoopOnError A sortFn e st frm).upstream = (notifyPeer A sortFn e st frm).upstream := by
  have h := notifyPeer_edges A sortFn e st frm
  unfold sendLoopOnError equeue._close
  simp only [modifyEdge_edges_same, if_true, (modifyEdge_rest _ _ _).1, h.1, h.2]
  exact ⟨trivial, trivial, trivial, trivial⟩

theorem sendFrame_eq (st : MuxState) (frm : frame) (d : EdgeRef) (h : frm.conn = some d) :
    sendFrame st frm =
      some (decide (¬ (((st.edges d).conn.Write frm.data).1 = frm.length ∧
                        ((st.edges d).conn.Write frm.data).2.1 = none)),
        st.modifyEdge d (fun ed => { ed with conn := ((st.edges d).conn.Write frm.data).2.2 })) := by
  unfold sendFrame
  rw [h]
  simp only
  split <;> rename_i hc <;> simp [hc]

theorem close_upstream (st : MuxState) (e : EdgeRef) (force : Bool) :
    (equeue._close st e force).upstream = st.upstream := by
  simp [equeue._close, MuxState.modifyEdge]

theorem sendLoopOnError_upstream (A : FrameActions)
    (sortFn : (ConnRef → ConnRef → Bool) → List ConnRef → List ConnRef)
    (e : EdgeRef) (st : MuxState) (frm : frame) :
    ∃ extra, (sendLoopOnError A sortFn e st frm).upstream = st.upstream ++ extra ∧
      extra.length ≤ 1 ∧
      (∀ x ∈ extra, x.2.action = A.FRAME_ACTION_CLOSE_R ∧ x.2.length = 0) := by
  rw [(sendLoopOnError_edge A sortFn e st frm).2.2.2, notifyPeer_upstream]
  by_cases hW : (st.edges e).closed &&& TCP_CLOSE_W = 0
  · rw [if_pos hW]
    cases hp : (pickTunnel sortFn e st).1 with
    | none => exact ⟨[], by simp⟩
    | some t =>
      refine ⟨[(t, closeRFrame A frm)], by simp, by simp, ?_⟩
      intro x hx
      simp only [List.mem_singleton] at hx
      subst hx
      exact ⟨rfl, rfl⟩
  · rw [if_neg hW]
    exact ⟨[], by simp⟩

/-- One turn of the send loop adds at most one frame to what went upstream: a
`CLOSE_R` of length 0, after which the loop has exited. -/
theorem sendLoopTurn_upstream (A : FrameActions)
    (sortFn : (ConnRef → ConnRef → Bool) → List ConnRef → List ConnRef)
    (e : EdgeRef) (st : MuxState) :
    ∃ extra, (equeue.sendLoopTurn A sortFn e st).2.upstream = st.upstream ++ extra ∧
      extra.length ≤ 1 ∧
      (∀ x ∈ extra, x.2.action = A.FRAME_ACTION_CLOSE_R ∧ x.2.length = 0) ∧
      (extra ≠ [] → (equeue.sendLoopTurn A sortFn e st).1 = .exited) := by
  unfold equeue.sendLoopTurn
  split
  · exact ⟨[], by simp⟩
  · rename_i q hq
    split
    · exact ⟨[], by simp⟩
    · exact ⟨[], by simp⟩
    · rename_i frm rest hb
      simp only
      split
      · exact ⟨[], by simp [close_upstream, (modifyEdge_rest _ _ _).1]⟩
      · split
        · exact ⟨[], by simp [close_upstream, (modifyEdge_rest _ _ _).1]⟩
        · cases hc : frm.conn with
          | none =>
            have : sendFrame (st.modifyEdge e
                (fun ed => { ed with queue := some { q with buffer := some rest } })) frm = none := by
              simp [sendFrame, hc]
            rw [this]
            exact ⟨[], by simp [(modifyEdge_rest _ _ _).1]⟩
          | some d =>
            rw [sendFrame_eq _ frm d hc]
            simp only
            split
            · obtain ⟨extra, h1, h2, h3⟩ := sendLoopOnError_upstream A sortFn e
                ((st.modifyEdge e fun ed =>
                  { ed with queue := some { q with buffer := some rest } }).modifyEdge d
                    fun ed => { ed with conn := (((st.modifyEdge e fun ed =>
                      { ed with queue := some { q with buffer := some rest } }).edges d).conn.Write
                        frm.data).2.2 }) frm
              refine ⟨extra, ?_, h2, h3, fun _ => rfl⟩
              rw [h1]
              simp only [(modifyEdge_rest _ _ _).1]
            · exact ⟨[], by simp [(modifyEdge_rest _ _ _).1]⟩

theorem queueStep_not_turn (A : FrameActions)
    (sortFn : (ConnRef → ConnRef → Bool) → List ConnRef → List ConnRef)
    (e : EdgeRef) (run : LoopRun) (ev : QueueEvent) (h : ev ≠ .turn) :
    (queueStep A sortFn e run ev).status = run.status ∧
    (queueStep A sortFn e run ev).st.upstream = run.st.upstream := by
  cases ev with
  | deliver frm =>
    simp only [queueStep, edgeConn.deliver]
    split <;> simp [(modifyEdge_rest _ _ _).1]
  | push frm => simp [queueStep, (modifyEdge_rest _ _ _).1]
  | turn => exact absurd rfl h

theorem queueStep_turn_stopped (A : FrameActions)
    (sortFn : (ConnRef → ConnRef → Bool) → List ConnRef → List ConnRef)
    (e : EdgeRef) (run : LoopRun) (h : run.status ≠ .running) :
    queueStep A sortFn e run .turn = run := by
  unfold queueStep
  cases hs : run.status with
  | running => exact absurd hs h
  | exited => simp
  | panicked => simp

/-- Over any sequence of events the send loop of an edge sends at most one
frame upstream, a `CLOSE_R` of length 0, and nothing once it has stopped. -/
theorem runQueue_upstream (A : FrameActions)
    (sortFn : (ConnRef → ConnRef → Bool) → List ConnRef → List ConnRef)
    (e : EdgeRef) (evs : List QueueEvent) :
    ∀ run0 : LoopRun,
      (run0.status ≠ .running →
        (runQueue A sortFn e run0 evs).st.upstream = run0.st.upstream) ∧
      (∃ extra, (runQueue A sortFn e run0 evs).st.upstream = run0.st.upstream ++ extra ∧
        extra.length ≤ 1 ∧
        (∀ x ∈ extra, x.2.action = A.FRAME_ACTION_CLOSE_R ∧ x.2.length = 0)) := by
  induction evs with
  | nil =>
    intro run0
    exact ⟨fun _ => rfl, [], by simp [runQueue], by simp, by simp⟩
  | cons ev evs ih =>
    intro run0
    have hcons : runQueue A sortFn e run0 (ev :: evs) =
        runQueue A sortFn e (queueStep A sortFn e run0 ev) evs := rfl
    rw [hcons]
    obtain ⟨ihs, extra, ihe1, ihe2, ihe3⟩ := ih (queueStep A sortFn e run0 ev)
    by_cases hev : ev = .turn
    · subst hev
      by_cases hrun : run0.status = .running
      · refine ⟨fun h => absurd hrun h, ?_⟩
        obtain ⟨x1, hx1, hx2, hx3, hx4⟩ := sendLoopTurn_upstream A sortFn e run0.st
        have hstep : queueStep A sortFn e run0 .turn =
            { status := (equeue.sendLoopTurn A sortFn e run0.st).1,
              st := (equeue.sendLoopTurn A sortFn e run0.st).2 } := by
          simp [queueStep, hrun]
        by_cases hnil : x1 = []
        · refine ⟨extra, ?_, ihe2, ihe3⟩
          rw [ihe1, hstep]
          simp only
          rw [hx1, hnil, List.append_nil]
        · refine ⟨x1, ?_, hx2, hx3⟩
          have hstat : (queueStep A sortFn e run0 .turn).status ≠ .running := by
            rw [hstep]
            simp only
            rw [hx4 hnil]
            decide
          rw [ihs hstat, hstep]
          exact hx1
      · rw [queueStep_turn_stopped A sortFn e run0 hrun] at ihs ihe1 ⊢
        exact ⟨ihs, extra, ihe1, ihe2, ihe3⟩
    · obtain ⟨h1, h2⟩ := queueStep_not_turn A sortFn e run0 ev hev
      refine ⟨fun h => ?_, extra, ?_, ihe2, ihe3⟩
      · rw [ihs (by rw [h1]; exact h), h2]
      · rw [ihe1, h2]

/-! ## Lemmas on the order of the writes -/

theorem dataBeforeClose_at_close (A : FrameActions) (taken rest : List frame) (f : frame)
    (htaken : ∀ g ∈ taken, g.closes A = false) (hf : f.closes A = true) :
    dataBeforeClose A (taken ++ f :: rest) = (taken.map frame.data).flatten := by
  unfold dataBeforeClose
  rw [List.takeWhile_append_of_pos (by intro g hg; simp [htaken g hg])]
  simp [List.takeWhile_cons, hf]

theorem dataBeforeClose_open (A : FrameActions) (taken : List frame)
    (htaken : ∀ g ∈ taken, g.closes A = false) :
    dataBeforeClose A taken = (taken.map frame.data).flatten := by
  unfold dataBeforeClose
  rw [List.takeWhile_eq_self_iff.mpr (by intro g hg; simp [htaken g hg])]

theorem dataBeforeClose_append (A : FrameActions) (pushed more : List frame)
    (h : ∃ f ∈ pushed, f.closes A = true) :
    dataBeforeClose A (pushed ++ more) = dataBeforeClose A pushed := by
  unfold dataBeforeClose
  induction pushed with
  | nil =>
    obtain ⟨f, hf, -⟩ := h
    exact absurd hf (List.not_mem_nil f)
  | cons g pushed ih =>
    by_cases hg : g.closes A = true
    · simp [List.takeWhile_cons, hg]
    · have hrest : ∃ f ∈ pushed, f.closes A = true := by
        obtain ⟨f, hf, hfc⟩ := h
        rcases List.mem_cons.mp hf with rfl | hf'
        · exact absurd hfc hg
        · exact ⟨f, hf', hfc⟩
      have hg' : g.closes A = false := by simpa using hg
      have := ih hrest
      simp only [List.cons_append, List.takeWhile_cons, hg', Bool.not_false, if_true,
        List.map_cons, List.flatten_cons]
      rw [this]

theorem Write_succeeds (c : LocalConn) (p : List Nat) (h : c.allWritesSucceed) :
    (c.Write p).1 = p.length ∧ (c.Write p).2.1 = none ∧
    (c.Write p).2.2.written = c.written ++ p ∧ (c.Write p).2.2.allWritesSucceed := by
  unfold LocalConn.Write
  cases hw : c.writeResults with
  | nil =>
    simp only
    refine ⟨trivial, trivial, trivial, ?_⟩
    intro r hr
    simp only [LocalConn.allWritesSucceed, hw] at hr
    exact absurd hr (List.not_mem_nil r)
  | cons r rest =>
    have hr : r = none := h r (by rw [hw]; exact List.mem_cons_self r rest)
    subst hr
    simp only
    refine ⟨trivial, trivial, trivial, ?_⟩
    intro r hr
    exact h r (by rw [hw]; exact List.mem_cons_of_mem _ hr)

theorem QueueInv_running (A : FrameActions) (e : EdgeRef) (w0 : List Nat) (run : LoopRun)
    (pushed : List frame) (h : run.status = .running) :
    QueueInv A e w0 run pushed ↔
      (run.st.edges e).conn.allWritesSucceed ∧
      ∃ taken buf, (run.st.edges e).queue = some { buffer := some buf } ∧
        pushed = taken ++ buf ∧ (∀ f ∈ taken, f.closes A = false) ∧
        (run.st.edges e).conn.written = w0 ++ (taken.map frame.data).flatten ∧
        (∀ f ∈ buf, f.closes A = false → f.conn = some e ∧ f.length = f.data.length) := by
  simp only [QueueInv, h]

theorem QueueInv_exited (A : FrameActions) (e : EdgeRef) (w0 : List Nat) (run : LoopRun)
    (pushed : List frame) (h : run.status = .exited) :
    QueueInv A e w0 run pushed ↔
      (run.st.edges e).conn.allWritesSucceed ∧
      (run.st.edges e).queue = some { buffer := none } ∧
      (run.st.edges e).conn.written = w0 ++ dataBeforeClose A pushed ∧
      ∃ f ∈ pushed, f.closes A = true := by
  simp only [QueueInv, h]

theorem QueueInv_not_panicked (A : FrameActions) (e : EdgeRef) (w0 : List Nat) (run : LoopRun)
    (pushed : List frame) (h : QueueInv A e w0 run pushed) : run.status ≠ .panicked := by
  intro hp
  simp only [QueueInv, hp] at h
  exact h.2

/-- A frame put into the buffer of the edge `e` by an event, on a queue whose
buffer is `b`. -/
theorem queueStep_push (A : FrameActions)
    (sortFn : (ConnRef → ConnRef → Bool) → List ConnRef → List ConnRef)
    (e : EdgeRef) (run : LoopRun) (ev : QueueEvent) (hev : ev ≠ .turn) (b : Option (List frame))
    (hq : (run.st.edges e).queue = some { buffer := b }) :
    (queueStep A sortFn e run ev).status = run.status ∧
    ((queueStep A sortFn e run ev).st.edges e).conn = (run.st.edges e).conn ∧
    ((queueStep A sortFn e run ev).st.edges e).queue
      = some { buffer := b.map (fun l => l ++ ev.pushed e) } := by
  cases ev with
  | deliver frm =>
    simp only [queueStep, edgeConn.deliver, hq, modifyEdge_edges_same, QueueEvent.pushed]
    cases b <;> simp [equeue._push]
  | push frm =>
    simp only [queueStep, hq, modifyEdge_edges_same, QueueEvent.pushed]
    cases b <;> simp [equeue._push]
  | turn => exact absurd rfl hev

theorem pushed_wellFormed (A : FrameActions) (e : EdgeRef) (ev : QueueEvent)
    (hwf : ev.wellFormed A) :
    ∀ f ∈ ev.pushed e, f.closes A = false → f.conn = some e ∧ f.length = f.data.length := by
  intro f hf hc
  cases ev with
  | deliver frm =>
    simp only [QueueEvent.pushed, List.mem_singleton] at hf
    subst hf
    exact ⟨rfl, hwf⟩
  | push frm =>
    simp only [QueueEvent.pushed, List.mem_singleton] at hf
    subst hf
    simp only [QueueEvent.wellFormed] at hwf
    rw [hwf] at hc
    exact absurd hc (by decide)
  | turn => simp [QueueEvent.pushed] at hf

theorem closes_iff (A : FrameActions) (f : frame) :
    f.closes A = true ↔ f.action = A.FRAME_ACTION_CLOSE ∨ f.action = A.FRAME_ACTION_CLOSE_W := by
  simp [frame.closes]

/-- A turn of the send loop keeps `QueueInv`. -/
theorem sendLoopTurn_inv (A : FrameActions)
    (sortFn : (ConnRef → ConnRef → Bool) → List ConnRef → List ConnRef)
    (e : EdgeRef) (w0 : List Nat) (st : MuxState) (pushed : List frame)
    (hinv : QueueInv A e w0 { status := .running, st := st } pushed) :
    QueueInv A e w0
      { status := (equeue.sendLoopTurn A sortFn e st).1,
        st := (equeue.sendLoopTurn A sortFn e st).2 } pushed := by
  obtain ⟨hws, taken, buf, hq, hP, htaken, hwr, hbuf⟩ :=
    (QueueInv_running A e w0 _ pushed rfl).mp hinv
  simp only at hws hq hwr hbuf
  cases buf with
  | nil =>
    have hturn : equeue.sendLoopTurn A sortFn e st = (.running, st) := by
      unfold equeue.sendLoopTurn
      rw [hq]
    rw [hturn]
    exact hinv
  | cons f rest =>
    by_cases hclose : f.action = A.FRAME_ACTION_CLOSE
    · have hturn : equeue.sendLoopTurn A sortFn e st =
          (.exited, equeue._close (st.modifyEdge e
            (fun ed => { ed with queue := some { buffer := some rest } })) e true) := by
        unfold equeue.sendLoopTurn
        rw [hq]
        simp only [if_pos hclose]
      rw [hturn]
      refine (QueueInv_exited A e w0 _ pushed rfl).mpr ?_
      simp only [equeue._close, modifyEdge_edges_same, if_true, SafeClose, Option.map_some']
      refine ⟨hws, trivial, ?_, f, by rw [hP]; simp, (closes_iff A f).mpr (Or.inl hclose)⟩
      rw [hwr, hP, dataBeforeClose_at_close A taken rest f htaken
        ((closes_iff A f).mpr (Or.inl hclose))]
    · by_cases hclosew : f.action = A.FRAME_ACTION_CLOSE_W
      · have hturn : equeue.sendLoopTurn A sortFn e st =
            (.exited, equeue._close (st.modifyEdge e
              (fun ed => { ed with queue := some { buffer := some rest } })) e false) := by
          unfold equeue.sendLoopTurn
          rw [hq]
          simp only [if_neg hclose, if_pos hclosew]
        rw [hturn]
        refine (QueueInv_exited A e w0 _ pushed rfl).mpr ?_
        simp only [equeue._close, modifyEdge_edges_same, Bool.false_eq_true, if_false,
          Option.map_some']
        have hcw : (closeW (st.edges e).conn).written = (st.edges e).conn.written ∧
            (closeW (st.edges e).conn).writeResults = (st.edges e).conn.writeResults := by
          unfold closeW
          split <;> exact ⟨rfl, rfl⟩
        refine ⟨?_, trivial, ?_, f, by rw [hP]; simp, (closes_iff A f).mpr (Or.inr hclosew)⟩
        · intro r hr
          rw [hcw.2] at hr
          exact hws r hr
        · rw [hcw.1, hwr, hP, dataBeforeClose_at_close A taken rest f htaken
            ((closes_iff A f).mpr (Or.inr hclosew))]
      · have hopen : f.closes A = false := by
          cases hc : f.closes A with
          | false => rfl
          | true =>
            rcases (closes_iff A f).mp hc with h | h
            · exact absurd h hclose
            · exact absurd h hclosew
        obtain ⟨hfconn, hflen⟩ := hbuf f (List.mem_cons_self f rest) hopen
        obtain ⟨hw1, hw2, hw3, hw4⟩ := Write_succeeds (st.edges e).conn f.data hws
        have hturn : equeue.sendLoopTurn A sortFn e st =
            (.running, (st.modifyEdge e
              (fun ed => { ed with queue := some { buffer := some rest } })).modifyEdge e
                (fun ed => { ed with conn := ((st.edges e).conn.Write f.data).2.2 })) := by
          unfold equeue.sendLoopTurn
          rw [hq]
          simp only [if_neg hclose, if_neg hclosew]
          rw [sendFrame_eq _ f e hfconn]
          simp only [modifyEdge_edges_same]
          rw [if_neg]
          simp [hw1, hw2, hflen]
        rw [hturn]
        refine (QueueInv_running A e w0 _ pushed rfl).mpr ?_
        simp only [modifyEdge_edges_same]
        refine ⟨hw4, taken ++ [f], rest, rfl, by rw [hP]; simp, ?_, ?_, ?_⟩
        · intro g hg
          rcases List.mem_append.mp hg with h | h
          · exact htaken g h
          · simp only [List.mem_singleton] at h
            subst h
            exact hopen
        · rw [hw3, hwr]
          simp
        · intro g hg
          exact hbuf g (List.mem_cons_of_mem f hg)

/-- Every event keeps `QueueInv`. -/
theorem queueStep_inv (A : FrameActions)
    (sortFn : (ConnRef → ConnRef → Bool) → List ConnRef → List ConnRef)
    (e : EdgeRef) (w0 : List Nat) (run : LoopRun) (pushed : List frame) (ev : QueueEvent)
    (hinv : QueueInv A e w0 run pushed) (hwf : ev.wellFormed A) :
    QueueInv A e w0 (queueStep A sortFn e run ev) (pushed ++ ev.pushed e) := by
  by_cases hev : ev = .turn
  · subst hev
    simp only [QueueEvent.pushed, List.append_nil]
    cases hs : run.status with
    | running =>
      have hrun : run = { status := .running, st := run.st } := by
        cases run
        simp only at hs
        rw [hs]
      have hstep : queueStep A sortFn e run .turn =
          { status := (equeue.sendLoopTurn A sortFn e run.st).1,
            st := (equeue.sendLoopTurn A sortFn e run.st).2 } := by
        simp [queueStep, hs]
      rw [hstep]
      rw [hrun] at hinv
      exact sendLoopTurn_inv A sortFn e w0 run.st pushed hinv
    | exited =>
      rw [queueStep_turn_stopped A sortFn e run (by rw [hs]; exact fun h => LoopStatus.noConfusion h)]
      exact hinv
    | panicked =>
      exact absurd hs (QueueInv_not_panicked A e w0 run pushed hinv)
  · cases hs : run.status with
    | running =>
      obtain ⟨hws, taken, buf, hq, hP, htaken, hwr, hbuf⟩ :=
        (QueueInv_running A e w0 run pushed hs).mp hinv
      obtain ⟨h1, h2, h3⟩ := queueStep_push A sortFn e run ev hev (some buf) hq
      refine (QueueInv_running A e w0 _ _ (h1.trans hs)).mpr ?_
      rw [h2, h3]
      refine ⟨hws, taken, buf ++ ev.pushed e, rfl, by rw [hP]; simp, htaken, hwr, ?_⟩
      intro f hf hc
      rcases List.mem_append.mp hf with h | h
      · exact hbuf f h hc
      · exact pushed_wellFormed A e ev hwf f h hc
    | exited =>
      obtain ⟨hws, hq, hwr, hex⟩ := (QueueInv_exited A e w0 run pushed hs).mp hinv
      obtain ⟨h1, h2, h3⟩ := queueStep_push A sortFn e run ev hev none hq
      refine (QueueInv_exited A e w0 _ _ (h1.trans hs)).mpr ?_
      rw [h2, h3, dataBeforeClose_append A pushed _ hex]
      obtain ⟨f, hf, hfc⟩ := hex
      exact ⟨hws, rfl, hwr, f, List.mem_append_left _ hf, hfc⟩
    | panicked =>
      exact absurd hs (QueueInv_not_panicked A e w0 run pushed hinv)

/-! ## The send loop writes in push order (C13) -/

theorem runQueue_inv (A : FrameActions)
    (sortFn : (ConnRef → ConnRef → Bool) → List ConnRef → List ConnRef)
    (e : EdgeRef) (w0 : List Nat) (evs : List QueueEvent) :
    ∀ (run : LoopRun) (pushed : List frame), QueueInv A e w0 run pushed →
      (∀ ev ∈ evs, ev.wellFormed A) →
      QueueInv A e w0 (runQueue A sortFn e run evs)
        (pushed ++ evs.flatMap (QueueEvent.pushed e)) := by
  induction evs with
  | nil =>
    intro run pushed hinv _
    simpa [runQueue] using hinv
  | cons ev evs ih =>
    intro run pushed hinv hwf
    have hstep := queueStep_inv A sortFn e w0 run pushed ev hinv
      (hwf ev (List.mem_cons_self ev evs))
    have := ih _ _ hstep (fun x hx => hwf x (List.mem_cons_of_mem ev hx))
    simpa [runQueue, List.flatMap_cons, List.append_assoc] using this

/-- Once the loop has exited and the buffer is nil, no event changes the
local connection or the buffer again. -/
theorem runQueue_exited (A : FrameActions)
    (sortFn : (ConnRef → ConnRef → Bool) → List ConnRef → List ConnRef)
    (e : EdgeRef) (evs : List QueueEvent) :
    ∀ run : LoopRun, run.status = .exited →
      (run.st.edges e).queue = some { buffer := none } →
      (runQueue A sortFn e run evs).status = .exited ∧
      ((runQueue A sortFn e run evs).st.edges e).queue = some { buffer := none } ∧
      ((runQueue A sortFn e run evs).st.edges e).conn = (run.st.edges e).conn := by
  induction evs with
  | nil =>
    intro run hs hq
    exact ⟨hs, hq, rfl⟩
  | cons ev evs ih =>
    intro run hs hq
    have hcons : runQueue A sortFn e run (ev :: evs) =
        runQueue A sortFn e (queueStep A sortFn e run ev) evs := rfl
    rw [hcons]
    by_cases hev : ev = .turn
    · subst hev
      rw [queueStep_turn_stopped A sortFn e run
        (by rw [hs]; exact fun h => LoopStatus.noConfusion h)]
      exact ih run hs hq
    · obtain ⟨h1, h2, h3⟩ := queueStep_push A sortFn e run ev hev none hq
      obtain ⟨i1, i2, i3⟩ := ih _ (h1.trans hs) h3
      exact ⟨i1, i2, i3.trans h2⟩

/-- A turn of the send loop on a buffer with the front frame `f`, when every
write succeeds: a `CLOSE` or `CLOSE_W` ends the loop, the buffer becomes nil
and nothing is written; any other frame is taken from the buffer and its data
is written. -/
theorem sendLoopTurn_front (A : FrameActions)
    (sortFn : (ConnRef → ConnRef → Bool) → List ConnRef → List ConnRef)
    (e : EdgeRef) (st : MuxState) (f : frame) (rest : List frame)
    (hq : (st.edges e).queue = some { buffer := some (f :: rest) })
    (hws : (st.edges e).conn.allWritesSucceed)
    (hf : f.closes A = false → f.conn = some e ∧ f.length = f.data.length) :
    (f.closes A = true →
      (equeue.sendLoopTurn A sortFn e st).1 = .exited ∧
      ((equeue.sendLoopTurn A sortFn e st).2.edges e).queue = some { buffer := none } ∧
      ((equeue.sendLoopTurn A sortFn e st).2.edges e).conn.written
        = (st.edges e).conn.written) ∧
    (f.closes A = false →
      (equeue.sendLoopTurn A sortFn e st).1 = .running ∧
      ((equeue.sendLoopTurn A sortFn e st).2.edges e).queue = some { buffer := some rest } ∧
      ((equeue.sendLoopTurn A sortFn e st).2.edges e).conn.written
        = (st.edges e).conn.written ++ f.data) := by
  by_cases hclose : f.action = A.FRAME_ACTION_CLOSE
  · have hc : f.closes A = true := (closes_iff A f).mpr (Or.inl hclose)
    have hturn : equeue.sendLoopTurn A sortFn e st =
        (.exited, equeue._close (st.modifyEdge e
          (fun ed => { ed with queue := some { buffer := some rest } })) e true) := by
      unfold equeue.sendLoopTurn
      rw [hq]
      simp only [if_pos hclose]
    rw [hturn]
    refine ⟨fun _ => ?_, fun h => absurd (hc.symm.trans h) (by decide)⟩
    simp only [equeue._close, modifyEdge_edges_same, if_true, SafeClose, Option.map_some']
    exact ⟨trivial, trivial, trivial⟩
  · by_cases hclosew : f.action = A.FRAME_ACTION_CLOSE_W
    · have hc : f.closes A = true := (closes_iff A f).mpr (Or.inr hclosew)
      have hturn : equeue.sendLoopTurn A sortFn e st =
          (.exited, equeue._close (st.modifyEdge e
            (fun ed => { ed with queue := some { buffer := some rest } })) e false) := by
        unfold equeue.sendLoopTurn
        rw [hq]
        simp only [if_neg hclose, if_pos hclosew]
      rw [hturn]
      refine ⟨fun _ => ?_, fun h => absurd (hc.symm.trans h) (by decide)⟩
      simp only [equeue._close, modifyEdge_edges_same, Bool.false_eq_true, if_false,
        Option.map_some']
      refine ⟨trivial, trivial, ?_⟩
      unfold closeW
      split <;> rfl
    · have hopen : f.closes A = false := by
        cases hc : f.closes A with
        | false => rfl
        | true =>
          rcases (closes_iff A f).mp hc with h | h
          · exact absurd h hclose
          · exact absurd h hclosew
      obtain ⟨hfconn, hflen⟩ := hf hopen
      obtain ⟨hw1, hw2, hw3, -⟩ := Write_succeeds (st.edges e).conn f.data hws
      have hturn : equeue.sendLoopTurn A sortFn e st =
          (.running, (st.modifyEdge e
            (fun ed => { ed with queue := some { buffer := some rest } })).modifyEdge e
              (fun ed => { ed with conn := ((st.edges e).conn.Write f.data).2.2 })) := by
        unfold equeue.sendLoopTurn
        rw [hq]
        simp only [if_neg hclose, if_neg hclosew]
        rw [sendFrame_eq _ f e hfconn]
        simp only [modifyEdge_edges_same]
        rw [if_neg]
        simp [hw1, hw2, hflen]
      rw [hturn]
      refine ⟨fun h => absurd (hopen.symm.trans h) (by decide), fun _ => ?_⟩
      simp only [modifyEdge_edges_same]
      exact ⟨trivial, trivial, hw3⟩

theorem queueStep_turn_running (A : FrameActions)
    (sortFn : (ConnRef → ConnRef → Bool) → List ConnRef → List ConnRef)
    (e : EdgeRef) (run : LoopRun) (hs : run.status = .running) :
    queueStep A sortFn e run .turn =
      { status := (equeue.sendLoopTurn A sortFn e run.st).1,
        st := (equeue.sendLoopTurn A sortFn e run.st).2 } := by
  simp [queueStep, hs]

theorem runQueue_append (A : FrameActions)
    (sortFn : (ConnRef → ConnRef → Bool) → List ConnRef → List ConnRef)
    (e : EdgeRef) (run : LoopRun) (evs more : List QueueEvent) :
    runQueue A sortFn e run (evs ++ more)
      = runQueue A sortFn e (runQueue A sortFn e run evs) more := by
  unfold runQueue
  rw [List.foldl_append]

theorem pushed_turns (e : EdgeRef) (n : Nat) :
    (List.replicate n QueueEvent.turn).flatMap (QueueEvent.pushed e) = [] := by
  induction n with
  | zero => rfl
  | succ n ih =>
    rw [List.replicate_succ, List.flatMap_cons, ih]
    rfl

/-- As many turns as the buffer has frames empty it or end the loop. -/
theorem runQueue_drain (A : FrameActions)
    (sortFn : (ConnRef → ConnRef → Bool) → List ConnRef → List ConnRef)
    (e : EdgeRef) (w0 : List Nat) (pushed : List frame) (n : Nat) :
    ∀ run : LoopRun, QueueInv A e w0 run pushed →
      (∀ buf, (run.st.edges e).queue = some { buffer := some buf } → buf.length ≤ n) →
      (runQueue A sortFn e run (List.replicate n .turn)).status = .exited ∨
      ((runQueue A sortFn e run (List.replicate n .turn)).st.edges e).queue
        = some { buffer := some [] } := by
  induction n with
  | zero =>
    intro run hinv hlen
    cases hs : run.status with
    | running =>
      obtain ⟨-, taken, buf, hq, -⟩ := (QueueInv_running A e w0 run pushed hs).mp hinv
      have hb : buf = [] := List.length_eq_zero.mp (Nat.le_zero.mp (hlen buf hq))
      right
      rw [hb] at hq
      exact hq
    | exited => exact Or.inl hs
    | panicked => exact absurd hs (QueueInv_not_panicked A e w0 run pushed hinv)
  | succ n ih =>
    intro run hinv hlen
    have hcons : runQueue A sortFn e run (List.replicate (n + 1) .turn) =
        runQueue A sortFn e (queueStep A sortFn e run .turn) (List.replicate n .turn) := rfl
    rw [hcons]
    have hnext : QueueInv A e w0 (queueStep A sortFn e run .turn) pushed := by
      have := queueStep_inv A sortFn e w0 run pushed .turn hinv trivial
      simpa [QueueEvent.pushed] using this
    apply ih _ hnext
    intro buf' hq'
    cases hs : run.status with
    | running =>
      obtain ⟨hws, taken, buf, hq, -, -, -, hbuf⟩ :=
        (QueueInv_running A e w0 run pushed hs).mp hinv
      rw [queueStep_turn_running A sortFn e run hs] at hq'
      simp only at hq'
      cases buf with
      | nil =>
        have hturn : equeue.sendLoopTurn A sortFn e run.st = (.running, run.st) := by
          unfold equeue.sendLoopTurn
          rw [hq]
        rw [hturn, hq] at hq'
        have : buf' = [] := by simpa using hq'.symm
        rw [this]
        exact Nat.zero_le n
      | cons f rest =>
        have hfront := sendLoopTurn_front A sortFn e run.st f rest hq hws
          (hbuf f (List.mem_cons_self f rest))
        have hl := hlen (f :: rest) hq
        simp only [List.length_cons] at hl
        cases hc : f.closes A with
        | true =>
          rw [(hfront.1 hc).2.1] at hq'
          simp at hq'
        | false =>
          rw [(hfront.2 hc).2.1] at hq'
          have : buf' = rest := by simpa using hq'.symm
          rw [this]
          omega
    | exited =>
      obtain ⟨-, hq, -⟩ := (QueueInv_exited A e w0 run pushed hs).mp hinv
      rw [queueStep_turn_stopped A sortFn e run
        (by rw [hs]; exact fun h => LoopStatus.noConfusion h), hq] at hq'
      simp at hq'
    | panicked => exact absurd hs (QueueInv_not_panicked A e w0 run pushed hinv)

/-- What the send loop of the edge `e` has written after any sequence of
events on a queue that started empty, when every write succeeds: a beginning
of the data pushed before the first `CLOSE` or `CLOSE_W`, all of it once the
loop has exited or emptied the buffer; after the exit the buffer stays nil. -/
theorem runQueue_written (A : FrameActions)
    (sortFn : (ConnRef → ConnRef → Bool) → List ConnRef → List ConnRef)
    (e : EdgeRef) (st : MuxState) (evs : List QueueEvent)
    (hq : (st.edges e).queue = some { buffer := some [] })
    (hwrites : (st.edges e).conn.allWritesSucceed)
    (hwf : ∀ ev ∈ evs, ev.wellFormed A) :
    (runQueue A sortFn e { status := .running, st := st } evs).status ≠ .panicked ∧
    (∃ later,
      (st.edges e).conn.written ++ dataBeforeClose A (evs.flatMap (QueueEvent.pushed e)) =
        ((runQueue A sortFn e { status := .running, st := st } evs).st.edges e).conn.written
          ++ later) ∧
    ((runQueue A sortFn e { status := .running, st := st } evs).status = .exited ∨
      ((runQueue A sortFn e { status := .running, st := st } evs).st.edges e).queue
        = some { buffer := some [] } →
      ((runQueue A sortFn e { status := .running, st := st } evs).st.edges e).conn.written =
        (st.edges e).conn.written ++ dataBeforeClose A (evs.flatMap (QueueEvent.pushed e))) ∧
    ((runQueue A sortFn e { status := .running, st := st } evs).status = .exited →
      (∃ f ∈ evs.flatMap (QueueEvent.pushed e), f.closes A = true) ∧
      ((runQueue A sortFn e { status := .running, st := st } evs).st.edges e).queue
        = some { buffer := none } ∧
      ∀ more : List QueueEvent,
        (runQueue A sortFn e (runQueue A sortFn e { status := .running, st := st } evs)
          more).status = .exited ∧
        ((runQueue A sortFn e (runQueue A sortFn e { status := .running, st := st } evs)
          more).st.edges e).queue = some { buffer := none } ∧
        ((runQueue A sortFn e (runQueue A sortFn e { status := .running, st := st } evs)
          more).st.edges e).conn.written =
          ((runQueue A sortFn e { status := .running, st := st } evs).st.edges e).conn.written) := by
  have hinit : QueueInv A e (st.edges e).conn.written { status := .running, st := st } [] := by
    refine (QueueInv_running A e _ _ [] rfl).mpr ⟨hwrites, [], [], hq, rfl, ?_, ?_, ?_⟩
    · intro f hf; exact absurd hf (List.not_mem_nil f)
    · simp
    · intro f hf; exact absurd hf (List.not_mem_nil f)
  have hfin := runQueue_inv A sortFn e (st.edges e).conn.written evs _ [] hinit hwf
  simp only [List.nil_append] at hfin
  generalize hP : evs.flatMap (QueueEvent.pushed e) = pushed at hfin ⊢
  generalize hR : runQueue A sortFn e { status := .running, st := st } evs = fin at hfin ⊢
  have hnp := QueueInv_not_panicked A e _ fin pushed hfin
  cases hs : fin.status with
  | running =>
    obtain ⟨-, taken, buf, hq', hPd, htaken, hwr, hbuf⟩ :=
      (QueueInv_running A e _ fin pushed hs).mp hfin
    refine ⟨fun h => LoopStatus.noConfusion h, ?_, ?_, fun h => LoopStatus.noConfusion h⟩
    · -- what is in the buffer before its first close is still to be written
      refine ⟨dataBeforeClose A buf, ?_⟩
      rw [hwr, hPd, List.append_assoc]
      congr 1
      unfold dataBeforeClose
      rw [List.takeWhile_append_of_pos (by intro g hg; simp [htaken g hg])]
      simp
    · rintro (h | h)
      · exact LoopStatus.noConfusion h
      · rw [hq'] at h
        have hb : buf = [] := by simpa using h
        rw [hwr, hPd, hb, List.append_nil, dataBeforeClose_open A taken htaken]
  | exited =>
    obtain ⟨-, hq', hwr, hex⟩ := (QueueInv_exited A e _ fin pushed hs).mp hfin
    refine ⟨fun h => LoopStatus.noConfusion h, ⟨[], by rw [hwr]; simp⟩, fun _ => hwr,
      fun _ => ⟨hex, hq', ?_⟩⟩
    intro more
    obtain ⟨h1, h2, h3⟩ := runQueue_exited A sortFn e more fin hs hq'
    exact ⟨h1, h2, by rw [h3]⟩
  | panicked => exact absurd hs hnp

/-- C13: the queue of the edge `e` starts empty with its loop running, every
local write succeeds, delivered frames have `length` the length of their data
and frames pushed directly are `CLOSE` or `CLOSE_W`. After any sequence of
deliveries, pushes and turns of the loop, the loop has not panicked; what was
written is a beginning of the data, in push order, of the frames pushed before
the first `CLOSE` or `CLOSE_W`, and all of it once the loop has exited or has
emptied the buffer; a loop that exited took a `CLOSE` or `CLOSE_W`, the buffer
is nil, and whatever is pushed later the buffer stays nil and nothing more is
written. The loop makes progress: a turn on a buffer that is not empty takes
the front frame, writes its data and keeps the rest, or exits on a `CLOSE` or
`CLOSE_W`; and after as many further turns as frames were pushed, what was
written is exactly the data pushed before the first `CLOSE` or `CLOSE_W`, the
loop has exited if and only if there was one, and else the buffer is empty. -/
theorem sendLoop_writes_in_push_order (A : FrameActions)
    (sortFn : (ConnRef → ConnRef → Bool) → List ConnRef → List ConnRef)
    (e : EdgeRef) (st : MuxState) (evs : List QueueEvent)
    (hq : (st.edges e).queue = some { buffer := some [] })
    (hwrites : (st.edges e).conn.allWritesSucceed)
    (hwf : ∀ ev ∈ evs, ev.wellFormed A) :
    (runQueue A sortFn e { status := .running, st := st } evs).status ≠ .panicked ∧
    (∃ later,
      (st.edges e).conn.written ++ dataBeforeClose A (evs.flatMap (QueueEvent.pushed e)) =
        ((runQueue A sortFn e { status := .running, st := st } evs).st.edges e).conn.written
          ++ later) ∧
    ((runQueue A sortFn e { status := .running, st := st } evs).status = .exited ∨
      ((runQueue A sortFn e { status := .running, st := st } evs).st.edges e).queue
        = some { buffer := some [] } →
      ((runQueue A sortFn e { status := .running, st := st } evs).st.edges e).conn.written =
        (st.edges e).conn.written ++ dataBeforeClose A (evs.flatMap (QueueEvent.pushed e))) ∧
    ((runQueue A sortFn e { status := .running, st := st } evs).status = .exited →
      (∃ f ∈ evs.flatMap (QueueEvent.pushed e), f.closes A = true) ∧
      ((runQueue A sortFn e { status := .running, st := st } evs).st.edges e).queue
        = some { buffer := none } ∧
      ∀ more : List QueueEvent,
        (runQueue A sortFn e (runQueue A sortFn e { status := .running, st := st } evs)
          more).status = .exited ∧
        ((runQueue A sortFn e (runQueue A sortFn e { status := .running, st := st } evs)
          more).st.edges e).queue = some { buffer := none } ∧
        ((runQueue A sortFn e (runQueue A sortFn e { status := .running, st := st } evs)
          more).st.edges e).conn.written =
          ((runQueue A sortFn e { status := .running, st := st } evs).st.edges e).conn.written) ∧
    (∀ (f : frame) (rest : List frame),
      (runQueue A sortFn e { status := .running, st := st } evs).status = .running →
      ((runQueue A sortFn e { status := .running, st := st } evs).st.edges e).queue
        = some { buffer := some (f :: rest) } →
      (f.closes A = false →
        (queueStep A sortFn e (runQueue A sortFn e { status := .running, st := st } evs)
          .turn).status = .running ∧
        ((queueStep A sortFn e (runQueue A sortFn e { status := .running, st := st } evs)
          .turn).st.edges e).queue = some { buffer := some rest } ∧
        ((queueStep A sortFn e (runQueue A sortFn e { status := .running, st := st } evs)
          .turn).st.edges e).conn.written =
          ((runQueue A sortFn e { status := .running, st := st } evs).st.edges e).conn.written
            ++ f.data) ∧
      (f.closes A = true →
        (queueStep A sortFn e (runQueue A sortFn e { status := .running, st := st } evs)
          .turn).status = .exited ∧
        ((queueStep A sortFn e (runQueue A sortFn e { status := .running, st := st } evs)
          .turn).st.edges e).queue = some { buffer := none } ∧
        ((queueStep A sortFn e (runQueue A sortFn e { status := .running, st := st } evs)
          .turn).st.edges e).conn.written =
          ((runQueue A sortFn e { status := .running, st := st } evs).st.edges e).conn.written)) ∧
    (∀ n : Nat, (evs.flatMap (QueueEvent.pushed e)).length ≤ n →
      ((runQueue A sortFn e { status := .running, st := st } (evs ++ List.replicate n .turn)).st.edges
        e).conn.written =
        (st.edges e).conn.written ++ dataBeforeClose A (evs.flatMap (QueueEvent.pushed e)) ∧
      ((runQueue A sortFn e { status := .running, st := st } (evs ++ List.replicate n .turn)).status
        = .exited ↔ ∃ f ∈ evs.flatMap (QueueEvent.pushed e), f.closes A = true) ∧
      ((runQueue A sortFn e { status := .running, st := st } (evs ++ List.replicate n .turn)).status
        = .running →
        ((runQueue A sortFn e { status := .running, st := st } (evs ++ List.replicate n .turn)).st.edges
          e).queue = some { buffer := some [] })) ∧
    (∀ f : frame,
      f.closes A = true ↔ f.action = A.FRAME_ACTION_CLOSE ∨ f.action = A.FRAME_ACTION_CLOSE_W) := by
  have hold := runQueue_written A sortFn e st evs hq hwrites hwf
  have hinit : QueueInv A e (st.edges e).conn.written { status := .running, st := st } [] := by
    refine (QueueInv_running A e _ _ [] rfl).mpr ⟨hwrites, [], [], hq, rfl, ?_, ?_, ?_⟩
    · intro f hf; exact absurd hf (List.not_mem_nil f)
    · simp
    · intro f hf; exact absurd hf (List.not_mem_nil f)
  have hfin := runQueue_inv A sortFn e (st.edges e).conn.written evs _ [] hinit hwf
  simp only [List.nil_append] at hfin
  refine ⟨hold.1, hold.2.1, hold.2.2.1, hold.2.2.2, ?_, ?_, closes_iff A⟩
  · intro f rest hs hq'
    obtain ⟨hws, taken, buf, hqb, -, -, -, hbuf⟩ := (QueueInv_running A e _ _ _ hs).mp hfin
    have hb : buf = f :: rest := by
      rw [hqb] at hq'
      simpa using hq'
    have hfront := sendLoopTurn_front A sortFn e _ f rest hq' hws
      (hbuf f (by rw [hb]; exact List.mem_cons_self f rest))
    rw [queueStep_turn_running A sortFn e _ hs]
    exact ⟨hfront.2, hfront.1⟩
  · intro n hn
    rw [runQueue_append]
    generalize hP : evs.flatMap (QueueEvent.pushed e) = pushed at hfin hn ⊢
    generalize hR : runQueue A sortFn e { status := .running, st := st } evs = fin at hfin ⊢
    have hlen : ∀ buf, (fin.st.edges e).queue = some { buffer := some buf } →
        buf.length ≤ n := by
      intro buf hqb
      cases hs : fin.status with
      | running =>
        obtain ⟨-, taken, buf0, hq0, hPd, -⟩ := (QueueInv_running A e _ fin pushed hs).mp hfin
        have hb : buf = buf0 := by
          rw [hq0] at hqb
          simpa using hqb.symm
        rw [hPd, List.length_append] at hn
        rw [hb]
        omega
      | exited =>
        obtain ⟨-, hq0, -⟩ := (QueueInv_exited A e _ fin pushed hs).mp hfin
        rw [hq0] at hqb
        simp at hqb
      | panicked => exact absurd hs (QueueInv_not_panicked A e _ fin pushed hfin)
    have hdrain := runQueue_drain A sortFn e _ pushed n fin hfin hlen
    have hinv := runQueue_inv A sortFn e (st.edges e).conn.written
      (List.replicate n .turn) fin pushed hfin
      (fun ev hev => by rw [List.eq_of_mem_replicate hev]; trivial)
    rw [pushed_turns, List.append_nil] at hinv
    generalize runQueue A sortFn e fin (List.replicate n .turn) = last at hdrain hinv ⊢
    cases hs : last.status with
    | running =>
      obtain ⟨-, taken, buf, hqb, hPd, htaken, hwr, -⟩ :=
        (QueueInv_running A e _ last pushed hs).mp hinv
      have hempty : (last.st.edges e).queue = some { buffer := some [] } := by
        rcases hdrain with h | h
        · rw [hs] at h
          exact LoopStatus.noConfusion h
        · exact h
      have hb : buf = [] := by
        rw [hqb] at hempty
        simpa using hempty
      rw [hb, List.append_nil] at hPd
      refine ⟨?_, ⟨fun h => LoopStatus.noConfusion h, ?_⟩, fun _ => hempty⟩
      · rw [hwr, hPd, dataBeforeClose_open A taken htaken]
      · rintro ⟨f, hf, hfc⟩
        rw [hPd] at hf
        rw [htaken f hf] at hfc
        exact absurd hfc (by decide)
    | exited =>
      obtain ⟨-, -, hwr, hex⟩ := (QueueInv_exited A e _ last pushed hs).mp hinv
      exact ⟨hwr, ⟨fun _ => hex, fun _ => rfl⟩, fun h => LoopStatus.noConfusion h⟩
    | panicked => exact absurd hs (QueueInv_not_panicked A e _ last pushed hinv)

/-- C13 at `demoEvents`: the frames 7 8 9 and 1 2 are written, the frame 3
delivered after the `CLOSE` is not, and the loop has exited; and a single
delivered frame 7 8 9 is written by the one turn that follows, after which
the loop is still running. -/
theorem sendLoop_writes_in_push_order_witness :
    (runQueue demoActions insertionSortBy 0 { status := .running, st := demoServerRouter }
      demoEvents).status = .exited ∧
    ((runQueue demoActions insertionSortBy 0 { status := .running, st := demoServerRouter }
      demoEvents).st.edges 0).conn.written = [7, 8, 9, 1, 2] ∧
    ((runQueue demoActions insertionSortBy 0 { status := .running, st := demoServerRouter }
      [QueueEvent.deliver demoDataFrame, QueueEvent.turn]).st.edges 0).conn.written
        = [7, 8, 9] ∧
    (runQueue demoActions insertionSortBy 0 { status := .running, st := demoServerRouter }
      [QueueEvent.deliver demoDataFrame, QueueEvent.turn]).status = .running :=
  have h := sendLoop_writes_in_push_order demoActions insertionSortBy 0 demoServerRouter
    demoEvents (by decide) (fun r hr => absurd hr (List.not_mem_nil r))
    (by simp [demoEvents, QueueEvent.wellFormed, frame.closes, closeSentinel, demoDataFrame])
  have h1 := (sendLoop_writes_in_push_order demoActions insertionSortBy 0 demoServerRouter
    [QueueEvent.deliver demoDataFrame] (by decide) (fun r hr => absurd hr (List.not_mem_nil r))
    (by simp [QueueEvent.wellFormed, demoDataFrame])).2.2.2.2.2.1 1 (by decide)
  ⟨by decide, (h.2.2.1 (Or.inl (by decide))).trans (by decide), h1.1.trans (by decide),
    by decide⟩

/-! ## The send loop on a write error (C14) -/

/-- C14: the send loop of the edge `e` takes a frame that is neither `CLOSE` nor
`CLOSE_W` and the write to the local connection is short or returns an error.
Then the loop exits, `closed` is R|W, the buffer is nil and the local
connection is closed. With the W bit set before, nothing is sent upstream;
with the W bit clear, one `CLOSE_R` with the stream id of the frame and length
0 is sent on the tunnel of the edge, or, on the client side when that tunnel
is nil or dead, on the tunnel that `pool.Select()` returns, if any, and a
server-side edge without a tunnel sends nothing. After the exit nothing more
is sent upstream, and over any sequence of events the loop sends at most one
frame upstream, a `CLOSE_R` of length 0. Spelled out: the local connection is
the one after the write with `closed` set, `edge.closed` is 3 with R = 1 and
W = 2, and the `CLOSE_R` is the frame itself with `length` 0 and the action
`CLOSE_R`. -/
theorem sendLoop_write_error (A : FrameActions)
    (sortFn : (ConnRef → ConnRef → Bool) → List ConnRef → List ConnRef)
    (e : EdgeRef) (st : MuxState) (frm : frame) (rest : List frame)
    (hq : (st.edges e).queue = some { buffer := some (frm :: rest) })
    (hconn : frm.conn = some e)
    (hnc : frm.action ≠ A.FRAME_ACTION_CLOSE)
    (hncw : frm.action ≠ A.FRAME_ACTION_CLOSE_W)
    (hfail : ¬ (((st.edges e).conn.Write frm.data).1 = frm.length ∧
                ((st.edges e).conn.Write frm.data).2.1 = none)) :
    (equeue.sendLoopTurn A sortFn e st).1 = .exited ∧
    ((equeue.sendLoopTurn A sortFn e st).2.edges e).closed = TCP_CLOSE_R ||| TCP_CLOSE_W ∧
    ((equeue.sendLoopTurn A sortFn e st).2.edges e).queue = some { buffer := none } ∧
    ((equeue.sendLoopTurn A sortFn e st).2.edges e).conn
      = SafeClose ((st.edges e).conn.Write frm.data).2.2 ∧
    ((st.edges e).closed &&& TCP_CLOSE_W ≠ 0 →
      (equeue.sendLoopTurn A sortFn e st).2.upstream = st.upstream) ∧
    ((st.edges e).closed &&& TCP_CLOSE_W = 0 →
      (∀ t, (st.edges e).tun = some t → (st.localAddrNil t = false ∨ st.isClient = false) →
        (equeue.sendLoopTurn A sortFn e st).2.upstream
          = st.upstream ++ [(t, closeRFrame A frm)]) ∧
      (((st.edges e).tun = none ∨ (st.edges e).tun.any st.localAddrNil = true) →
        st.isClient = true →
        (equeue.sendLoopTurn A sortFn e st).2.upstream
          = st.upstream ++ (ConnPool.Select sortFn st.pool st.heap).1.toList.map
              (fun t => (t, closeRFrame A frm))) ∧
      ((st.edges e).tun = none → st.isClient = false →
        (equeue.sendLoopTurn A sortFn e st).2.upstream = st.upstream)) ∧
    ((closeRFrame A frm).sid = frm.sid ∧ (closeRFrame A frm).length = 0 ∧
      (closeRFrame A frm).action = A.FRAME_ACTION_CLOSE_R) ∧
    (∀ evs, (runQueue A sortFn e
        { status := (equeue.sendLoopTurn A sortFn e st).1,
          st := (equeue.sendLoopTurn A sortFn e st).2 } evs).st.upstream
      = (equeue.sendLoopTurn A sortFn e st).2.upstream) ∧
    (∀ (run0 : LoopRun) (evs : List QueueEvent),
      ∃ extra, (runQueue A sortFn e run0 evs).st.upstream = run0.st.upstream ++ extra ∧
        extra.length ≤ 1 ∧
        (∀ x ∈ extra, x.2.action = A.FRAME_ACTION_CLOSE_R ∧ x.2.length = 0)) ∧
    ((equeue.sendLoopTurn A sortFn e st).2.edges e).conn
      = { ((st.edges e).conn.Write frm.data).2.2 with closed := true } ∧
    ((equeue.sendLoopTurn A sortFn e st).2.edges e).conn.closed = true ∧
    ((equeue.sendLoopTurn A sortFn e st).2.edges e).closed = 3 ∧
    (TCP_CLOSE_R = 1 ∧ TCP_CLOSE_W = 2) ∧
    closeRFrame A frm = { frm with length := 0, action := A.FRAME_ACTION_CLOSE_R } := by
  -- the state after the frame was taken from the buffer and the write was tried
  have hturn : equeue.sendLoopTurn A sortFn e st =
      (.exited, sendLoopOnError A sortFn e
        ((st.modifyEdge e (fun ed => { ed with queue := some { buffer := some rest } })).modifyEdge e
          (fun ed => { ed with conn := ((st.edges e).conn.Write frm.data).2.2 })) frm) := by
    unfold equeue.sendLoopTurn
    rw [hq]
    simp only [if_neg hnc, if_neg hncw]
    rw [sendFrame_eq _ frm e hconn]
    simp only [modifyEdge_edges_same]
    rw [if_pos (decide_eq_true hfail)]
  have hedge := sendLoopOnError_edge A sortFn e
    ((st.modifyEdge e (fun ed => { ed with queue := some { buffer := some rest } })).modifyEdge e
      (fun ed => { ed with conn := ((st.edges e).conn.Write frm.data).2.2 })) frm
  have hup := notifyPeer_upstream A sortFn e
    ((st.modifyEdge e (fun ed => { ed with queue := some { buffer := some rest } })).modifyEdge e
      (fun ed => { ed with conn := ((st.edges e).conn.Write frm.data).2.2 })) frm
  have hpick : (pickTunnel sortFn e
      ((st.modifyEdge e (fun ed => { ed with queue := some { buffer := some rest } })).modifyEdge e
        (fun ed => { ed with conn := ((st.edges e).conn.Write frm.data).2.2 }))).1
        = (pickTunnel sortFn e st).1 := by
    unfold pickTunnel
    simp only [modifyEdge_edges_same, (modifyEdge_rest _ _ _).2.2.2.1,
      (modifyEdge_rest _ _ _).2.2.2.2.1, (modifyEdge_rest _ _ _).2.1,
      (modifyEdge_rest _ _ _).2.2.1]
    split <;> rfl
  simp only [modifyEdge_edges_same, (modifyEdge_rest _ _ _).1, hpick] at hedge hup
  rw [hturn]
  simp only
  have hupstream : (sendLoopOnError A sortFn e
      ((st.modifyEdge e (fun ed => { ed with queue := some { buffer := some rest } })).modifyEdge e
        (fun ed => { ed with conn := ((st.edges e).conn.Write frm.data).2.2 })) frm).upstream =
      if (st.edges e).closed &&& TCP_CLOSE_W = 0 then
        st.upstream ++ ((pickTunnel sortFn e st).1.toList.map (fun t => (t, closeRFrame A frm)))
      else st.upstream := by
    rw [hedge.2.2.2, hup]
  refine ⟨trivial, hedge.1, ?_, hedge.2.2.1, ?_, ?_, ⟨rfl, rfl, rfl⟩, ?_, ?_, hedge.2.2.1, ?_,
    hedge.1.trans (by decide), ⟨rfl, rfl⟩, rfl⟩
  · rw [hedge.2.1]
    rfl
  · intro hW
    rw [hupstream, if_neg hW]
  · intro hW
    rw [hupstream, if_pos hW]
    refine ⟨?_, ?_, ?_⟩
    · intro t ht hcase
      have : (pickTunnel sortFn e st).1 = some t := by
        unfold pickTunnel
        rw [if_neg, ht]
        rintro ⟨h1, h2⟩
        rcases hcase with h | h
        · rw [ht] at h1
          simp [h] at h1
        · rw [h] at h2
          exact absurd h2 (by decide)
      rw [this]
      rfl
    · intro h1 h2
      have : (pickTunnel sortFn e st).1 = (ConnPool.Select sortFn st.pool st.heap).1 := by
        unfold pickTunnel
        rw [if_pos ⟨h1, h2⟩]
      rw [this]
    · intro h1 h2
      have : (pickTunnel sortFn e st).1 = none := by
        unfold pickTunnel
        rw [if_neg, h1]
        rintro ⟨-, h⟩
        rw [h2] at h
        exact absurd h (by decide)
      rw [this]
      simp
  · intro evs
    exact (runQueue_upstream A sortFn e evs _).1 (fun h => LoopStatus.noConfusion h)
  · intro run0 evs
    exact (runQueue_upstream A sortFn e evs run0).2
  · rw [hedge.2.2.1]
    rfl

/-- C14 at a server-side edge of the tunnel 2 whose write of 7 8 9 takes one
byte and fails: the loop exits, `closed` is 3, the local connection is closed
and one `CLOSE_R` of the stream 1 and length 0 is sent on the tunnel 2. -/
theorem sendLoop_write_error_witness :
    (equeue.sendLoopTurn demoActions insertionSortBy 0 demoBrokenRouter).1 = .exited ∧
    ((equeue.sendLoopTurn demoActions insertionSortBy 0 demoBrokenRouter).2.edges 0).closed = 3 ∧
    (equeue.sendLoopTurn demoActions insertionSortBy 0 demoBrokenRouter).2.upstream =
      [(2, { action := 3, sid := 1, length := 0, data := [7, 8, 9], conn := some 0 })] ∧
    ((equeue.sendLoopTurn demoActions insertionSortBy 0 demoBrokenRouter).2.edges 0).conn
      = { written := [7], writeResults := [], isTCP := true, closed := true,
          writeClosed := false } :=
  have h := sendLoop_write_error demoActions insertionSortBy 0 demoBrokenRouter
    { demoDataFrame with conn := some 0 } [] (by decide) rfl (by decide) (by decide) (by decide)
  ⟨h.1, h.2.1.trans (by decide), (h.2.2.2.2.2.1 (by decide)).1 2 (by decide) (Or.inl rfl),
    h.2.2.2.2.2.2.2.2.2.1.trans (by decide)⟩

/-! ## Cleanup by the identifier of a tunnel (C15) -/

/-- C15 fails in the code: the tunnels 1 and 2 have the identifiers "a" and
"ab"; the stream 1 of the tunnel 2 is registered under "ab#1", and
`cleanOfTun` for the tunnel 1 removes that entry and enqueues a `CLOSE` onto
its edge, because "ab#1" begins with "a". -/
theorem cleanOfTun_removes_longer_identifier :
    demoServerRouter.identifier 1 = "a" ∧ demoServerRouter.identifier 2 = "ab" ∧
    lookupKey demoServerRouter.registry (streamKey (demoServerRouter.identifier 2) 1) = some 0 ∧
    (demoServerRouter.edges 0).queue = some { buffer := some [] } ∧
    lookupKey (egressRouter.cleanOfTun demoActions demoServerRouter 1).registry
      (streamKey (demoServerRouter.identifier 2) 1) = none ∧
    ((egressRouter.cleanOfTun demoActions demoServerRouter 1).edges 0).queue
      = some { buffer := some [closeSentinel demoActions] } := by
  decide

/-! ## The client manager (C16) and `Apply` (C17) -/

/-- C16 fails in the code: with two clients of which only the second is
available and the random number 0 (offset 0), the window
`indexChain[0 : 1]` is `[0]` and `selectClient` returns nil; likewise with
three clients of which only the second is available and the offset 2. -/
theorem selectClient_skips_last_client :
    (NewClientMgr [⟨-1⟩, ⟨0⟩]).num = 2 ∧
    (0 : Nat) < (NewClientMgr [⟨-1⟩, ⟨0⟩]).num <<< 4 ∧
    clientAvailable ((NewClientMgr [⟨-1⟩, ⟨0⟩]).clients.getD 1 none) = true ∧
    ((NewClientMgr [⟨-1⟩, ⟨0⟩]).indexChain.drop (0 >>> 4)).take 1 = [0] ∧
    clientMgr.selectClient (NewClientMgr [⟨-1⟩, ⟨0⟩]) 0 = .ret none ∧
    clientMgr.selectClient (NewClientMgr [⟨-1⟩, ⟨0⟩, ⟨-1⟩]) 32 = .ret none := by
  decide

/-- C17: `e.Apply(x)` carries the code of `e` and the message `e.msg`, a space and
`x`, and its `Warning()` is false; on pointers the result is a fresh
exception and `e` and every other exception stay as they were; the results of
`Apply` on the warnings `INCOMPATIBLE_VERSION` and `VALIDATION_FAILED` fail the
test of the first branch of `CatchException`, which therefore treats them
otherwise than the warnings themselves. -/
theorem Apply_not_warning :
    (∀ (e : Exception) (x : String),
      (e.Apply x).Code = e.Code ∧ (e.Apply x).Error = e.msg ++ " " ++ x ∧
      (e.Apply x).Warning = false) ∧
    (∀ (heap : ExceptionHeap) (p : Nat) (ex : Exception) (x : String), heap[p]? = some ex →
      ∃ q heap', Exception.ApplyAt heap p x = some (q, heap') ∧
        q ≠ p ∧ heap[q]? = none ∧ heap'[q]? = some (ex.Apply x) ∧
        (∀ i, i < heap.length → heap'[i]? = heap[i]?) ∧ heap'[p]? = some ex) ∧
    (INCOMPATIBLE_VERSION.Warning = true ∧ VALIDATION_FAILED.Warning = true) ∧
    (∀ v : String,
      Recovered.isWarning (.exception INCOMPATIBLE_VERSION) = true ∧
      Recovered.isWarning (.exception (INCOMPATIBLE_VERSION.Apply v)) = false ∧
      Recovered.isWarning (.exception VALIDATION_FAILED) = true ∧
      Recovered.isWarning (.exception (VALIDATION_FAILED.Apply v)) = false) ∧
    (∀ v : String,
      CatchException true (.exception INCOMPATIBLE_VERSION)
        = (true, [CatchLog.logError "Incompatible version"]) ∧
      CatchException true (.exception (INCOMPATIBLE_VERSION.Apply v))
        = (true, [CatchLog.printStack ("Incompatible version " ++ v)])) := by
  refine ⟨fun e x => ⟨rfl, rfl, rfl⟩, ?_, ⟨rfl, rfl⟩, fun v => ⟨rfl, rfl, rfl, rfl⟩,
    fun v => ⟨rfl, rfl⟩⟩
  intro heap p ex x hp
  have hlt : p < heap.length := by
    by_contra h
    rw [List.getElem?_eq_none (by omega)] at hp
    exact absurd hp (by simp)
  refine ⟨heap.length, heap ++ [ex.Apply x], ?_, by omega, ?_, ?_, ?_, ?_⟩
  · simp [Exception.ApplyAt, hp]
  · exact List.getElem?_eq_none (le_refl _)
  · simp
  · intro i hi
    exact List.getElem?_append_left hi
  · rw [List.getElem?_append_left hlt]
    exact hp

end Deblocus
